import Mathlib

/-!
# go-tracing-lib: retry processor, header carriers and envelope codec

A shallow embedding of the parts of `weeb-vip/go-tracing-lib` that carry
behaviour of their own:

* `examples/server_and_client_redis/processor/processor.go` (retry processor),
* `utils/redis/carrier.go`, `utils/rabbitmq/carrier.go` (header carriers),
* `utils/redis/producer.go`, `utils/redis/consumer.go` (inject / extract glue),
* `tracing/tracing.go` (the propagator that is installed),
* `examples/server_and_client_redis/publisher/redis_publisher.go` and
  `examples/server_and_client_redis/consumer/redis_consumer.go` (envelope codec).

The libraries these files call (`cenkalti/backoff`, `go.opentelemetry.io/otel`,
`encoding/base64`, `encoding/json`, `mapstructure`) are modelled as far as the
files use them.

Conventions.  A Go `error` is an `Option Error` (`none` is `nil`).  Pointer
receivers become explicit state passing: a function returns the new value of
what it mutates, and a collaborator that is handed a pointer returns what it
leaves behind it.  Calls to collaborators (handler, publisher, `time.Sleep`,
logger) are recorded in a call log so that "is invoked exactly once" and
"is never invoked" are statements about that log.  A Go `string` is a sequence
of bytes where the code writes it out (`json.Marshal`), and a text where it is
only passed on.  `float64` arithmetic is IEEE 754 binary64.
-/

namespace GoTracing

/-! ## Basic types -/

/-- Go `error` values, identified by their message. -/
abbrev Error := String

/-- Go `time.Duration`: a signed count of nanoseconds. -/
abbrev Duration := Int

/-- Go `time.Time`, as nanoseconds since the zero `Time`. -/
abbrev Time := Int

def Millisecond : Duration := 1000000
def Second : Duration := 1000 * Millisecond
def Minute : Duration := 60 * Second

/-- Largest `time.Duration` (`1<<63 - 1`). -/
def maxDuration : Duration := 2 ^ 63 - 1
/-- Smallest `time.Duration` (`-1 << 63`). -/
def minDuration : Duration := -(2 ^ 63)

/-- Go `Time.Sub`: the difference, saturated to the range of `Duration`. -/
def Time.Sub (t u : Time) : Duration :=
  if t - u > maxDuration then maxDuration
  else if t - u < minDuration then minDuration
  else t - u

/-- Truncation of a rational toward zero. -/
def truncToDuration (q : ℚ) : Duration := Int.tdiv q.num q.den

/-- A byte. -/
abbrev Byte := Fin 256

/-- The byte with the given value, reduced modulo 256. -/
def byteOf (n : Nat) : Byte := ⟨n % 256, Nat.mod_lt _ (by decide)⟩

/-- A Go `interface{}` value as it occurs in message headers and stream
payloads: a string, or a value of another dynamic type. -/
inductive Any where
  | str (s : String)
  | int (i : Int)
  | bool (b : Bool)
  | bytes (bs : List Nat)
  | null
deriving DecidableEq, Repr

/-! ## The envelope (`publisher.Event[T]`) -/

/-- The struct `publisher.EventHeader`. -/
structure EventHeader where
  Key : String
  TraceParent : String
  TraceState : String
deriving DecidableEq, Repr

/-- The struct `publisher.Event[T]`. -/
structure Event (T : Type) where
  EventHeader : EventHeader
  Payload : T
  Retries : Int
deriving DecidableEq, Repr

/-! ## UTF-8 (`unicode/utf8`) -/

namespace utf8

/-- The function `utf8.EncodeRune` on a Unicode scalar value. -/
def encodeRune (c : Char) : List Byte :=
  if c.toNat < 0x80 then [byteOf c.toNat]
  else if c.toNat < 0x800 then [byteOf (0xC0 + c.toNat / 64), byteOf (0x80 + c.toNat % 64)]
  else if c.toNat < 0x10000 then
    [byteOf (0xE0 + c.toNat / 4096), byteOf (0x80 + c.toNat / 64 % 64),
      byteOf (0x80 + c.toNat % 64)]
  else
    [byteOf (0xF0 + c.toNat / 262144), byteOf (0x80 + c.toNat / 4096 % 64),
      byteOf (0x80 + c.toNat / 64 % 64), byteOf (0x80 + c.toNat % 64)]

/-- The bytes of a Go string that holds the given text. -/
def encode (s : String) : List Byte := s.data.flatMap encodeRune

/-- A continuation byte. -/
def isCont (b : Byte) : Bool := decide (0x80 ≤ b.val ∧ b.val ≤ 0xBF)

/-- The function `utf8.DecodeRune`: the rune at the start of the bytes and its
width; `none` stands for `RuneError` with width 1 (and for no bytes at all). -/
def decodeRune : List Byte → Option (Char × Nat)
  | [] => none
  | b0 :: rest =>
    if b0.val < 0x80 then some (Char.ofNat b0.val, 1)
    else if 0xC2 ≤ b0.val ∧ b0.val ≤ 0xDF then
      match rest with
      | b1 :: _ =>
        if isCont b1 then some (Char.ofNat ((b0.val - 0xC0) * 64 + (b1.val - 0x80)), 2)
        else none
      | _ => none
    else if 0xE0 ≤ b0.val ∧ b0.val ≤ 0xEF then
      match rest with
      | b1 :: b2 :: _ =>
        if (if b0.val = 0xE0 then 0xA0 else 0x80) ≤ b1.val ∧
            b1.val ≤ (if b0.val = 0xED then 0x9F else 0xBF) ∧ isCont b2 then
          some (Char.ofNat ((b0.val - 0xE0) * 4096 + (b1.val - 0x80) * 64 + (b2.val - 0x80)), 3)
        else none
      | _ => none
    else if 0xF0 ≤ b0.val ∧ b0.val ≤ 0xF4 then
      match rest with
      | b1 :: b2 :: b3 :: _ =>
        if (if b0.val = 0xF0 then 0x90 else 0x80) ≤ b1.val ∧
            b1.val ≤ (if b0.val = 0xF4 then 0x8F else 0xBF) ∧ isCont b2 ∧ isCont b3 then
          some (Char.ofNat ((b0.val - 0xF0) * 262144 + (b1.val - 0x80) * 4096 +
            (b2.val - 0x80) * 64 + (b3.val - 0x80)), 4)
        else none
      | _ => none
    else none

end utf8

/-! ## The envelope as Go holds it

A Go `string` is a sequence of bytes, which need not be valid UTF-8.  The
struct `EventHeader` above holds texts; the struct below holds the strings of
the header as Go does. -/

/-- The struct `publisher.EventHeader`, its strings as sequences of bytes. -/
structure RawEventHeader where
  Key : List Byte
  TraceParent : List Byte
  TraceState : List Byte
deriving DecidableEq, Repr

/-- The struct `publisher.Event[T]`, the strings of its header as sequences of
bytes. -/
structure RawEvent (T : Type) where
  EventHeader : RawEventHeader
  Payload : T
  Retries : Int
deriving DecidableEq, Repr

/-- The header whose strings hold the given texts. -/
def EventHeader.raw (h : EventHeader) : RawEventHeader :=
  { Key := utf8.encode h.Key, TraceParent := utf8.encode h.TraceParent,
    TraceState := utf8.encode h.TraceState }

/-- The envelope whose header strings hold the given texts. -/
def Event.raw {T : Type} (e : Event T) : RawEvent T :=
  { EventHeader := e.EventHeader.raw, Payload := e.Payload, Retries := e.Retries }

/-! ## Floating point (`float64`)

Go's `float64` is IEEE 754 binary64.  Every operation returns its exact
result rounded to the nearest value, ties to even, as the code compiled for
amd64 computes it (no fused multiply-add). -/

namespace float64

/-- A `float64` value: a finite one, given by the rational number it denotes
(the sign of a zero is not kept), an infinity, or a NaN. -/
inductive Value where
  | finite (q : ℚ)
  | inf (negative : Bool)
  | nan
deriving DecidableEq, Repr

/-- The exponent of the binade of a rational: `⌊log₂ |q|⌋`, and the least
exponent of a normal number for what lies below the normal range. -/
def exponent (q : ℚ) : Int := max (Int.log 2 |q|) (-1022)

/-- The spacing of the `float64` values around a rational: the significand has
53 bits. -/
def ulp (q : ℚ) : ℚ := (2 : ℚ) ^ (exponent q - 52)

/-- The integer nearest to a rational, the even one of the two when it lies
half-way. -/
def roundHalfEven (x : ℚ) : Int :=
  if x - ⌊x⌋ < 1 / 2 then ⌊x⌋
  else if x - ⌊x⌋ > 1 / 2 then ⌊x⌋ + 1
  else if ⌊x⌋ % 2 = 0 then ⌊x⌋ else ⌊x⌋ + 1

/-- The rational rounded to the nearest point of the grid of its binade, ties
to even, before the range of the exponent is looked at. -/
def nearest (q : ℚ) : ℚ := (roundHalfEven (q / ulp q) : ℚ) * ulp q

/-- The `float64` result of an operation whose exact result is the given
rational: round to nearest, ties to even, and what rounds beyond the largest
finite value becomes an infinity. -/
def round (q : ℚ) : Value :=
  if (2 : ℚ) ^ 1024 ≤ |nearest q| then Value.inf (decide (q < 0)) else Value.finite (nearest q)

/-- The conversion `float64(i)` of an integer. -/
def ofInt (i : Int) : Value := round (i : ℚ)

/-- The `float64` value of a field or of a draw given as a rational. -/
def ofRat (q : ℚ) : Value := round q

/-- Negation. -/
def neg : Value → Value
  | Value.finite a => Value.finite (-a)
  | Value.inf s => Value.inf (!s)
  | Value.nan => Value.nan

/-- Addition. -/
def add : Value → Value → Value
  | Value.finite a, Value.finite b => round (a + b)
  | Value.finite _, Value.inf t => Value.inf t
  | Value.inf s, Value.finite _ => Value.inf s
  | Value.inf s, Value.inf t => if s = t then Value.inf s else Value.nan
  | Value.nan, _ => Value.nan
  | _, Value.nan => Value.nan

/-- Subtraction. -/
def sub (a b : Value) : Value := add a (neg b)

/-- Multiplication. -/
def mul : Value → Value → Value
  | Value.finite a, Value.finite b => round (a * b)
  | Value.finite a, Value.inf t => if a = 0 then Value.nan else Value.inf (t != decide (a < 0))
  | Value.inf s, Value.finite b => if b = 0 then Value.nan else Value.inf (s != decide (b < 0))
  | Value.inf s, Value.inf t => Value.inf (s != t)
  | Value.nan, _ => Value.nan
  | _, Value.nan => Value.nan

/-- Division; a zero divisor counts as `+0`. -/
def div : Value → Value → Value
  | Value.finite a, Value.finite b =>
    if b = 0 then (if a = 0 then Value.nan else Value.inf (decide (a < 0))) else round (a / b)
  | Value.finite _, Value.inf _ => Value.finite 0
  | Value.inf s, Value.finite b => Value.inf (s != decide (b < 0))
  | Value.inf _, Value.inf _ => Value.nan
  | Value.nan, _ => Value.nan
  | _, Value.nan => Value.nan

/-- The comparison `a >= b`; it is false when either side is a NaN. -/
def ge : Value → Value → Bool
  | Value.finite a, Value.finite b => decide (a ≥ b)
  | Value.finite _, Value.inf t => t
  | Value.inf s, Value.finite _ => !s
  | Value.inf s, Value.inf t => !s || t
  | Value.nan, _ => false
  | _, Value.nan => false

/-- The conversion `time.Duration(f)`: truncation toward zero; for a NaN, an
infinity and a value outside the range of `int64` the result is the smallest
`int64`, as the conversion instruction of amd64 gives it. -/
def toDuration : Value → Duration
  | Value.finite q =>
    if -(2 ^ 63) ≤ truncToDuration q ∧ truncToDuration q < 2 ^ 63 then truncToDuration q
    else -(2 ^ 63)
  | _ => -(2 ^ 63)

end float64

/-! ## The backoff generator (`github.com/cenkalti/backoff`)

The processor drives an `*backoff.ExponentialBackOff`.  Its `float64` fields
are finite values, given by the rationals they denote; its arithmetic is that
of `float64`.  The readings of `Clock.Now()` and the draw of `rand.Float64()`
are inputs. -/

namespace backoff

/-- The constant `backoff.Stop`. -/
def Stop : Duration := -1

def DefaultInitialInterval : Duration := 500 * Millisecond
def DefaultRandomizationFactor : ℚ := 1 / 2
def DefaultMultiplier : ℚ := 3 / 2
def DefaultMaxInterval : Duration := 60 * Second
def DefaultMaxElapsedTime : Duration := 15 * Minute

/-- The struct `backoff.ExponentialBackOff` (the `Clock` field is the input
`now` of the operations below). -/
structure ExponentialBackOff where
  InitialInterval : Duration
  RandomizationFactor : ℚ
  Multiplier : ℚ
  MaxInterval : Duration
  MaxElapsedTime : Duration
  currentInterval : Duration
  startTime : Time
deriving DecidableEq, Repr

/-- The method `Reset`: back to the initial interval, restart the elapsed-time clock. -/
def ExponentialBackOff.Reset (b : ExponentialBackOff) (now : Time) : ExponentialBackOff :=
  { b with currentInterval := b.InitialInterval, startTime := now }

/-- The method `GetElapsedTime`. -/
def ExponentialBackOff.GetElapsedTime (b : ExponentialBackOff) (now : Time) : Duration :=
  Time.Sub now b.startTime

/-- The function `getRandomValueFromInterval`. -/
def getRandomValueFromInterval (randomizationFactor random : ℚ)
    (currentInterval : Duration) : Duration :=
  let delta := float64.mul (float64.ofRat randomizationFactor) (float64.ofInt currentInterval)
  let minInterval := float64.sub (float64.ofInt currentInterval) delta
  let maxInterval := float64.add (float64.ofInt currentInterval) delta
  float64.toDuration (float64.add minInterval
    (float64.mul (float64.ofRat random)
      (float64.add (float64.sub maxInterval minInterval) (float64.ofInt 1))))

/-- The method `incrementCurrentInterval`. -/
def ExponentialBackOff.incrementCurrentInterval (b : ExponentialBackOff) :
    ExponentialBackOff :=
  if float64.ge (float64.ofInt b.currentInterval)
      (float64.div (float64.ofInt b.MaxInterval) (float64.ofRat b.Multiplier)) = true then
    { b with currentInterval := b.MaxInterval }
  else
    { b with
      currentInterval := float64.toDuration
        (float64.mul (float64.ofInt b.currentInterval) (float64.ofRat b.Multiplier)) }

/-- The method `NextBackOff`: `Stop` once the elapsed time is over
`MaxElapsedTime`, else a randomized value around the current interval, after
which the current interval grows. -/
def ExponentialBackOff.NextBackOff (b : ExponentialBackOff) (now : Time) (random : ℚ) :
    Duration × ExponentialBackOff :=
  if b.MaxElapsedTime ≠ 0 ∧ b.GetElapsedTime now > b.MaxElapsedTime then
    (Stop, b)
  else
    (getRandomValueFromInterval b.RandomizationFactor random b.currentInterval,
      b.incrementCurrentInterval)

end backoff

/-! ## The retry processor (`processor.go`) -/

/-- The struct `processor.PublisherConfig`. -/
structure PublisherConfig where
  MaxInterval : Duration
  MaxElapsedTime : Duration
deriving DecidableEq, Repr

/-- The variable `ErrMaxRetries`. -/
def ErrMaxRetries : Error := "max retries"

/-- A call `Process` makes to a collaborator. -/
inductive Call (T : Type) where
  | handler (payload : T)
  | logError (err : Error)
  | publish (event : Event T)
  | sleep (d : Duration)
deriving DecidableEq, Repr

/-- A `ProcessorFunc[T]`: a handler acting on the payload and on the state `W`
of the world outside the processor. -/
abbrev ProcessorFunc (T W : Type) := T → W → Option Error × W

/-- The interface `Publisher[T]`: its one method `Publish`.  It is handed the
pointer to the envelope, so next to its error and the world it returns the
envelope behind that pointer as it leaves it. -/
abbrev Publisher (T W : Type) := Event T → W → Option Error × W × Event T

/-- The struct `ProcessorImpl[T]`. -/
structure ProcessorImpl (T W : Type) where
  exponentialBackOff : backoff.ExponentialBackOff
  publisher : Publisher T W

/-- What the environment supplies during one `Process` call. -/
structure Oracle where
  /-- the reading of `Clock.Now()` inside `NextBackOff` -/
  nowNext : Time
  /-- the draw of `rand.Float64()` inside `NextBackOff` -/
  random : ℚ
  /-- the reading of `Clock.Now()` inside the `Reset` that follows `Stop` -/
  nowStop : Time
  /-- the reading of `Clock.Now()` inside the `Reset` that follows a success -/
  nowDone : Time
deriving DecidableEq, Repr

/-- Everything one `Process` call leaves behind. -/
structure Outcome (T W : Type) where
  /-- the returned `error` -/
  result : Option Error
  /-- the generator `p.exponentialBackOff` after the call -/
  backOff : backoff.ExponentialBackOff
  /-- the envelope behind the pointer `request` after the call -/
  request : Event T
  /-- the world after the call -/
  world : W
  /-- the calls made, in order -/
  calls : List (Call T)

/-- The function `NewProcessor`. -/
def NewProcessor {T W : Type} (publisher : Publisher T W) (cfg : PublisherConfig) :
    ProcessorImpl T W :=
  let maxInterval :=
    if cfg.MaxInterval ≠ 0 then cfg.MaxInterval else backoff.DefaultMaxInterval
  let maxElapsedTime :=
    if cfg.MaxElapsedTime ≠ 0 then cfg.MaxElapsedTime else backoff.DefaultMaxElapsedTime
  { exponentialBackOff :=
      { InitialInterval := backoff.DefaultInitialInterval
        RandomizationFactor := backoff.DefaultRandomizationFactor
        Multiplier := backoff.DefaultMultiplier
        MaxInterval := maxInterval
        MaxElapsedTime := maxElapsedTime
        currentInterval := 0
        startTime := 0 }
    publisher := publisher }

/-- The method `ProcessorImpl.Process`. -/
def ProcessorImpl.Process {T W : Type} (p : ProcessorImpl T W) (request : Event T)
    (fn : ProcessorFunc T W) (o : Oracle) (w : W) : Outcome T W :=
  if request.Retries ≥ 10 then
    { result := some ErrMaxRetries, backOff := p.exponentialBackOff,
      request := request, world := w, calls := [] }
  else
    let next := p.exponentialBackOff.NextBackOff o.nowNext o.random
    let duration := next.1
    let b := if duration = backoff.Stop then next.2.Reset o.nowStop else next.2
    let ran := fn request.Payload w
    match ran.1 with
    | some err =>
      let request := { request with Retries := request.Retries + 1 }
      let pub := p.publisher request ran.2
      match pub.1 with
      | some perr =>
        { result := some perr, backOff := b, request := pub.2.2, world := pub.2.1,
          calls := [Call.handler request.Payload, Call.logError err, Call.publish request] }
      | none =>
        { result := none, backOff := b, request := pub.2.2, world := pub.2.1,
          calls := [Call.handler request.Payload, Call.logError err, Call.publish request,
            Call.sleep duration] }
    | none =>
      { result := none, backOff := b.Reset o.nowDone, request := request, world := ran.2,
        calls := [Call.handler request.Payload] }

/-- The handler payloads in a call log. -/
def handlerCalls {T : Type} : List (Call T) → List T
  | [] => []
  | Call.handler x :: cs => x :: handlerCalls cs
  | _ :: cs => handlerCalls cs

/-- The envelopes handed to `Publish` in a call log. -/
def publishCalls {T : Type} : List (Call T) → List (Event T)
  | [] => []
  | Call.publish e :: cs => e :: publishCalls cs
  | _ :: cs => publishCalls cs

/-- The durations handed to `time.Sleep` in a call log. -/
def sleepCalls {T : Type} : List (Call T) → List Duration
  | [] => []
  | Call.sleep d :: cs => d :: sleepCalls cs
  | _ :: cs => sleepCalls cs

/-! ## Header carriers

A Go map is a finite map with distinct keys, here an `AList`.  Reading a key
that is absent gives the zero value of the value type.  The carriers are
built over an allocated map (`NewEventCarrier(nil)` and the AMQP helpers make
one), so `Set` always has a map to write to.  The order in which `range`
visits a map is unspecified; `Keys` below visits it in the order of the
association list, and the theorems about `Keys` hold up to permutation. -/

namespace redis

/-- Go `map[string]string`. -/
abbrev Headers := AList (fun _ : String => String)

/-- The struct `redis.EventCarrier`. -/
structure EventCarrier where
  headers : Headers

/-- The method `Set`: `e.headers[key] = value`. -/
def EventCarrier.Set (e : EventCarrier) (key value : String) : EventCarrier :=
  { headers := e.headers.insert key value }

/-- The method `Get`: `e.headers[key]`, the empty string for an absent key. -/
def EventCarrier.Get (e : EventCarrier) (key : String) : String :=
  match e.headers.lookup key with
  | some value => value
  | none => ""

/-- The method `Keys`. -/
def EventCarrier.Keys (e : EventCarrier) : List String :=
  e.headers.entries.foldl (fun keys kv => keys ++ [kv.1]) []

/-- The function `NewEventCarrier`: `none` is the `nil` pointer. -/
def NewEventCarrier (headers : Option Headers) : EventCarrier :=
  match headers with
  | some h => { headers := h }
  | none => { headers := ∅ }

end redis

namespace rabbitmq

/-- Go `map[string]interface{}`, the headers of an `amqp.Table`. -/
abbrev Headers := AList (fun _ : String => Any)

/-- The struct `rabbitmq.EventCarrier`. -/
structure EventCarrier where
  headers : Headers

/-- The method `Get`: the value when the key is present and holds a string,
else the empty string. -/
def EventCarrier.Get (c : EventCarrier) (key : String) : String :=
  match c.headers.lookup key with
  | some (Any.str s) => s
  | _ => ""

/-- The method `Set`: `c.headers[key] = value`. -/
def EventCarrier.Set (c : EventCarrier) (key value : String) : EventCarrier :=
  { headers := c.headers.insert key (Any.str value) }

/-- The method `Keys`. -/
def EventCarrier.Keys (c : EventCarrier) : List String :=
  c.headers.entries.foldl (fun keys kv => keys ++ [kv.1]) []

end rabbitmq

/-! ## Trace-context propagation (`go.opentelemetry.io/otel`)

The propagator that `SetupOTelSDK` installs is the composite of the W3C
trace-context propagator and the baggage propagator.  The trace state and
the baggage are carried as the strings they are written as. -/

namespace trace

/-- The struct `trace.SpanContext`: the identifiers as numbers (16 and 8 bytes,
big endian), the flags byte, the trace state as written, the remote mark. -/
structure SpanContext where
  TraceID : Nat
  SpanID : Nat
  TraceFlags : Nat
  TraceState : String
  Remote : Bool
deriving DecidableEq, Repr

/-- The zero `SpanContext`. -/
def SpanContext.zero : SpanContext :=
  { TraceID := 0, SpanID := 0, TraceFlags := 0, TraceState := "", Remote := false }

/-- The method `IsValid`: both identifiers are non-zero. -/
def SpanContext.IsValid (sc : SpanContext) : Bool :=
  decide (sc.TraceID ≠ 0) && decide (sc.SpanID ≠ 0)

end trace

/-- A `context.Context`, as far as propagation reads and writes it. -/
structure Context where
  /-- what `trace.SpanContextFromContext` returns -/
  spanContext : trace.SpanContext
  /-- what `baggage.FromContext(ctx).String()` returns -/
  baggage : String
deriving DecidableEq, Repr

namespace propagation

/-- The interface `propagation.TextMapPropagator`.  A propagator reaches a
carrier only through `Set` when injecting and through `Get` and `Keys` when
extracting. -/
structure TextMapPropagator where
  /-- the calls `carrier.Set(key, value)` that `Inject(ctx, carrier)` makes, in order -/
  Inject : Context → List (String × String)
  /-- the result of `Extract(ctx, carrier)`, given `carrier.Get` and `carrier.Keys()` -/
  Extract : Context → (String → String) → List String → Context

/-- Lower-case hexadecimal digit. -/
def hexChar (d : Nat) : Char :=
  if d < 10 then Char.ofNat (48 + d) else Char.ofNat (87 + d)

/-- Fixed-width lower-case hexadecimal, as `hex.Encode` writes the bytes of an identifier. -/
def hexEncode : Nat → Nat → List Char
  | 0, _ => []
  | w + 1, n => hexEncode w (n / 16) ++ [hexChar (n % 16)]

/-- The value of a lower-case hexadecimal digit. -/
def hexVal (c : Char) : Option Nat :=
  if 48 ≤ c.toNat ∧ c.toNat ≤ 57 then some (c.toNat - 48)
  else if 97 ≤ c.toNat ∧ c.toNat ≤ 102 then some (c.toNat - 87)
  else none

/-- The value of a run of lower-case hexadecimal digits. -/
def hexDecode : List Char → Nat → Option Nat
  | [], acc => some acc
  | c :: cs, acc =>
    match hexVal c with
    | some d => hexDecode cs (acc * 16 + d)
    | none => none

/-- The call `strings.Cut(h, "-")`: the text before the first `-` and the text after it. -/
def cut : List Char → List Char × List Char
  | [] => ([], [])
  | c :: cs => if c = '-' then ([], cs) else (c :: (cut cs).1, (cut cs).2)

/-- The function `extractPart`: the next `-`-separated part, which must be `n`
lower-case hexadecimal digits; its value and the rest. -/
def extractPart (h : List Char) (n : Nat) : Option (Nat × List Char) :=
  if (cut h).1.length ≠ n then none
  else
    match hexDecode (cut h).1 0 with
    | some v => some (v, (cut h).2)
    | none => none

/-- The value `TraceContext.Inject` writes under `traceparent`. -/
def traceparentOf (sc : trace.SpanContext) : String :=
  String.mk ("00".data ++ '-' :: (hexEncode 32 sc.TraceID ++ '-' ::
    (hexEncode 16 sc.SpanID ++ '-' :: hexEncode 2 (sc.TraceFlags % 2))))

/-- The method `TraceContext.extract`. -/
def TraceContext.extract (get : String → String) : trace.SpanContext :=
  if get "traceparent" = "" then trace.SpanContext.zero
  else
    match extractPart (get "traceparent").data 2 with
    | none => trace.SpanContext.zero
    | some (version, h1) =>
      if version > 254 then trace.SpanContext.zero
      else
        match extractPart h1 32 with
        | none => trace.SpanContext.zero
        | some (traceID, h2) =>
          match extractPart h2 16 with
          | none => trace.SpanContext.zero
          | some (spanID, h3) =>
            match extractPart h3 2 with
            | none => trace.SpanContext.zero
            | some (opts, h4) =>
              if version = 0 ∧ (h4 ≠ [] ∨ opts > 2) then trace.SpanContext.zero
              else
                let sc : trace.SpanContext :=
                  { TraceID := traceID, SpanID := spanID, TraceFlags := opts % 2,
                    TraceState := get "tracestate", Remote := true }
                if sc.IsValid then sc else trace.SpanContext.zero

/-- The propagator `propagation.TraceContext{}` (W3C Trace Context). -/
def TraceContext : TextMapPropagator :=
  { Inject := fun ctx =>
      if ctx.spanContext.IsValid then
        (if ctx.spanContext.TraceState ≠ "" then [("tracestate", ctx.spanContext.TraceState)]
          else []) ++ [("traceparent", traceparentOf ctx.spanContext)]
      else []
    Extract := fun ctx get _ =>
      if (TraceContext.extract get).IsValid then
        { ctx with spanContext := TraceContext.extract get }
      else ctx }

/-- The propagator `propagation.Baggage{}`. -/
def Baggage : TextMapPropagator :=
  { Inject := fun ctx => if ctx.baggage ≠ "" then [("baggage", ctx.baggage)] else []
    Extract := fun ctx get _ =>
      if get "baggage" = "" then ctx else { ctx with baggage := get "baggage" } }

/-- The function `NewCompositeTextMapPropagator`: each propagator in turn. -/
def NewCompositeTextMapPropagator (ps : List TextMapPropagator) : TextMapPropagator :=
  { Inject := fun ctx => ps.flatMap fun p => p.Inject ctx
    Extract := fun ctx get keys => ps.foldl (fun c p => p.Extract c get keys) ctx }

end propagation

namespace tracing

/-- The function `newPropagator`: W3C trace context, then baggage. -/
def newPropagator : propagation.TextMapPropagator :=
  propagation.NewCompositeTextMapPropagator [propagation.TraceContext, propagation.Baggage]

end tracing

namespace redis

/-- Go map indexing `headers[key]` on a `map[string]string`. -/
def index (headers : Headers) (key : String) : String :=
  match headers.lookup key with
  | some value => value
  | none => ""

/-- The interface `RedisMessage[T]`, implemented by the message type `M`. -/
structure RedisMessage (M T : Type) where
  Headers : M → GoTracing.redis.Headers
  SetHeaders : M → GoTracing.redis.Headers → M
  GetMsg : M → T

/-- The function `WrapPublishMessage`; `prop` is `otel.GetTextMapPropagator()`. -/
def WrapPublishMessage {M T : Type} (prop : propagation.TextMapPropagator)
    (I : RedisMessage M T) (ctx : Context) (msg : M) : M :=
  let headers := NewEventCarrier none
  let headers := (prop.Inject ctx).foldl (fun c kv => c.Set kv.1 kv.2) headers
  I.SetHeaders msg headers.headers

/-- The function `ExtractTraceContext`; `prop` is `otel.GetTextMapPropagator()`. -/
def ExtractTraceContext {M T : Type} (prop : propagation.TextMapPropagator)
    (I : RedisMessage M T) (ctx : Context) (message : M) : Context :=
  let h : EventCarrier := { headers := I.Headers message }
  prop.Extract ctx h.Get h.Keys

end redis

/-- The method `Event.Headers`. -/
def Event.Headers {T : Type} (c : Event T) : redis.Headers :=
  (∅ : redis.Headers).insert "traceparent" c.EventHeader.TraceParent

/-- The method `Event.SetHeaders`. -/
def Event.SetHeaders {T : Type} (c : Event T) (headers : redis.Headers) : Event T :=
  { c with EventHeader :=
      { c.EventHeader with
        TraceParent := redis.index headers "traceparent"
        TraceState := redis.index headers "tracestate" } }

/-- The method `Event.GetMsg`. -/
def Event.GetMsg {T : Type} (c : Event T) : Event T := c

/-- The type `*Event[T]` as a `RedisMessage[Event[T]]`. -/
def Event.redisMessage {T : Type} : redis.RedisMessage (Event T) (Event T) :=
  { Headers := Event.Headers, SetHeaders := Event.SetHeaders, GetMsg := Event.GetMsg }

/-! ## Encodings used by the publisher and the consumer -/

namespace base64

/-- The alphabet of `base64.StdEncoding`: the character of a 6-bit value. -/
def encodeStd (s : Nat) : Char :=
  if s < 26 then Char.ofNat (65 + s)
  else if s < 52 then Char.ofNat (71 + s)
  else if s < 62 then Char.ofNat (s - 4)
  else if s = 62 then '+'
  else '/'

/-- The decoding table of `base64.StdEncoding`: the 6-bit value of a character. -/
def decodeMap (c : Char) : Option Nat :=
  if 65 ≤ c.toNat ∧ c.toNat ≤ 90 then some (c.toNat - 65)
  else if 97 ≤ c.toNat ∧ c.toNat ≤ 122 then some (c.toNat - 71)
  else if 48 ≤ c.toNat ∧ c.toNat ≤ 57 then some (c.toNat + 4)
  else if c = '+' then some 62
  else if c = '/' then some 63
  else none

/-- The encoder of `StdEncoding`: three bytes become four characters, the
last group is padded with `=`. -/
def encodeChars : List Byte → List Char
  | [] => []
  | [a] => [encodeStd (a.val / 4), encodeStd (a.val % 4 * 16), '=', '=']
  | [a, b] =>
    [encodeStd (a.val / 4), encodeStd (a.val % 4 * 16 + b.val / 16),
      encodeStd (b.val % 16 * 4), '=']
  | a :: b :: c :: rest =>
    encodeStd (a.val / 4) :: encodeStd (a.val % 4 * 16 + b.val / 16) ::
      encodeStd (b.val % 16 * 4 + c.val / 64) :: encodeStd (c.val % 64) :: encodeChars rest

/-- The decoder of `StdEncoding`: four characters at a time, padding only in
the last group; `none` is a `CorruptInputError`. -/
def decodeChars : List Char → Option (List Byte)
  | [] => some []
  | c1 :: c2 :: c3 :: c4 :: rest =>
    if rest = [] ∧ c3 = '=' ∧ c4 = '=' then
      match decodeMap c1, decodeMap c2 with
      | some s1, some s2 => some [byteOf (s1 * 4 + s2 / 16)]
      | _, _ => none
    else if rest = [] ∧ c4 = '=' then
      match decodeMap c1, decodeMap c2, decodeMap c3 with
      | some s1, some s2, some s3 =>
        some [byteOf (s1 * 4 + s2 / 16), byteOf (s2 % 16 * 16 + s3 / 4)]
      | _, _, _ => none
    else
      match decodeMap c1, decodeMap c2, decodeMap c3, decodeMap c4, decodeChars rest with
      | some s1, some s2, some s3, some s4, some bs =>
        some (byteOf (s1 * 4 + s2 / 16) :: byteOf (s2 % 16 * 16 + s3 / 4) ::
          byteOf (s3 % 4 * 64 + s4) :: bs)
      | _, _, _, _, _ => none
  | _ => none

/-- The function `base64.StdEncoding.EncodeToString`. -/
def EncodeToString (src : List Byte) : String := String.mk (encodeChars src)

/-- The function `base64.StdEncoding.DecodeString`: carriage returns and line
feeds are skipped. -/
def DecodeString (s : String) : Option (List Byte) :=
  decodeChars (s.data.filter fun c => c ≠ '\r' ∧ c ≠ '\n')

end base64

namespace json

/-- A JSON document. `num` is an integer literal, `lit` any other number
literal, kept as written. -/
inductive Value where
  | null
  | bool (b : Bool)
  | num (n : Int)
  | lit (text : String)
  | str (s : String)
  | arr (items : List Value)
  | obj (members : List (String × Value))

/-- The text level of `encoding/json`: how `Marshal` writes a document and how
`Unmarshal` reads one (`none` is a syntax error). -/
structure Text where
  render : Value → List Byte
  parse : List Byte → Option Value

/-- How `encoding/json` treats the payload type `T`: its zero value, its
marshalling (which may fail) and its unmarshalling into the zero value. -/
structure Codec (T : Type) where
  zero : T
  toJson : T → Option Value
  fromJson : Value → Option T

/-- ASCII lower case of a key, for the case-insensitive match of field names. -/
def lowerKey (key : String) : String := String.mk (key.data.map Char.toLower)

/-- A JSON value stored into a Go `string` field: `null` leaves it as it is. -/
def intoString (v : Value) (cur : String) : Option String :=
  match v with
  | Value.str s => some s
  | Value.null => some cur
  | _ => none

/-- A JSON value stored into a Go `int` field: `null` leaves it as it is, a
literal outside the 64-bit range is an error. -/
def intoInt (v : Value) (cur : Int) : Option Int :=
  match v with
  | Value.num n => if -(2 ^ 63) ≤ n ∧ n < 2 ^ 63 then some n else none
  | Value.null => some cur
  | _ => none

/-- The members of a JSON object stored into an `EventHeader`, by the `json`
tags `key`, `traceparent`, `tracestate`; other members are skipped. -/
def intoHeaderMembers : List (String × Value) → EventHeader → Option EventHeader
  | [], h => some h
  | (k, v) :: rest, h =>
    if lowerKey k = "key" then
      match intoString v h.Key with
      | some s => intoHeaderMembers rest { h with Key := s }
      | none => none
    else if lowerKey k = "traceparent" then
      match intoString v h.TraceParent with
      | some s => intoHeaderMembers rest { h with TraceParent := s }
      | none => none
    else if lowerKey k = "tracestate" then
      match intoString v h.TraceState with
      | some s => intoHeaderMembers rest { h with TraceState := s }
      | none => none
    else intoHeaderMembers rest h

/-- A JSON value stored into an `EventHeader`. -/
def intoHeader (v : Value) (cur : EventHeader) : Option EventHeader :=
  match v with
  | Value.obj members => intoHeaderMembers members cur
  | Value.null => some cur
  | _ => none

/-- The members of a JSON object stored into an `Event[T]`, by the `json` tags
`header`, `payload`, `retries`; other members are skipped. -/
def intoEventMembers {T : Type} (codec : Codec T) :
    List (String × Value) → Event T → Option (Event T)
  | [], e => some e
  | (k, v) :: rest, e =>
    if lowerKey k = "header" then
      match intoHeader v e.EventHeader with
      | some h => intoEventMembers codec rest { e with EventHeader := h }
      | none => none
    else if lowerKey k = "payload" then
      match codec.fromJson v with
      | some x => intoEventMembers codec rest { e with Payload := x }
      | none => none
    else if lowerKey k = "retries" then
      match intoInt v e.Retries with
      | some n => intoEventMembers codec rest { e with Retries := n }
      | none => none
    else intoEventMembers codec rest e

/-- A JSON value stored into an `Event[T]`. -/
def intoEvent {T : Type} (codec : Codec T) (v : Value) (cur : Event T) : Option (Event T) :=
  match v with
  | Value.obj members => intoEventMembers codec members cur
  | Value.null => some cur
  | _ => none

/-- The document `Marshal` writes for an `EventHeader`. -/
def ofHeader (h : EventHeader) : Value :=
  Value.obj [("key", Value.str h.Key), ("traceparent", Value.str h.TraceParent),
    ("tracestate", Value.str h.TraceState)]

/-- The document `Marshal` writes for an `Event[T]` whose payload is written as `payload`. -/
def ofEvent {T : Type} (e : Event T) (payload : Value) : Value :=
  Value.obj [("header", ofHeader e.EventHeader), ("payload", payload),
    ("retries", Value.num e.Retries)]

/-! The text level of `encoding/json`: what `json.Marshal` writes (compact,
with the escaping of HTML characters it has by default, as of Go 1.22) and
what `json.Unmarshal` accepts. -/

namespace encode

/-- The table `hex` of `encode.go`: a lower-case hexadecimal digit. -/
def hex (n : Nat) : Byte := byteOf (if n < 10 then 48 + n else 87 + n)

/-- The table `htmlSafeSet`: the ASCII bytes written as they are. -/
def htmlSafe (b : Byte) : Bool :=
  decide (0x20 ≤ b.val ∧ b.val < 0x80 ∧ b.val ≠ 34 ∧ b.val ≠ 92 ∧ b.val ≠ 60 ∧ b.val ≠ 62 ∧
    b.val ≠ 38)

/-- What `appendString` writes for an ASCII byte. -/
def escapeASCII (b : Byte) : List Byte :=
  if htmlSafe b then [b]
  else if b.val = 92 ∨ b.val = 34 then [byteOf 92, b]
  else if b.val = 8 then [byteOf 92, byteOf 98]
  else if b.val = 12 then [byteOf 92, byteOf 102]
  else if b.val = 10 then [byteOf 92, byteOf 110]
  else if b.val = 13 then [byteOf 92, byteOf 114]
  else if b.val = 9 then [byteOf 92, byteOf 116]
  else [byteOf 92, byteOf 117, byteOf 48, byteOf 48, hex (b.val / 16), hex (b.val % 16)]

/-- The loop of `appendString` over the bytes of a string: an ASCII byte is
written or escaped, a byte that starts no valid UTF-8 sequence is written as
the escape of U+FFFD, the separators U+2028 and U+2029 are escaped, every other sequence
is copied.  The first argument bounds the number of rounds. -/
def stringBody : Nat → List Byte → List Byte
  | 0, _ => []
  | _ + 1, [] => []
  | fuel + 1, b :: rest =>
    if b.val < 0x80 then escapeASCII b ++ stringBody fuel rest
    else
      match utf8.decodeRune (b :: rest) with
      | none =>
        [byteOf 92, byteOf 117, byteOf 102, byteOf 102, byteOf 102, byteOf 100] ++
          stringBody fuel rest
      | some (c, size) =>
        if c.toNat = 0x2028 ∨ c.toNat = 0x2029 then
          [byteOf 92, byteOf 117, byteOf 50, byteOf 48, byteOf 50, hex (c.toNat % 16)] ++
            stringBody fuel ((b :: rest).drop size)
        else (b :: rest).take size ++ stringBody fuel ((b :: rest).drop size)

/-- What `appendString` writes for one rune of a valid text. -/
def rune (c : Char) : List Byte :=
  if c.toNat < 0x80 then escapeASCII (byteOf c.toNat)
  else if c.toNat = 0x2028 ∨ c.toNat = 0x2029 then
    [byteOf 92, byteOf 117, byteOf 50, byteOf 48, byteOf 50, hex (c.toNat % 16)]
  else utf8.encodeRune c

/-- The function `appendString`: a Go string as a JSON string. -/
def string (src : List Byte) : List Byte :=
  byteOf 34 :: stringBody src.length src ++ [byteOf 34]

/-- The decimal digits of a natural number; the first argument bounds their
number. -/
def digits : Nat → Nat → List Byte
  | 0, _ => []
  | fuel + 1, n =>
    if n < 10 then [byteOf (48 + n)] else digits fuel (n / 10) ++ [byteOf (48 + n % 10)]

/-- The function `strconv.AppendInt` in base 10. -/
def int (n : Int) : List Byte :=
  if n < 0 then byteOf 45 :: digits (n.natAbs + 1) n.natAbs else digits (n.natAbs + 1) n.natAbs

mutual
/-- The compact text of a document. -/
def value : Value → List Byte
  | Value.null => [byteOf 110, byteOf 117, byteOf 108, byteOf 108]
  | Value.bool true => [byteOf 116, byteOf 114, byteOf 117, byteOf 101]
  | Value.bool false => [byteOf 102, byteOf 97, byteOf 108, byteOf 115, byteOf 101]
  | Value.num n => int n
  | Value.lit text => utf8.encode text
  | Value.str s => string (utf8.encode s)
  | Value.arr items => byteOf 91 :: elements items ++ [byteOf 93]
  | Value.obj members => byteOf 123 :: fields members ++ [byteOf 125]
/-- The items of an array, separated by commas. -/
def elements : List Value → List Byte
  | [] => []
  | [v] => value v
  | v :: w :: vs => value v ++ byteOf 44 :: elements (w :: vs)
/-- The members of an object, separated by commas. -/
def fields : List (String × Value) → List Byte
  | [] => []
  | [(k, v)] => string (utf8.encode k) ++ byteOf 58 :: value v
  | (k, v) :: m :: ms =>
    string (utf8.encode k) ++ byteOf 58 :: value v ++ byteOf 44 :: fields (m :: ms)
end

end encode

namespace decode

/-- White space between the tokens of a document. -/
def isSpace (b : Byte) : Bool := decide (b.val = 32 ∨ b.val = 9 ∨ b.val = 13 ∨ b.val = 10)

/-- The input after the white space at its start. -/
def skipSpace : List Byte → List Byte
  | [] => []
  | b :: rest => if isSpace b then skipSpace rest else b :: rest

/-- The value of a hexadecimal digit. -/
def hexVal (b : Byte) : Option Nat :=
  if 48 ≤ b.val ∧ b.val ≤ 57 then some (b.val - 48)
  else if 97 ≤ b.val ∧ b.val ≤ 102 then some (b.val - 87)
  else if 65 ≤ b.val ∧ b.val ≤ 70 then some (b.val - 55)
  else none

/-- The function `getu4`: the number that a `\uXXXX` at the start of the input
denotes. -/
def getu4 : List Byte → Option Nat
  | b :: u :: h1 :: h2 :: h3 :: h4 :: _ =>
    if b.val = 92 ∧ u.val = 117 then
      match hexVal h1, hexVal h2, hexVal h3, hexVal h4 with
      | some a, some b, some c, some d => some (a * 4096 + b * 256 + c * 16 + d)
      | _, _, _, _ => none
    else none
  | _ => none

/-- The character that a one-letter escape denotes. -/
def unescape (b : Byte) : Option Char :=
  if b.val = 34 then some '"'
  else if b.val = 92 then some '\\'
  else if b.val = 47 then some '/'
  else if b.val = 98 then some (Char.ofNat 8)
  else if b.val = 102 then some (Char.ofNat 12)
  else if b.val = 110 then some '\n'
  else if b.val = 114 then some '\r'
  else if b.val = 116 then some '\t'
  else none

/-- A JSON string after its opening quote, up to its closing quote: the text
it denotes and the input that follows.  An escaped surrogate that has no
partner and a byte that starts no valid UTF-8 sequence become U+FFFD; a
control character is an error.  The first argument bounds the number of
rounds. -/
def stringBody : Nat → List Byte → List Char → Option (String × List Byte)
  | 0, _, _ => none
  | _ + 1, [], _ => none
  | fuel + 1, b :: rest, acc =>
    if b.val = 34 then some (String.mk acc.reverse, rest)
    else if b.val = 92 then
      match rest with
      | [] => none
      | e :: r =>
        if e.val = 117 then
          match getu4 (b :: rest) with
          | none => none
          | some rr =>
            if 0xD800 ≤ rr ∧ rr < 0xE000 then
              match getu4 (r.drop 4) with
              | some rr1 =>
                if rr < 0xDC00 ∧ 0xDC00 ≤ rr1 ∧ rr1 < 0xE000 then
                  stringBody fuel (r.drop 10)
                    (Char.ofNat (0x10000 + (rr - 0xD800) * 1024 + (rr1 - 0xDC00)) :: acc)
                else stringBody fuel (r.drop 4) (Char.ofNat 0xFFFD :: acc)
              | none => stringBody fuel (r.drop 4) (Char.ofNat 0xFFFD :: acc)
            else stringBody fuel (r.drop 4) (Char.ofNat rr :: acc)
        else
          match unescape e with
          | some c => stringBody fuel r (c :: acc)
          | none => none
    else if b.val < 0x20 then none
    else if b.val < 0x80 then stringBody fuel rest (Char.ofNat b.val :: acc)
    else
      match utf8.decodeRune (b :: rest) with
      | some (c, size) => stringBody fuel ((b :: rest).drop size) (c :: acc)
      | none => stringBody fuel rest (Char.ofNat 0xFFFD :: acc)

/-- A decimal digit. -/
def isDigit (b : Byte) : Bool := decide (48 ≤ b.val ∧ b.val ≤ 57)

/-- The digits at the start of the input, and the input that follows them. -/
def digits : List Byte → List Byte × List Byte
  | [] => ([], [])
  | b :: rest => if isDigit b then (b :: (digits rest).1, (digits rest).2) else ([], b :: rest)

/-- The number that a run of digits denotes. -/
def natOf (ds : List Byte) : Nat := ds.foldl (fun n d => n * 10 + (d.val - 48)) 0

/-- The fraction of a number, if there is one: a point and at least one digit. -/
def fraction : List Byte → Option (List Byte × List Byte)
  | [] => some ([], [])
  | b :: rest =>
    if b.val = 46 then
      if (digits rest).1 = [] then none else some (b :: (digits rest).1, (digits rest).2)
    else some ([], b :: rest)

/-- The exponent of a number, if there is one: `e` or `E`, a sign or none, and
at least one digit. -/
def exponent : List Byte → Option (List Byte × List Byte)
  | [] => some ([], [])
  | b :: rest =>
    if b.val = 101 ∨ b.val = 69 then
      match rest with
      | s :: r =>
        if s.val = 43 ∨ s.val = 45 then
          if (digits r).1 = [] then none else some (b :: s :: (digits r).1, (digits r).2)
        else if (digits rest).1 = [] then none
        else some (b :: (digits rest).1, (digits rest).2)
      | [] => none
    else some ([], b :: rest)

/-- The text that ASCII bytes hold. -/
def ascii (bs : List Byte) : String := String.mk (bs.map fun b => Char.ofNat b.val)

/-- A number that is not negative: an integer literal becomes `num`, a literal
with a fraction or an exponent is kept as written, after the given sign. -/
def unsigned (sign : List Byte) : List Byte → Option (Value × List Byte)
  | [] => none
  | d :: rest =>
    if isDigit d then
      match fraction (if d.val = 48 then rest else (digits rest).2) with
      | none => none
      | some (frac, r1) =>
        match exponent r1 with
        | none => none
        | some (exp, r2) =>
          if frac = [] ∧ exp = [] then
            some (Value.num (if sign = [] then (natOf (if d.val = 48 then [d] else d :: (digits rest).1) : Int)
              else -(natOf (if d.val = 48 then [d] else d :: (digits rest).1) : Int)), r2)
          else
            some (Value.lit (ascii (sign ++ (if d.val = 48 then [d] else d :: (digits rest).1) ++
              frac ++ exp)), r2)
    else none

/-- A number at the start of the input. -/
def number : List Byte → Option (Value × List Byte)
  | [] => none
  | b :: rest => if b.val = 45 then unsigned [b] rest else unsigned [] (b :: rest)

/-- What follows cannot continue a number: the end of the input, or a byte
that is neither a digit nor a point nor an exponent mark. -/
def endsNumber : List Byte → Bool
  | [] => true
  | b :: _ => !isDigit b && decide (b.val ≠ 46 ∧ b.val ≠ 101 ∧ b.val ≠ 69)

/-- A text is a number with a fraction or an exponent, as the decoder reads
it. -/
def isLiteral (text : String) : Bool :=
  match number (utf8.encode text) with
  | some (Value.lit t, []) => decide (t = text)
  | _ => false

/-- The constant `maxNestingDepth` of `scanner.go`. -/
def maxNestingDepth : Nat := 10000

mutual
/-- A value at the start of the input, after white space: the document and the
input that follows.  The first argument bounds the number of rounds, the
second is the number of arrays and objects that may still be opened. -/
def value : Nat → Nat → List Byte → Option (Value × List Byte)
  | 0, _, _ => none
  | fuel + 1, depth, inp =>
    match skipSpace inp with
    | [] => none
    | b :: rest =>
      if b.val = 110 then
        match rest with
        | u :: l1 :: l2 :: r =>
          if u.val = 117 ∧ l1.val = 108 ∧ l2.val = 108 then some (Value.null, r) else none
        | _ => none
      else if b.val = 116 then
        match rest with
        | r1 :: u :: e :: r =>
          if r1.val = 114 ∧ u.val = 117 ∧ e.val = 101 then some (Value.bool true, r) else none
        | _ => none
      else if b.val = 102 then
        match rest with
        | a :: l :: s :: e :: r =>
          if a.val = 97 ∧ l.val = 108 ∧ s.val = 115 ∧ e.val = 101 then
            some (Value.bool false, r)
          else none
        | _ => none
      else if b.val = 34 then
        match stringBody rest.length rest [] with
        | some (s, r) => some (Value.str s, r)
        | none => none
      else if b.val = 91 then
        match depth with
        | 0 => none
        | depth + 1 =>
          match skipSpace rest with
          | [] => none
          | c :: r =>
            if c.val = 93 then some (Value.arr [], r)
            else
              match elements fuel depth (c :: r) with
              | some (items, r1) => some (Value.arr items, r1)
              | none => none
      else if b.val = 123 then
        match depth with
        | 0 => none
        | depth + 1 =>
          match skipSpace rest with
          | [] => none
          | c :: r =>
            if c.val = 125 then some (Value.obj [], r)
            else
              match fields fuel depth (c :: r) with
              | some (members, r1) => some (Value.obj members, r1)
              | none => none
      else number (b :: rest)
/-- The items of an array up to its closing bracket. -/
def elements : Nat → Nat → List Byte → Option (List Value × List Byte)
  | 0, _, _ => none
  | fuel + 1, depth, inp =>
    match value fuel depth inp with
    | none => none
    | some (v, r) =>
      match skipSpace r with
      | [] => none
      | c :: r1 =>
        if c.val = 44 then
          match elements fuel depth r1 with
          | some (vs, r2) => some (v :: vs, r2)
          | none => none
        else if c.val = 93 then some ([v], r1)
        else none
/-- The members of an object up to its closing brace. -/
def fields : Nat → Nat → List Byte → Option (List (String × Value) × List Byte)
  | 0, _, _ => none
  | fuel + 1, depth, inp =>
    match skipSpace inp with
    | [] => none
    | q :: rest =>
      if q.val = 34 then
        match stringBody rest.length rest [] with
        | none => none
        | some (k, r) =>
          match skipSpace r with
          | [] => none
          | c :: r1 =>
            if c.val = 58 then
              match value fuel depth r1 with
              | none => none
              | some (v, r2) =>
                match skipSpace r2 with
                | [] => none
                | d :: r3 =>
                  if d.val = 44 then
                    match fields fuel depth r3 with
                    | some (ms, r4) => some ((k, v) :: ms, r4)
                    | none => none
                  else if d.val = 125 then some ([(k, v)], r3)
                  else none
            else none
      else none
end

/-- A whole input as one document: a value, with white space around it and
nothing else. -/
def document (data : List Byte) : Option Value :=
  match value (data.length + 1) maxNestingDepth data with
  | some (v, r) => if skipSpace r = [] then some v else none
  | none => none

end decode

mutual
/-- A document that `Marshal` can have written: its number literals are
numbers. -/
def Value.wellFormed : Value → Bool
  | Value.lit text => decode.isLiteral text
  | Value.arr items => Value.wellFormedItems items
  | Value.obj members => Value.wellFormedMembers members
  | _ => true
/-- Every item of an array is a document that `Marshal` can have written. -/
def Value.wellFormedItems : List Value → Bool
  | [] => true
  | v :: vs => Value.wellFormed v && Value.wellFormedItems vs
/-- Every member of an object is a document that `Marshal` can have written. -/
def Value.wellFormedMembers : List (String × Value) → Bool
  | [] => true
  | (_, v) :: ms => Value.wellFormed v && Value.wellFormedMembers ms
end

mutual
/-- The number of arrays and objects nested in one another in a document. -/
def Value.depth : Value → Nat
  | Value.arr items => Value.depthItems items + 1
  | Value.obj members => Value.depthMembers members + 1
  | _ => 0
/-- The largest depth of the items of an array. -/
def Value.depthItems : List Value → Nat
  | [] => 0
  | v :: vs => max (Value.depth v) (Value.depthItems vs)
/-- The largest depth of the members of an object. -/
def Value.depthMembers : List (String × Value) → Nat
  | [] => 0
  | (_, v) :: ms => max (Value.depth v) (Value.depthMembers ms)
end

/-- The text level of `encoding/json`. -/
def std : Text := { render := encode.value, parse := decode.document }

namespace encode

/-- What `Marshal` writes for an `EventHeader`: the fields in the order of the
struct, under their tags. -/
def header (h : RawEventHeader) : List Byte :=
  byteOf 123 :: string (utf8.encode "key") ++ byteOf 58 :: string h.Key ++
    byteOf 44 :: string (utf8.encode "traceparent") ++ byteOf 58 :: string h.TraceParent ++
    byteOf 44 :: string (utf8.encode "tracestate") ++ byteOf 58 :: string h.TraceState ++
    [byteOf 125]

/-- What `Marshal` writes for an `Event[T]` whose payload is written as the
document `payload`. -/
def event {T : Type} (e : RawEvent T) (payload : Value) : List Byte :=
  byteOf 123 :: string (utf8.encode "header") ++ byteOf 58 :: header e.EventHeader ++
    byteOf 44 :: string (utf8.encode "payload") ++ byteOf 58 :: value payload ++
    byteOf 44 :: string (utf8.encode "retries") ++ byteOf 58 :: int e.Retries ++ [byteOf 125]

end encode

/-- The function `json.Marshal` on an `*Event[T]`. -/
def Marshal {T : Type} (codec : Codec T) (e : RawEvent T) : Except Error (List Byte) :=
  match codec.toJson e.Payload with
  | some payload => Except.ok (encode.event e payload)
  | none => Except.error "json: error calling MarshalJSON"

/-- The function `json.Unmarshal` into an `*Event[T]`. -/
def Unmarshal {T : Type} (text : Text) (codec : Codec T) (data : List Byte)
    (into : Event T) : Except Error (Event T) :=
  match text.parse data with
  | none => Except.error "json: syntax error"
  | some v =>
    match intoEvent codec v into with
    | some e => Except.ok e
    | none => Except.error "json: cannot unmarshal"

end json

/-- The struct `publisher.BaseEvent`. -/
structure BaseEvent where
  Data : String
deriving DecidableEq, Repr

/-- Go `map[string]interface{}`, the field-value pairs of a stream entry. -/
abbrev StreamValues := AList (fun _ : String => Any)

namespace mapstructure

/-- The call `mapstructure.Decode(baseEvent, &request)` into an empty map: the
one field under its tag `data`. -/
def fromBaseEvent (b : BaseEvent) : StreamValues :=
  (∅ : StreamValues).insert "data" (Any.str b.Data)

/-- The value `Decode` finds for the field tagged `data`: the entry of that
name, else the first entry whose name matches without regard to case. -/
def findData (data : StreamValues) : Option Any :=
  match data.lookup "data" with
  | some v => some v
  | none =>
    match data.entries.find? (fun kv => json.lowerKey kv.1 = "data") with
    | some kv => some kv.2
    | none => none

/-- The call `mapstructure.Decode(data, &baseEvent)` into a zero `BaseEvent`:
a string is stored, `nil` and a missing entry leave the field empty, a value
of another type is an error. -/
def toBaseEvent (data : StreamValues) : Except Error BaseEvent :=
  match findData data with
  | none => Except.ok { Data := "" }
  | some (Any.str s) => Except.ok { Data := s }
  | some Any.null => Except.ok { Data := "" }
  | some _ => Except.error "'data' expected type 'string'"

end mapstructure

/-! ## Publisher and consumer of the Redis example -/

/-- The method `PublishToStream` of the interface `publisher.RedisClient`. -/
abbrev PublishToStreamFunc (W : Type) := String → StreamValues → W → Except Error String × W

/-- The struct `publisher.RedisPublisher[T]`. -/
structure RedisPublisher (W : Type) where
  streamKey : String
  RedisClient : PublishToStreamFunc W

/-- The function `NewRedisPublisher`. -/
def NewRedisPublisher {W : Type} (streamKey : String) (redisClient : PublishToStreamFunc W) :
    RedisPublisher W :=
  { streamKey := streamKey, RedisClient := redisClient }

/-- What one `Publish` call leaves behind. -/
structure PublishOutcome (W : Type) where
  result : Option Error
  world : W
  /-- the calls of `PublishToStream`: stream key and payload -/
  published : List (String × StreamValues)

/-- The method `RedisPublisher.Publish`; `none` is the `nil` event. -/
def RedisPublisher.Publish {T W : Type} (codec : json.Codec T)
    (p : RedisPublisher W) (event : Option (RawEvent T)) (w : W) : PublishOutcome W :=
  match event with
  | none => { result := some "event is nil", world := w, published := [] }
  | some event =>
    match json.Marshal codec event with
    | Except.error err =>
      { result := some ("failed to marshal event: " ++ err), world := w, published := [] }
    | Except.ok jsonPayload =>
      let base64Payload := base64.EncodeToString jsonPayload
      let baseEvent : BaseEvent := { Data := base64Payload }
      let request := mapstructure.fromBaseEvent baseEvent
      let sent := p.RedisClient p.streamKey request w
      match sent.1 with
      | Except.error err =>
        { result := some ("failed to publish event: " ++ err), world := sent.2,
          published := [(p.streamKey, request)] }
      | Except.ok _ =>
        { result := none, world := sent.2, published := [(p.streamKey, request)] }

/-- A `RedisConsumerFunc[T]`. -/
abbrev RedisConsumerFunc (T W : Type) := Event T → W → Option Error × W

/-- A `redis.ConsumerFunc`. -/
abbrev ConsumerFunc (W : Type) := StreamValues → W → Option Error × W

/-- The method `ConsumeStream` of the interface `consumer.RedisClient`, with
its parameters in the order of the interface. -/
abbrev ConsumeStreamFunc (W : Type) :=
  (streamKey consumerName consumerGroup : String) → ConsumerFunc W → W → Option Error × W

/-- The struct `consumer.RedisConsumer[T]`. -/
structure RedisConsumer (W : Type) where
  streamKey : String
  consumerGroup : String
  consumerName : String
  RedisClient : ConsumeStreamFunc W

/-- The function `NewRedisConsumer`. -/
def NewRedisConsumer {W : Type} (streamKey consumerName consumerGroup : String)
    (redisClient : ConsumeStreamFunc W) : RedisConsumer W :=
  { streamKey := streamKey, consumerGroup := consumerGroup, consumerName := consumerName,
    RedisClient := redisClient }

/-- What one run of the callback of `Consume` leaves behind. -/
structure CallbackOutcome (T W : Type) where
  result : Option Error
  world : W
  /-- the events handed to `fn`, in order -/
  handled : List (Event T)

/-- The function literal `Consume` hands to `ConsumeStream` (logging left out). -/
def RedisConsumer.callback {T W : Type} (text : json.Text) (codec : json.Codec T)
    (fn : RedisConsumerFunc T W) (data : StreamValues) (w : W) : CallbackOutcome T W :=
  match mapstructure.toBaseEvent data with
  | Except.error err =>
    { result := some ("failed to decode redis event: " ++ err), world := w, handled := [] }
  | Except.ok baseEvent =>
    match base64.DecodeString baseEvent.Data with
    | none =>
      { result := some "failed to decode base64 data: illegal base64 data", world := w,
        handled := [] }
    | some payload =>
      let zero : Event T :=
        { EventHeader := { Key := "", TraceParent := "", TraceState := "" },
          Payload := codec.zero, Retries := 0 }
      match json.Unmarshal text codec payload zero with
      | Except.error err => { result := some err, world := w, handled := [] }
      | Except.ok request =>
        let ran := fn request w
        match ran.1 with
        | some err =>
          { result := some ("failed to consume redis event: " ++ err), world := ran.2,
            handled := [request] }
        | none => { result := none, world := ran.2, handled := [request] }

/-- The method `RedisConsumer.Consume`. -/
def RedisConsumer.Consume {T W : Type} (text : json.Text) (codec : json.Codec T)
    (c : RedisConsumer W) (fn : RedisConsumerFunc T W) (w : W) : Option Error × W :=
  c.RedisClient c.streamKey c.consumerName c.consumerGroup
    (fun data w =>
      ((RedisConsumer.callback text codec fn data w).result,
        (RedisConsumer.callback text codec fn data w).world))
    w

/-- Lines 78 to 82 of `Process`: the duration computed for this call and the
generator as the handler finds it (`NextBackOff`, then `Reset` on `Stop`). -/
def ProcessorImpl.beforeHandler {T W : Type} (p : ProcessorImpl T W) (o : Oracle) :
    Duration × backoff.ExponentialBackOff :=
  let next := p.exponentialBackOff.NextBackOff o.nowNext o.random
  let duration := next.1
  if duration = backoff.Stop then (duration, next.2.Reset o.nowStop) else (duration, next.2)

/-! ## The stream client of the Redis example (`redis/redis.go`)

The embedded go-redis client is a record of the commands the file issues, each
acting on the state `W` of the world.  Every command issued and every call of
the handler function is recorded as a step, with the error it returned, and a
read with the streams it returned as well.  The
endless `for` loop of `ConsumeStream` runs for a given number of rounds; a run
that has not returned when the rounds are used up has `err = none`. -/

namespace examples.redis

/-- The struct `redis.XMessage` of go-redis. -/
structure XMessage where
  ID : String
  Values : StreamValues

/-- The struct `redis.XStream` of go-redis. -/
structure XStream where
  Stream : String
  Messages : List XMessage

/-- The struct `redis.XReadGroupArgs` of go-redis. -/
structure XReadGroupArgs where
  Group : String
  Consumer : String
  Streams : List String
  Count : Int
  Block : Duration
  NoAck : Bool
deriving DecidableEq, Repr

/-- The struct `redis.XAddArgs` of go-redis, as far as it is filled in. -/
structure XAddArgs where
  Stream : String
  NoMkStream : Bool
  ID : String
  Values : StreamValues

/-- The commands of the go-redis client that `redis.go` issues. -/
structure Commands (W : Type) where
  XInfoStreamFull : String → Int → W → Option Error × W
  XGroupCreateMkStream : String → String → String → W → Option Error × W
  XGroupCreate : String → String → String → W → Option Error × W
  XAdd : XAddArgs → W → Except Error String × W
  XReadGroup : XReadGroupArgs → W → Except Error (List XStream) × W
  XAck : String → String → String → W → Option Error × W

/-- The struct `Client`; `conn` is the embedded `*redis.Client`. -/
structure Client (W : Type) where
  conn : Commands W

/-- A command issued to the server, or a call of the handler function, with
the error it returned; a read also with the streams it returned (none when it
failed). -/
inductive Step where
  | xinfoStreamFull (stream : String) (err : Option Error)
  | xgroupCreateMkStream (stream group start : String) (err : Option Error)
  | xgroupCreate (stream group start : String) (err : Option Error)
  | xadd (stream : String) (err : Option Error)
  | xreadGroup (args : XReadGroupArgs) (streams : List XStream) (err : Option Error)
  | fn (values : StreamValues) (err : Option Error)
  | xack (stream group id : String) (err : Option Error)

/-- What a function of the client leaves behind: the error it returned, the
world, and the steps it took, in order. -/
structure Run (W : Type) where
  err : Option Error
  world : W
  steps : List Step

/-- The variable `errConsumerGroupExist`. -/
def errConsumerGroupExist : Error := "consumer group already exists"

/-- The variable `ErrStreamDoesNotExist`. -/
def ErrStreamDoesNotExist : Error := "stream does not exist"

/-- The method `checkStreamExistence`. -/
def Client.checkStreamExistence {W : Type} (c : Client W) (streamKey : String) (w : W) :
    Run W :=
  let info := c.conn.XInfoStreamFull streamKey 0 w
  match info.1 with
  | some err =>
    if err = "ERR no such key" then
      { err := some ErrStreamDoesNotExist, world := info.2,
        steps := [Step.xinfoStreamFull streamKey (some err)] }
    else
      { err := none, world := info.2, steps := [Step.xinfoStreamFull streamKey (some err)] }
  | none => { err := none, world := info.2, steps := [Step.xinfoStreamFull streamKey none] }

/-- The method `createStream`. -/
def Client.createStream {W : Type} (c : Client W) (streamKey consumerGroup : String) (w : W) :
    Run W :=
  let made := c.conn.XGroupCreateMkStream streamKey consumerGroup "$" w
  match made.1 with
  | some err =>
    { err := some ("failed to create stream: " ++ err), world := made.2,
      steps := [Step.xgroupCreateMkStream streamKey consumerGroup "$" (some err)] }
  | none =>
    { err := none, world := made.2,
      steps := [Step.xgroupCreateMkStream streamKey consumerGroup "$" none] }

/-- What `PublishToStream` leaves behind: the identifier as well. -/
structure PublishRun (W : Type) where
  id : String
  err : Option Error
  world : W
  steps : List Step

/-- The method `PublishToStream`. -/
def Client.PublishToStream {W : Type} (c : Client W) (streamKey : String)
    (payload : StreamValues) (w : W) : PublishRun W :=
  let checked := c.checkStreamExistence streamKey w
  match checked.err with
  | some err => { id := "", err := some err, world := checked.world, steps := checked.steps }
  | none =>
    let added := c.conn.XAdd
      { Stream := streamKey, NoMkStream := false, ID := "*", Values := payload } checked.world
    match added.1 with
    | Except.error err =>
      { id := "", err := some ("failed to publish to stream: " ++ err), world := added.2,
        steps := checked.steps ++ [Step.xadd streamKey (some err)] }
    | Except.ok id =>
      { id := id, err := none, world := added.2,
        steps := checked.steps ++ [Step.xadd streamKey none] }

/-- The method `createConsumerGroup`. -/
def Client.createConsumerGroup {W : Type} (c : Client W) (streamKey consumerGroup : String)
    (w : W) : Run W :=
  let made := c.conn.XGroupCreate streamKey consumerGroup "$" w
  match made.1 with
  | some err =>
    if err = "BUSYGROUP Consumer Group name already exists" then
      { err := some errConsumerGroupExist, world := made.2,
        steps := [Step.xgroupCreate streamKey consumerGroup "$" (some err)] }
    else
      { err := some ("failed to create consumer group: " ++ err), world := made.2,
        steps := [Step.xgroupCreate streamKey consumerGroup "$" (some err)] }
  | none =>
    { err := none, world := made.2, steps := [Step.xgroupCreate streamKey consumerGroup "$" none] }

/-- The function literal `msgHandler` of `ConsumeStream`: call the handler
function, then acknowledge the message, whatever the handler function
returned. -/
def Client.msgHandler {W : Type} (c : Client W) (consumerGroup : String) (fn : ConsumerFunc W)
    (stream : String) (message : XMessage) (w : W) : Run W :=
  let ran := fn message.Values w
  let acked := c.conn.XAck stream consumerGroup message.ID ran.2
  match acked.1 with
  | some err =>
    { err := some ("failed to ACK message (" ++ message.ID ++ "): " ++ err), world := acked.2,
      steps := [Step.fn message.Values ran.1,
        Step.xack stream consumerGroup message.ID (some err)] }
  | none =>
    { err := none, world := acked.2,
      steps := [Step.fn message.Values ran.1, Step.xack stream consumerGroup message.ID none] }

/-- The loop `for _, message := range result.Messages`: the message handler
on each message, returning at the first error. -/
def Client.handleMessages {W : Type} (c : Client W) (consumerGroup : String)
    (fn : ConsumerFunc W) (stream : String) : List XMessage → W → Run W
  | [], w => { err := none, world := w, steps := [] }
  | message :: rest, w =>
    let handled := c.msgHandler consumerGroup fn stream message w
    match handled.err with
    | some err => { err := some err, world := handled.world, steps := handled.steps }
    | none =>
      let others := handleMessages c consumerGroup fn stream rest handled.world
      { err := others.err, world := others.world, steps := handled.steps ++ others.steps }

/-- The loop `for _, result := range ...` over the streams of one read. -/
def Client.handleStreams {W : Type} (c : Client W) (consumerGroup : String)
    (fn : ConsumerFunc W) : List XStream → W → Run W
  | [], w => { err := none, world := w, steps := [] }
  | result :: rest, w =>
    let handled := c.handleMessages consumerGroup fn result.Stream result.Messages w
    match handled.err with
    | some err => { err := some err, world := handled.world, steps := handled.steps }
    | none =>
      let others := handleStreams c consumerGroup fn rest handled.world
      { err := others.err, world := others.world, steps := handled.steps ++ others.steps }

/-- The arguments of the read of new messages. -/
def newMessagesArgs (streamKey consumerGroup consumerName : String) : XReadGroupArgs :=
  { Streams := [streamKey, ">"], Group := consumerGroup, Consumer := consumerName,
    Block := 0, Count := 1, NoAck := false }

/-- The arguments of the read of pending messages. -/
def pendingArgs (streamKey consumerGroup consumerName : String) : XReadGroupArgs :=
  { Streams := [streamKey, "0"], Group := consumerGroup, Consumer := consumerName,
    Block := 100, Count := 0, NoAck := false }

/-- The endless loop of `ConsumeStream`, for `rounds` rounds: read new
messages, handle them, return at the first error. -/
def Client.listen {W : Type} (c : Client W) (streamKey consumerGroup consumerName : String)
    (fn : ConsumerFunc W) : Nat → W → Run W
  | 0, w => { err := none, world := w, steps := [] }
  | rounds + 1, w =>
    let read := c.conn.XReadGroup (newMessagesArgs streamKey consumerGroup consumerName) w
    match read.1 with
    | Except.error err =>
      { err := some ("failed to read messages: " ++ err), world := read.2
        steps := [Step.xreadGroup (newMessagesArgs streamKey consumerGroup consumerName) []
          (some err)] }
    | Except.ok mainStream =>
      let handled := c.handleStreams consumerGroup fn mainStream read.2
      match handled.err with
      | some err =>
        { err := some err, world := handled.world
          steps := Step.xreadGroup (newMessagesArgs streamKey consumerGroup consumerName)
            mainStream none :: handled.steps }
      | none =>
        let later := listen c streamKey consumerGroup consumerName fn rounds handled.world
        { err := later.err, world := later.world
          steps := Step.xreadGroup (newMessagesArgs streamKey consumerGroup consumerName)
            mainStream none :: (handled.steps ++ later.steps) }

/-- The part of `ConsumeStream` after the set-up: the pending messages, then
the endless loop. -/
def Client.consume {W : Type} (c : Client W) (streamKey consumerGroup consumerName : String)
    (fn : ConsumerFunc W) (rounds : Nat) (w : W) : Run W :=
  let read := c.conn.XReadGroup (pendingArgs streamKey consumerGroup consumerName) w
  match read.1 with
  | Except.error err =>
    { err := some ("failed to read pending messages: " ++ err), world := read.2
      steps := [Step.xreadGroup (pendingArgs streamKey consumerGroup consumerName) []
        (some err)] }
  | Except.ok pendingStream =>
    let handled := c.handleStreams consumerGroup fn pendingStream read.2
    match handled.err with
    | some err =>
      { err := some err, world := handled.world
        steps := Step.xreadGroup (pendingArgs streamKey consumerGroup consumerName)
          pendingStream none :: handled.steps }
    | none =>
      let looped := c.listen streamKey consumerGroup consumerName fn rounds handled.world
      { err := looped.err, world := looped.world
        steps := Step.xreadGroup (pendingArgs streamKey consumerGroup consumerName)
          pendingStream none :: (handled.steps ++ looped.steps) }

/-- The set-up of `ConsumeStream`: create the stream when it does not exist,
then the consumer group unless it exists. -/
def Client.setUp {W : Type} (c : Client W) (streamKey consumerGroup : String) (w : W) :
    Run W :=
  let checked := c.checkStreamExistence streamKey w
  let created : Run W :=
    if checked.err = some ErrStreamDoesNotExist then
      let made := c.createStream streamKey consumerGroup checked.world
      match made.err with
      | some err =>
        { err := some ("failed to create stream: " ++ err), world := made.world,
          steps := checked.steps ++ made.steps }
      | none => { err := none, world := made.world, steps := checked.steps ++ made.steps }
    else
      match checked.err with
      | some err =>
        { err := some ("failed to check stream existence: " ++ err), world := checked.world,
          steps := checked.steps }
      | none => { err := none, world := checked.world, steps := checked.steps }
  match created.err with
  | some _ => created
  | none =>
    let grouped := c.createConsumerGroup streamKey consumerGroup created.world
    match grouped.err with
    | some err =>
      if err = errConsumerGroupExist then
        { err := none, world := grouped.world, steps := created.steps ++ grouped.steps }
      else
        { err := some ("failed to create consumer group: " ++ err), world := grouped.world,
          steps := created.steps ++ grouped.steps }
    | none => { err := none, world := grouped.world, steps := created.steps ++ grouped.steps }

/-- The method `ConsumeStream`, its endless loop run for `rounds` rounds. -/
def Client.ConsumeStream {W : Type} (c : Client W)
    (streamKey consumerGroup consumerName : String) (fn : ConsumerFunc W) (rounds : Nat)
    (w : W) : Run W :=
  let prepared := c.setUp streamKey consumerGroup w
  match prepared.err with
  | some _ => prepared
  | none =>
    let consumed := c.consume streamKey consumerGroup consumerName fn rounds prepared.world
    { err := consumed.err, world := consumed.world, steps := prepared.steps ++ consumed.steps }

/-- The identifiers acknowledged in a list of steps, in order. -/
def ackedIDs : List Step → List String
  | [] => []
  | Step.xack _ _ id _ :: rest => id :: ackedIDs rest
  | _ :: rest => ackedIDs rest

/-- The field-value pairs handed to the handler function in a list of steps. -/
def handledValues : List Step → List StreamValues
  | [] => []
  | Step.fn values _ :: rest => values :: handledValues rest
  | _ :: rest => handledValues rest

/-- The messages of the streams of one read, each with the name of its stream,
in the order in which the loops of `ConsumeStream` range over them. -/
def messagesOf : List XStream → List (String × XMessage)
  | [] => []
  | result :: rest => result.Messages.map (fun message => (result.Stream, message)) ++
      messagesOf rest

/-- The messages that the reads in a list of steps returned, in order. -/
def delivered : List Step → List (String × XMessage)
  | [] => []
  | Step.xreadGroup _ streams _ :: rest => messagesOf streams ++ delivered rest
  | _ :: rest => delivered rest

/-- A call of the handler function with the field-value pairs it was handed,
or an acknowledgement with the stream, the group and the identifier it was
issued for. -/
inductive Handling where
  | handled (values : StreamValues)
  | acked (stream group id : String)

/-- The calls of the handler function and the acknowledgements in a list of
steps, in order. -/
def handlings : List Step → List Handling
  | [] => []
  | Step.fn values _ :: rest => Handling.handled values :: handlings rest
  | Step.xack stream group id _ :: rest => Handling.acked stream group id :: handlings rest
  | _ :: rest => handlings rest

/-- For a list of messages: for each in turn, one call of the handler function
with its field-value pairs, then one acknowledgement of its identifier on its
stream for the group. -/
def handledThenAcked (group : String) : List (String × XMessage) → List Handling
  | [] => []
  | (stream, message) :: rest =>
    Handling.handled message.Values :: Handling.acked stream group message.ID ::
      handledThenAcked group rest

/-- A run ended in an acknowledgement that failed: that is its last step, and
its error is that failure, wrapped. -/
def Run.endsInFailedAck {W : Type} (r : Run W) : Prop :=
  ∃ pre stream group id e, r.steps = pre ++ [Step.xack stream group id (some e)] ∧
    r.err = some ("failed to ACK message (" ++ id ++ "): " ++ e)

/-- A step is a read or an acknowledgement that failed, and the given error of
`ConsumeStream` is that failure, wrapped. -/
def Step.failsWith (s : Step) (err : Error) : Prop :=
  match s with
  | Step.xreadGroup _ _ (some e) =>
    err = "failed to read pending messages: " ++ e ∨ err = "failed to read messages: " ++ e
  | Step.xack _ _ id (some e) => err = "failed to ACK message (" ++ id ++ "): " ++ e
  | _ => False

end examples.redis

/-! ## Setting up the SDK (`tracing/tracing.go`) -/

namespace trace

/-- A `trace.Tracer`: the tracer a provider hands out under a name. -/
structure Tracer where
  provider : String
  name : String
deriving DecidableEq, Repr

/-- The interface `trace.TracerProvider`: its method `Tracer(name)`. -/
structure TracerProvider where
  Tracer : String → Tracer

end trace

namespace otel

/-- The process-wide state of package `otel` that `SetupOTelSDK` writes. -/
structure Globals where
  /-- what `otel.GetTextMapPropagator()` returns -/
  textMapPropagator : propagation.TextMapPropagator
  /-- what `otel.GetTracerProvider()` returns -/
  tracerProvider : trace.TracerProvider

/-- The function `otel.Tracer`: the tracer of the global provider. -/
def Tracer (g : Globals) (name : String) : trace.Tracer := g.tracerProvider.Tracer name

end otel

/-- The function `errors.Join` on two errors: `nil` when both are `nil`, else
the messages that are not `nil`, one per line. -/
def errorsJoin (a b : Option Error) : Option Error :=
  match a, b with
  | none, none => none
  | some x, none => some x
  | none, some y => some y
  | some x, some y => some (x ++ "\n" ++ y)

namespace tracing

/-- A clean-up function `func(context.Context) error`. -/
abbrev ShutdownFunc (W : Type) := W → Option Error × W

/-- The struct `Provider`. -/
structure Provider (W : Type) where
  TracerProvider : trace.TracerProvider
  Shutdown : ShutdownFunc W

/-- The struct `TracingConfig`. -/
structure TracingConfig (W : Type) where
  Provider : Provider W
  ServiceName : String

/-- A `context.Context` with the values package `tracing` keeps in it. -/
structure ValueContext where
  parent : Context
  /-- the value under the key `Tracer{}`, `none` when there is none -/
  tracer : Option trace.Tracer
  /-- the value under the key `serviceName{}`, `none` when there is none -/
  serviceName : Option String
deriving DecidableEq, Repr

/-- What one call of the closure `shutdown` leaves behind. -/
structure ShutdownRun (W : Type) where
  err : Option Error
  /-- the variable `shutdownFuncs` after the call -/
  shutdownFuncs : List (ShutdownFunc W)
  world : W
  /-- how many registered functions the call invoked -/
  invoked : Nat

/-- The loop of the closure `shutdown`: each registered function in turn, the
errors joined. -/
def runShutdownFuncs {W : Type} : List (ShutdownFunc W) → Option Error → W → Nat →
    Option Error × W × Nat
  | [], err, w, n => (err, w, n)
  | fn :: rest, err, w, n =>
    runShutdownFuncs rest (errorsJoin err (fn w).1) (fn w).2 (n + 1)

/-- The closure `shutdown` of `SetupOTelSDK`, on the current value of the
variable `shutdownFuncs` it captures. -/
def shutdown {W : Type} (shutdownFuncs : List (ShutdownFunc W)) (w : W) : ShutdownRun W :=
  { err := (runShutdownFuncs shutdownFuncs none w 0).1
    shutdownFuncs := []
    world := (runShutdownFuncs shutdownFuncs none w 0).2.1
    invoked := (runShutdownFuncs shutdownFuncs none w 0).2.2 }

/-- The closure `shutdown` called `n` times in a row: the errors returned, in
order, the state afterwards and the number of invocations of registered
functions over all the calls. -/
def shutdownTimes {W : Type} : Nat → List (ShutdownFunc W) → W →
    List (Option Error) × List (ShutdownFunc W) × W × Nat
  | 0, fns, w => ([], fns, w, 0)
  | n + 1, fns, w =>
    let first := shutdown fns w
    let later := shutdownTimes n first.shutdownFuncs first.world
    (first.err :: later.1, later.2.1, later.2.2.1, first.invoked + later.2.2.2)

/-- What `SetupOTelSDK` returns and leaves behind. -/
structure Setup (W : Type) where
  /-- the variable `shutdownFuncs` captured by the returned closure `shutdown` -/
  shutdownFuncs : List (ShutdownFunc W)
  ctx : ValueContext
  err : Option Error
  globals : otel.Globals

/-- The function `SetupOTelSDK`. -/
def SetupOTelSDK {W : Type} (g : otel.Globals) (ctx : ValueContext)
    (config : TracingConfig W) : Setup W :=
  let shutdownFuncs : List (ShutdownFunc W) := []
  let prop := newPropagator
  let g := { g with textMapPropagator := prop }
  let shutdownFuncs := shutdownFuncs ++ [config.Provider.Shutdown]
  let g := { g with tracerProvider := config.Provider.TracerProvider }
  let tracer := otel.Tracer g config.ServiceName
  let ctx := { ctx with tracer := some tracer }
  let ctx := { ctx with serviceName := some config.ServiceName }
  { shutdownFuncs := shutdownFuncs, ctx := ctx, err := none, globals := g }

/-- The function `GetServiceName`. -/
def GetServiceName (ctx : ValueContext) : String :=
  match ctx.serviceName with
  | none => "undefined-service-name"
  | some name => name

/-- The function `TracerFromContext`. -/
def TracerFromContext (g : otel.Globals) (ctx : ValueContext) : trace.Tracer :=
  match ctx.tracer with
  | none => otel.Tracer g (GetServiceName ctx)
  | some tracer => tracer

end tracing

/-! ## The Datadog logger (`providers/datadog/logger.go`)

A Go string is a sequence of bytes, here a `List Byte`: `len` counts bytes
and a slice expression cuts at byte offsets.  The `*zerolog.Logger` is the
list of the calls made on it, in order. -/

namespace strings

/-- The bytes of a string of ASCII characters, such as the markers of `Log`. -/
def ascii (s : String) : List Byte := s.data.map fun c => byteOf c.toNat

/-- The slice expression `s[:hi]`: `none` when `hi` is out of range, where Go
panics. -/
def sliceTo (s : List Byte) (hi : Nat) : Option (List Byte) :=
  if hi ≤ s.length then some (s.take hi) else none

/-- The search of `strings.Index` from offset `i` on. -/
def indexFrom (substr : List Byte) : List Byte → Nat → Int
  | [], i => if substr = [] then (i : Int) else -1
  | c :: s, i => if substr.isPrefixOf (c :: s) then (i : Int) else indexFrom substr s (i + 1)

/-- The function `strings.Index`: the offset of the first instance of `substr`
in `s`, or `-1`. -/
def Index (s substr : List Byte) : Int := indexFrom substr s 0

/-- The function `strings.Contains`: `Index(s, substr) >= 0`. -/
def Contains (s substr : List Byte) : Bool := decide (Index s substr ≥ 0)

end strings

namespace zerolog

/-- The ways `Log` writes a message: `Error().Msg`, `Warn().Msg`, `Info().Msg`,
`Debug().Msg` and `Print`. -/
inductive Method where
  | error
  | warn
  | info
  | debug
  | print
deriving DecidableEq, Repr

/-- One call on the logger. -/
structure Entry where
  method : Method
  msg : List Byte
deriving DecidableEq, Repr

/-- A `*zerolog.Logger`: the calls made on it, in order. -/
abbrev Logger := List Entry

end zerolog

namespace datadog

/-- The struct `DefaultLogger`. -/
structure DefaultLogger where
  logger : zerolog.Logger
deriving DecidableEq, Repr

/-- The function `NewDefaultLogger`. -/
def NewDefaultLogger (l : zerolog.Logger) : DefaultLogger := { logger := l }

/-- The method `DefaultLogger.Log`; `none` is a panic of the slice expression. -/
def DefaultLogger.Log (p : DefaultLogger) (msg : List Byte) : Option DefaultLogger :=
  let s := if msg.length > 100 then strings.sliceTo msg 100 else some msg
  match s with
  | none => none
  | some s =>
    if strings.Contains s (strings.ascii "ERROR:") then
      some { logger := p.logger ++ [{ method := zerolog.Method.error, msg := msg }] }
    else if strings.Contains s (strings.ascii "WARN:") then
      some { logger := p.logger ++ [{ method := zerolog.Method.warn, msg := msg }] }
    else if strings.Contains s (strings.ascii "INFO:") then
      some { logger := p.logger ++ [{ method := zerolog.Method.info, msg := msg }] }
    else if strings.Contains s (strings.ascii "DEBUG:") then
      some { logger := p.logger ++ [{ method := zerolog.Method.debug, msg := msg }] }
    else
      some { logger := p.logger ++ [{ method := zerolog.Method.print, msg := msg }] }

/-- The rule for the level in words: the first marker, in the order `ERROR:`,
`WARN:`, `INFO:`, `DEBUG:`, that occurs as a contiguous run of bytes in the
given prefix, else `Print`. -/
def levelRule (pre : List Byte) : zerolog.Method :=
  if strings.ascii "ERROR:" <:+: pre then zerolog.Method.error
  else if strings.ascii "WARN:" <:+: pre then zerolog.Method.warn
  else if strings.ascii "INFO:" <:+: pre then zerolog.Method.info
  else if strings.ascii "DEBUG:" <:+: pre then zerolog.Method.debug
  else zerolog.Method.print

end datadog

/-! ## The Gin middleware (`providers/datadog/middlewares/gin.go`) -/

namespace otel

/-- The type `attribute.Value`, for the two kinds of value the middleware sets. -/
inductive AttributeValue where
  | String (s : String)
  | Int (n : Int)
deriving DecidableEq, Repr

/-- The struct `otel.KeyValue`. -/
structure KeyValue where
  Key : String
  Value : AttributeValue
deriving DecidableEq, Repr

end otel

namespace gin

/-- A `*gin.Context`, as far as the middleware and the handlers after it read
and write it. -/
structure Context where
  /-- the field `c.Request.Method` -/
  Method : String
  /-- the hooks of the logger attached to `c.Request.Context()`, in order -/
  loggerHooks : List String
  /-- what `c.Writer.Status()` returns -/
  Status : Int
  /-- the calls of `SetAttributes` on the span of the request context, in order -/
  spanAttributes : List otel.KeyValue
deriving DecidableEq, Repr

/-- A chain of handlers: what `c.Next()` does to the context. -/
abbrev Handlers := Context → Context

end gin

namespace middlewares

/-- The handler that `DatadogTracingMiddleware` returns; `next` is `c.Next()`.
The argument `c.Writer.Status()` of the deferred call is evaluated when the
`defer` statement is executed; the call itself runs when the handler returns. -/
def DatadogTracingMiddleware (next : gin.Handlers) (c : gin.Context) : gin.Context :=
  let c := { c with loggerHooks := c.loggerHooks ++ ["DDContextLogHook"] }
  let c := { c with
    spanAttributes := c.spanAttributes ++
      [{ Key := "http.method", Value := otel.AttributeValue.String c.Method }] }
  let deferred : otel.KeyValue :=
    { Key := "http.status_code", Value := otel.AttributeValue.Int c.Status }
  let c := next c
  { c with spanAttributes := c.spanAttributes ++ [deferred] }

/-- The value recorded under `http.status_code`, the last one when there are
several. -/
def statusCodeOf (attrs : List otel.KeyValue) : Option otel.AttributeValue :=
  (attrs.reverse.find? fun kv => kv.Key = "http.status_code").map fun kv => kv.Value

end middlewares

/-! ## Extraction from an AMQP delivery (`utils/rabbitmq/consumer.go`) -/

namespace rabbitmq

/-- The struct `amqp.Delivery`, as far as it is read: `none` is a `nil` table. -/
structure Delivery where
  Headers : Option Headers

/-- The function `ExtractTraceContextFromDelivery`; `prop` is
`otel.GetTextMapPropagator()`. -/
def ExtractTraceContextFromDelivery (prop : propagation.TextMapPropagator) (ctx : Context)
    (delivery : Delivery) : Context :=
  let headers : Headers :=
    match delivery.Headers with
    | some table => table.entries.foldl (fun h kv => h.insert kv.1 kv.2) ∅
    | none => ∅
  let carrier : EventCarrier := { headers := headers }
  prop.Extract ctx carrier.Get carrier.Keys

/-- The function `ExtractTraceContext`. -/
def ExtractTraceContext (prop : propagation.TextMapPropagator) (ctx : Context)
    (delivery : Delivery) : Context :=
  ExtractTraceContextFromDelivery prop ctx delivery

end rabbitmq

/-- The stream client as a `consumer.RedisClient`: Go binds the method of the
interface to `Client.ConsumeStream` by position. -/
def examples.redis.Client.asRedisClient {W : Type} (c : examples.redis.Client W)
    (rounds : Nat) : ConsumeStreamFunc W :=
  fun a b d fn w =>
    ((c.ConsumeStream a b d fn rounds w).err, (c.ConsumeStream a b d fn rounds w).world)

/-! ## Sample data

Concrete processors, envelopes and carriers at which the theorems below are
instantiated. -/

namespace Sample

/-- A publisher that always succeeds and counts its calls in the world; it
leaves the envelope as it is. -/
def okPublisher : Publisher String Nat := fun e w => (none, w + 1, e)

/-- A publisher that always fails; it leaves the envelope as it is. -/
def brokenPublisher : Publisher String Nat :=
  fun e w => (some "failed to publish event", w, e)

/-- A publisher that succeeds and writes `Retries = 0` to the envelope it is
handed. -/
def rewindingPublisher : Publisher String Nat :=
  fun e w => (none, w + 1, { e with Retries := 0 })

/-- A handler that always fails. -/
def failingHandler : ProcessorFunc String Nat := fun _ w => (some "boom", w)

/-- A handler that always succeeds. -/
def okHandler : ProcessorFunc String Nat := fun _ w => (none, w)

/-- The envelope `{retries: n, payload: "hello"}`. -/
def envelope (n : Int) : Event String :=
  { EventHeader := { Key := "k", TraceParent := "", TraceState := "" },
    Payload := "hello", Retries := n }

/-- A processor as `server.go` builds it. -/
def processor : ProcessorImpl String Nat :=
  NewProcessor okPublisher { MaxInterval := 10, MaxElapsedTime := 10 }

/-- Clock readings and a random draw for one call. -/
def oracle : Oracle :=
  { nowNext := 63900000000000000000, random := 0,
    nowStop := 63900000000000001000, nowDone := 63900000000002000000 }

/-- A processor built from the zero configuration: every default applies. -/
def defaultProcessor : ProcessorImpl String Nat :=
  NewProcessor okPublisher { MaxInterval := 0, MaxElapsedTime := 0 }

/-- An AMQP carrier whose `traceparent` header is not a string. -/
def intCarrier : rabbitmq.EventCarrier :=
  { headers := (∅ : rabbitmq.Headers).insert "traceparent" (Any.int 42) }

/-- A Redis carrier after `Set("a","1")` and `Set("b","2")`. -/
def abCarrier : redis.EventCarrier :=
  ((redis.NewEventCarrier none).Set "a" "1").Set "b" "2"

/-- An AMQP carrier after `Set("a","1")` and `Set("b","2")`. -/
def abTable : rabbitmq.EventCarrier :=
  ((rabbitmq.EventCarrier.mk ∅).Set "a" "1").Set "b" "2"

/-- A string between quotes, with `"` and `\` escaped. -/
def renderString (s : String) : List Char :=
  '"' :: (s.data.flatMap fun c => if c = '"' ∨ c = '\\' then ['\\', c] else [c]) ++ ['"']

/-- The decimal digits of a natural number. -/
def renderDigits : Nat → Nat → List Char
  | 0, _ => []
  | fuel + 1, n =>
    if n < 10 then [Char.ofNat (48 + n)]
    else renderDigits fuel (n / 10) ++ [Char.ofNat (48 + n % 10)]

/-- The decimal form of an integer. -/
def renderInt (n : Int) : List Char :=
  if n < 0 then '-' :: renderDigits (n.natAbs + 1) n.natAbs else renderDigits (n.natAbs + 1) n.natAbs

mutual
/-- Compact JSON text of a document. -/
def renderValue : json.Value → List Char
  | json.Value.null => "null".data
  | json.Value.bool true => "true".data
  | json.Value.bool false => "false".data
  | json.Value.num n => renderInt n
  | json.Value.lit text => text.data
  | json.Value.str s => renderString s
  | json.Value.arr items => '[' :: renderItems items ++ [']']
  | json.Value.obj members => '{' :: renderMembers members ++ ['}']
/-- The items of an array, separated by commas. -/
def renderItems : List json.Value → List Char
  | [] => []
  | [v] => renderValue v
  | v :: vs => renderValue v ++ ',' :: renderItems vs
/-- The members of an object, separated by commas. -/
def renderMembers : List (String × json.Value) → List Char
  | [] => []
  | [(k, v)] => renderString k ++ ':' :: renderValue v
  | (k, v) :: ms => renderString k ++ ':' :: renderValue v ++ ',' :: renderMembers ms
end


/-- The rest of a string after its opening quote. -/
def parseString : List Char → List Char → Option (String × List Char)
  | [], _ => none
  | c :: rest, acc =>
    if c = '"' then some (String.mk acc.reverse, rest)
    else if c = '\\' then
      match rest with
      | d :: r1 => parseString r1 (d :: acc)
      | [] => none
    else parseString rest (c :: acc)

/-- The value of a run of decimal digits. -/
def parseDigits : List Char → Nat → Nat × List Char
  | [], n => (n, [])
  | c :: rest, n =>
    if 48 ≤ c.toNat ∧ c.toNat ≤ 57 then parseDigits rest (n * 10 + (c.toNat - 48))
    else (n, c :: rest)

mutual
/-- A parser of compact JSON text, with fuel for the nesting. -/
def parseValue : Nat → List Char → Option (json.Value × List Char)
  | 0, _ => none
  | _ + 1, [] => none
  | fuel + 1, c :: rest =>
    if c = 'n' then
      match rest with
      | 'u' :: 'l' :: 'l' :: r1 => some (json.Value.null, r1)
      | _ => none
    else if c = 't' then
      match rest with
      | 'r' :: 'u' :: 'e' :: r1 => some (json.Value.bool true, r1)
      | _ => none
    else if c = 'f' then
      match rest with
      | 'a' :: 'l' :: 's' :: 'e' :: r1 => some (json.Value.bool false, r1)
      | _ => none
    else if c = '"' then
      match parseString rest [] with
      | some (s, r1) => some (json.Value.str s, r1)
      | none => none
    else if c = '[' then
      match rest with
      | ']' :: r1 => some (json.Value.arr [], r1)
      | _ =>
        match parseItems fuel rest with
        | some (items, r1) => some (json.Value.arr items, r1)
        | none => none
    else if c = '{' then
      match rest with
      | '}' :: r1 => some (json.Value.obj [], r1)
      | _ =>
        match parseMembers fuel rest with
        | some (members, r1) => some (json.Value.obj members, r1)
        | none => none
    else if c = '-' then
      match rest with
      | d :: _ =>
        if 48 ≤ d.toNat ∧ d.toNat ≤ 57 then
          some (json.Value.num (-((parseDigits rest 0).1 : Int)), (parseDigits rest 0).2)
        else none
      | [] => none
    else if 48 ≤ c.toNat ∧ c.toNat ≤ 57 then
      some (json.Value.num ((parseDigits (c :: rest) 0).1 : Int), (parseDigits (c :: rest) 0).2)
    else none
/-- The items of an array up to the closing bracket. -/
def parseItems : Nat → List Char → Option (List json.Value × List Char)
  | 0, _ => none
  | fuel + 1, cs =>
    match parseValue fuel cs with
    | some (v, ',' :: r1) =>
      match parseItems fuel r1 with
      | some (vs, r2) => some (v :: vs, r2)
      | none => none
    | some (v, ']' :: r1) => some ([v], r1)
    | _ => none
/-- The members of an object up to the closing brace. -/
def parseMembers : Nat → List Char → Option (List (String × json.Value) × List Char)
  | 0, _ => none
  | fuel + 1, cs =>
    match cs with
    | '"' :: rest =>
      match parseString rest [] with
      | some (k, ':' :: r1) =>
        match parseValue fuel r1 with
        | some (v, ',' :: r2) =>
          match parseMembers fuel r2 with
          | some (ms, r3) => some ((k, v) :: ms, r3)
          | none => none
        | some (v, '}' :: r2) => some ([(k, v)], r2)
        | _ => none
      | _ => none
    | _ => none
end


/-- A text level for `encoding/json` on ASCII documents: compact rendering and
its parser. -/
def compactText : json.Text :=
  { render := fun v => (renderValue v).map fun c => byteOf c.toNat
    parse := fun data =>
      match parseValue (data.length + 1) (data.map fun b => Char.ofNat b.val) with
      | some (v, []) => some v
      | _ => none }

/-- The payload type `string` under `encoding/json`. -/
def stringCodec : json.Codec String :=
  { zero := ""
    toJson := fun s => some (json.Value.str s)
    fromJson := fun v =>
      match v with
      | json.Value.str s => some s
      | json.Value.null => some ""
      | _ => none }

/-- A stream client whose `PublishToStream` always succeeds. -/
def okStream : PublishToStreamFunc Nat := fun _ _ w => (Except.ok "1-0", w + 1)

/-- A publisher on the stream of `server.go`. -/
def publisher : RedisPublisher Nat := NewRedisPublisher "test-stream" okStream

/-- A consumer handler that always succeeds. -/
def okConsumerFunc : RedisConsumerFunc String Nat := fun _ w => (none, w)

/-- A context with a sampled span. -/
def spanCtx : Context :=
  { spanContext :=
      { TraceID := 0x0af7651916cd43dd8448eb211c80319c, SpanID := 0xb7ad6b7169203331,
        TraceFlags := 1, TraceState := "", Remote := false }
    baggage := "" }

/-- A context without a span. -/
def background : Context :=
  { spanContext := trace.SpanContext.zero, baggage := "" }

/-- A stream entry that carries the sample envelope. -/
def message (id : String) : examples.redis.XMessage :=
  { ID := id, Values := (∅ : StreamValues).insert "data" (Any.str "aGVsbG8=") }

/-- Two pending messages on `test-stream`. -/
def pending : List examples.redis.XStream :=
  [{ Stream := "test-stream", Messages := [message "1-0", message "2-0"] }]

/-- A server with two pending messages on `test-stream`, on which every
command succeeds; the world counts the commands. -/
def server : examples.redis.Client Nat :=
  { conn :=
      { XInfoStreamFull := fun _ _ w => (none, w + 1)
        XGroupCreateMkStream := fun _ _ _ w => (none, w + 1)
        XGroupCreate := fun _ _ _ w => (none, w + 1)
        XAdd := fun _ w => (Except.ok "1-0", w + 1)
        XReadGroup := fun args w =>
          if args.Streams = ["test-stream", "0"] then (Except.ok pending, w + 1)
          else (Except.ok [], w + 1)
        XAck := fun _ _ _ w => (none, w + 1) } }

/-- A server that refuses to create a consumer group. -/
def noAuthServer : examples.redis.Client Nat :=
  { conn := { server.conn with XGroupCreate := fun _ _ _ w => (some "NOAUTH", w + 1) } }

/-- A server on which acknowledgements fail. -/
def noAckServer : examples.redis.Client Nat :=
  { conn := { server.conn with XAck := fun _ _ _ w => (some "NOGROUP", w + 1) } }

/-- A handler function that always fails. -/
def failingConsumerFunc : ConsumerFunc Nat := fun _ w => (some "boom", w)

/-- A message of 100 filler bytes followed by the marker `ERROR:`. -/
def lateMarker : List Byte := List.replicate 100 (byteOf 46) ++ strings.ascii "ERROR:"

/-- A message with the marker `WARN:` in its first bytes. -/
def warnMessage : List Byte := strings.ascii "WARN: disk almost full"

/-- An envelope that already carries trace-context headers. -/
def tracedEnvelope : Event String :=
  { EventHeader :=
      { Key := "k", TraceParent := "00-0af7651916cd43dd8448eb211c80319c-b7ad6b7169203331-01",
        TraceState := "vendor=1" }
    Payload := "hello", Retries := 0 }

/-- A header map with both trace-context keys. -/
def bothHeaders : redis.Headers :=
  ((∅ : redis.Headers).insert "traceparent"
    "00-0af7651916cd43dd8448eb211c80319c-b7ad6b7169203331-01").insert "tracestate" "vendor=1"

/-- A context with a sampled span that has a trace state. -/
def stateCtx : Context :=
  { spanContext :=
      { TraceID := 0x0af7651916cd43dd8448eb211c80319c, SpanID := 0xb7ad6b7169203331,
        TraceFlags := 1, TraceState := "vendor=1", Remote := false }
    baggage := "" }

/-- A server on which getting the stream information fails, for a reason other
than a missing stream. -/
def noInfoServer : examples.redis.Client Nat :=
  { conn :=
      { server.conn with
        XInfoStreamFull := fun _ _ w => (some "NOAUTH Authentication required.", w + 1) } }

/-- A server with two pending messages on `test-stream` on which every command
succeeds; the world is the list of the commands received, in order. -/
def recordingServer : examples.redis.Client (List String) :=
  { conn :=
      { XInfoStreamFull := fun stream _ w => (none, w ++ ["XINFO STREAM " ++ stream])
        XGroupCreateMkStream := fun stream group start w =>
          (none, w ++ ["XGROUP CREATE " ++ stream ++ " " ++ group ++ " " ++ start ++ " MKSTREAM"])
        XGroupCreate := fun stream group start w =>
          (none, w ++ ["XGROUP CREATE " ++ stream ++ " " ++ group ++ " " ++ start])
        XAdd := fun args w => (Except.ok "1-0", w ++ ["XADD " ++ args.Stream])
        XReadGroup := fun args w =>
          (Except.ok (if args.Streams = ["test-stream", "0"] then pending else []),
            w ++ ["XREADGROUP GROUP " ++ args.Group ++ " " ++ args.Consumer])
        XAck := fun stream group id w =>
          (none, w ++ ["XACK " ++ stream ++ " " ++ group ++ " " ++ id]) } }

/-- A request that arrives with the status of a fresh Gin writer. -/
def request : gin.Context :=
  { Method := "GET", loggerHooks := [], Status := 200, spanAttributes := [] }

/-- A handler that answers `404`. -/
def notFound : gin.Handlers := fun c => { c with Status := 404 }

/-- A delivery whose `traceparent` header is not a string. -/
def intDelivery : rabbitmq.Delivery := { Headers := some intCarrier.headers }

/-- An envelope whose header key is one byte that is not valid UTF-8. -/
def rawEnvelope : RawEvent String :=
  { EventHeader := { Key := [byteOf 255], TraceParent := [], TraceState := [] },
    Payload := "hello", Retries := 1 }

/-- The envelope `{retries: 1, payload: "hello"}` whose header key is the
character U+FFFD. -/
def replacedEnvelope : Event String :=
  { EventHeader := { Key := String.mk [Char.ofNat 0xFFFD], TraceParent := "", TraceState := "" },
    Payload := "hello", Retries := 1 }

end Sample

end GoTracing

/-! # Theorems -/

namespace GoTracing

/-! ## Retry processor -/

/-- C1: with `Retries >= 10`, `Process` returns `ErrMaxRetries`, calls neither
the handler nor the publisher, does not sleep (the call log is empty), leaves
the backoff generator as it was, and leaves the envelope and the world
unchanged. -/
theorem Process_max_retries {T W : Type} (p : ProcessorImpl T W) (request : Event T)
    (fn : ProcessorFunc T W) (o : Oracle) (w : W) (h : request.Retries ≥ 10) :
    (p.Process request fn o w).result = some ErrMaxRetries ∧
    (p.Process request fn o w).calls = [] ∧
    handlerCalls (p.Process request fn o w).calls = [] ∧
    publishCalls (p.Process request fn o w).calls = [] ∧
    sleepCalls (p.Process request fn o w).calls = [] ∧
    (p.Process request fn o w).backOff = p.exponentialBackOff ∧
    (p.Process request fn o w).request = request ∧
    (p.Process request fn o w).world = w := by
  simp [ProcessorImpl.Process, h, handlerCalls, publishCalls, sleepCalls]

/-- C2: with `Retries = n < 10` and a failing handler, `Publish` is called
exactly once, with an envelope whose retries are `n + 1` and whose payload and
header are those of the input envelope. -/
theorem Process_republishes_incremented {T W : Type} (p : ProcessorImpl T W)
    (request : Event T) (fn : ProcessorFunc T W) (o : Oracle) (w : W) (err : Error)
    (hlt : request.Retries < 10) (hfail : (fn request.Payload w).1 = some err) :
    publishCalls (p.Process request fn o w).calls =
      [{ EventHeader := request.EventHeader, Payload := request.Payload,
         Retries := request.Retries + 1 }] := by
  have hge : ¬ request.Retries ≥ 10 := by omega
  simp only [ProcessorImpl.Process, hge, if_false, hfail]
  cases hp : (p.publisher { request with Retries := request.Retries + 1 }
      (fn request.Payload w).2).1 <;> simp [hp, publishCalls]

/-- C3: with `Retries < 10` and a failing handler, what `Process` returns is
what the republish returned: `nil` when `Publish` succeeds and the error of
`Publish` when it fails, whatever the error of the handler was. -/
theorem Process_returns_publish_result {T W : Type} (p : ProcessorImpl T W)
    (request : Event T) (fn : ProcessorFunc T W) (o : Oracle) (w : W) (err : Error)
    (hlt : request.Retries < 10) (hfail : (fn request.Payload w).1 = some err) :
    (p.Process request fn o w).result =
      (p.publisher { request with Retries := request.Retries + 1 }
        (fn request.Payload w).2).1 := by
  have hge : ¬ request.Retries ≥ 10 := by omega
  simp only [ProcessorImpl.Process, hge, if_false, hfail]
  cases hp : (p.publisher { request with Retries := request.Retries + 1 }
      (fn request.Payload w).2).1 <;> simp [hp]

/-- C4: with `Retries < 10` and a handler that returns `nil`, `Process` returns
`nil`, the handler is called exactly once, with the payload of the envelope,
`Publish` and `time.Sleep` are not called, and the envelope is unchanged. -/
theorem Process_success {T W : Type} (p : ProcessorImpl T W) (request : Event T)
    (fn : ProcessorFunc T W) (o : Oracle) (w : W)
    (hlt : request.Retries < 10) (hok : (fn request.Payload w).1 = none) :
    (p.Process request fn o w).result = none ∧
    handlerCalls (p.Process request fn o w).calls = [request.Payload] ∧
    publishCalls (p.Process request fn o w).calls = [] ∧
    sleepCalls (p.Process request fn o w).calls = [] ∧
    (p.Process request fn o w).request = request ∧
    (p.Process request fn o w).request.Retries = request.Retries := by
  have hge : ¬ request.Retries ≥ 10 := by omega
  simp [ProcessorImpl.Process, hge, hok, handlerCalls, publishCalls, sleepCalls]

/-- An envelope with ten retries is refused. -/
theorem Process_max_retries_witness :
    (Sample.envelope 10).Retries ≥ 10 ∧
    (Sample.processor.Process (Sample.envelope 10) Sample.failingHandler Sample.oracle 0).result
      = some ErrMaxRetries :=
  ⟨by decide,
    (Process_max_retries Sample.processor (Sample.envelope 10) Sample.failingHandler
      Sample.oracle 0 (by decide)).1⟩

/-- An envelope with nine retries is republished with ten. -/
theorem Process_republishes_incremented_witness :
    (Sample.envelope 9).Retries < 10 ∧
    publishCalls
      (Sample.processor.Process (Sample.envelope 9) Sample.failingHandler Sample.oracle 0).calls
      = [Sample.envelope 10] :=
  ⟨by decide,
    Process_republishes_incremented Sample.processor (Sample.envelope 9) Sample.failingHandler
      Sample.oracle 0 "boom" (by decide) rfl⟩

/-- With a publisher that fails, the caller gets the error of the publisher. -/
theorem Process_returns_publish_result_witness :
    (Sample.envelope 0).Retries < 10 ∧
    (({ Sample.processor with publisher := Sample.brokenPublisher } :
        ProcessorImpl String Nat).Process
      (Sample.envelope 0) Sample.failingHandler Sample.oracle 0).result
      = some "failed to publish event" :=
  ⟨by decide,
    Process_returns_publish_result { Sample.processor with publisher := Sample.brokenPublisher }
      (Sample.envelope 0) Sample.failingHandler Sample.oracle 0 "boom" (by decide) rfl⟩

/-- A successful handler sees the payload once. -/
theorem Process_success_witness :
    (Sample.envelope 3).Retries < 10 ∧
    handlerCalls
      (Sample.processor.Process (Sample.envelope 3) Sample.okHandler Sample.oracle 0).calls
      = ["hello"] :=
  ⟨by decide,
    (Process_success Sample.processor (Sample.envelope 3) Sample.okHandler Sample.oracle 0
      (by decide) rfl).2.1⟩

/-! ## Header carriers -/

/-- The loop of `Keys` collects the first components of the entries, in order. -/
theorem foldl_collect_keys {β : String → Type} (l : List (Sigma β)) (acc : List String) :
    l.foldl (fun keys kv => keys ++ [kv.1]) acc = acc ++ l.map Sigma.fst := by
  induction l generalizing acc with
  | nil => simp
  | cons x xs ih => simp [List.foldl_cons, ih]

/-- The method `Keys` of the Redis carrier lists the keys of the backing map. -/
theorem redis_Keys_eq (e : redis.EventCarrier) : e.Keys = e.headers.keys := by
  simp [redis.EventCarrier.Keys, foldl_collect_keys, AList.keys, List.keys]

/-- The method `Keys` of the AMQP carrier lists the keys of the backing map. -/
theorem rabbitmq_Keys_eq (c : rabbitmq.EventCarrier) : c.Keys = c.headers.keys := by
  simp [rabbitmq.EventCarrier.Keys, foldl_collect_keys, AList.keys, List.keys]

/-- C5 fails as stated for the AMQP carrier: a key that is present with a
value that is not a string reads as the empty string, not as the stored value. -/
theorem rabbitmq_Get_not_stored_value :
    Sample.intCarrier.headers.lookup "traceparent" = some (Any.int 42) ∧
    Sample.intCarrier.Get "traceparent" = "" ∧
    Any.str (Sample.intCarrier.Get "traceparent") ≠ Any.int 42 := by
  decide

/-- C5 (amended): `Get` of the Redis carrier returns the stored value of a key
that is present and the empty string for a key that is absent; `Get` of the
AMQP carrier returns the stored value of a key that is present with a string
value, and the empty string for a key that is absent or holds a value that is
not a string. -/
theorem carrier_Get (e : redis.EventCarrier) (c : rabbitmq.EventCarrier) (key : String) :
    (∀ v, (⟨key, v⟩ : Sigma fun _ : String => String) ∈ e.headers.entries → e.Get key = v) ∧
    (key ∉ e.headers → e.Get key = "") ∧
    (∀ s, (⟨key, Any.str s⟩ : Sigma fun _ : String => Any)
        ∈ c.headers.entries → c.Get key = s) ∧
    (key ∉ c.headers → c.Get key = "") ∧
    (∀ v, (⟨key, v⟩ : Sigma fun _ : String => Any) ∈ c.headers.entries →
        (∀ s, v ≠ Any.str s) → c.Get key = "") := by
  refine ⟨?_, ?_, ?_, ?_, ?_⟩
  · intro v hv
    have h : e.headers.lookup key = some v := AList.mem_lookup_iff.mpr hv
    simp [redis.EventCarrier.Get, h]
  · intro hk
    have h : e.headers.lookup key = none := AList.lookup_eq_none.mpr hk
    simp [redis.EventCarrier.Get, h]
  · intro s hs
    have h : c.headers.lookup key = some (Any.str s) := AList.mem_lookup_iff.mpr hs
    simp [rabbitmq.EventCarrier.Get, h]
  · intro hk
    have h : c.headers.lookup key = none := AList.lookup_eq_none.mpr hk
    simp [rabbitmq.EventCarrier.Get, h]
  · intro v hv hns
    have h : c.headers.lookup key = some v := AList.mem_lookup_iff.mpr hv
    cases v with
    | str s => exact absurd rfl (hns s)
    | int i => simp [rabbitmq.EventCarrier.Get, h]
    | bool b => simp [rabbitmq.EventCarrier.Get, h]
    | bytes bs => simp [rabbitmq.EventCarrier.Get, h]
    | null => simp [rabbitmq.EventCarrier.Get, h]

/-- Reads on the sample carriers. -/
theorem carrier_Get_witness :
    Sample.abCarrier.Get "a" = "1" ∧ Sample.abCarrier.Get "c" = "" ∧
    Sample.abTable.Get "b" = "2" ∧ Sample.intCarrier.Get "a" = "" ∧
    Sample.intCarrier.Get "traceparent" = "" :=
  ⟨(carrier_Get Sample.abCarrier Sample.abTable "a").1 "1" (by decide),
   (carrier_Get Sample.abCarrier Sample.abTable "c").2.1 (by decide),
   (carrier_Get Sample.abCarrier Sample.abTable "b").2.2.1 "2" (by decide),
   (carrier_Get Sample.abCarrier Sample.intCarrier "a").2.2.2.1 (by decide),
   (carrier_Get Sample.abCarrier Sample.intCarrier "traceparent").2.2.2.2
     (Any.int 42) (by decide) (by intro s; exact Any.noConfusion)⟩

/-- C6: for both carriers, `Get(k)` after `Set(k, v)` is `v`; after `Set(k, v)`
and then `Set(k, w)` it is `w`; and `Set(k, v)` does not change `Get(k')` for
`k' != k`. -/
theorem carrier_Set_Get (e : redis.EventCarrier) (c : rabbitmq.EventCarrier)
    (k k' v w : String) :
    (e.Set k v).Get k = v ∧ ((e.Set k v).Set k w).Get k = w ∧
    (k' ≠ k → (e.Set k v).Get k' = e.Get k') ∧
    (c.Set k v).Get k = v ∧ ((c.Set k v).Set k w).Get k = w ∧
    (k' ≠ k → (c.Set k v).Get k' = c.Get k') := by
  refine ⟨?_, ?_, ?_, ?_, ?_, ?_⟩
  · simp [redis.EventCarrier.Set, redis.EventCarrier.Get]
  · simp [redis.EventCarrier.Set, redis.EventCarrier.Get]
  · intro hne
    simp [redis.EventCarrier.Set, redis.EventCarrier.Get, AList.lookup_insert_ne hne]
  · simp [rabbitmq.EventCarrier.Set, rabbitmq.EventCarrier.Get]
  · simp [rabbitmq.EventCarrier.Set, rabbitmq.EventCarrier.Get]
  · intro hne
    simp [rabbitmq.EventCarrier.Set, rabbitmq.EventCarrier.Get, AList.lookup_insert_ne hne]

/-- A write to one key leaves another key of the sample carriers as it was. -/
theorem carrier_Set_Get_witness :
    (Sample.abCarrier.Set "b" "3").Get "a" = Sample.abCarrier.Get "a" ∧
    (Sample.intCarrier.Set "traceparent" "x").Get "a" = Sample.intCarrier.Get "a" :=
  ⟨(carrier_Set_Get Sample.abCarrier Sample.intCarrier "b" "a" "3" "4").2.2.1 (by decide),
   (carrier_Set_Get Sample.abCarrier Sample.intCarrier "traceparent" "a" "x" "y").2.2.2.2.2
     (by decide)⟩

/-- C7: for both carriers, `Keys` lists every key that is set, each exactly
once, and nothing else; and on a carrier that starts empty, after
`Set("a","1")` and `Set("b","2")`, `Keys` is a permutation of `["a","b"]`. -/
theorem carrier_Keys (e : redis.EventCarrier) (c : rabbitmq.EventCarrier) :
    e.Keys.Nodup ∧ (∀ k, k ∈ e.Keys ↔ ∃ v, e.headers.lookup k = some v) ∧
    c.Keys.Nodup ∧ (∀ k, k ∈ c.Keys ↔ ∃ v, c.headers.lookup k = some v) ∧
    List.Perm (((redis.NewEventCarrier none).Set "a" "1").Set "b" "2").Keys ["a", "b"] ∧
    List.Perm (((rabbitmq.EventCarrier.mk ∅).Set "a" "1").Set "b" "2").Keys ["a", "b"] := by
  refine ⟨?_, ?_, ?_, ?_, ?_, ?_⟩
  · rw [redis_Keys_eq]; exact e.headers.keys_nodup
  · intro k
    rw [redis_Keys_eq, ← AList.mem_keys, ← AList.lookup_isSome, Option.isSome_iff_exists]
  · rw [rabbitmq_Keys_eq]; exact c.headers.keys_nodup
  · intro k
    rw [rabbitmq_Keys_eq, ← AList.mem_keys, ← AList.lookup_isSome, Option.isSome_iff_exists]
  · decide
  · decide

/-! ## Reset on success -/

/-- For a rational that is not negative, `truncToDuration` is the floor. -/
theorem truncToDuration_eq_floor (q : ℚ) (hq : 0 ≤ q) : truncToDuration q = ⌊q⌋ := by
  unfold truncToDuration
  rw [Rat.floor_def]
  exact Int.tdiv_eq_ediv (Rat.num_nonneg.mpr hq) (Int.ofNat_nonneg _)

/-- On an integer, `truncToDuration` is the identity. -/
theorem truncToDuration_intCast (n : Int) : truncToDuration (n : ℚ) = n := by
  simp [truncToDuration]

/-- A `Reset` forgets the current interval and the start time it replaces. -/
theorem Reset_after_NextBackOff (b : backoff.ExponentialBackOff) (now t : Time) (random : ℚ) :
    (b.NextBackOff now random).2.Reset t = b.Reset t := by
  unfold backoff.ExponentialBackOff.NextBackOff backoff.ExponentialBackOff.incrementCurrentInterval
    backoff.ExponentialBackOff.Reset
  split_ifs <;> rfl

/-- A `Reset` after a `Reset` is the later one. -/
theorem Reset_Reset (b : backoff.ExponentialBackOff) (t u : Time) :
    (b.Reset t).Reset u = b.Reset u := rfl

/-- After a successful handler the generator is the old one, reset at the time
of the final `Reset`. -/
theorem Process_success_backOff {T W : Type} (p : ProcessorImpl T W) (request : Event T)
    (fn : ProcessorFunc T W) (o : Oracle) (w : W)
    (hlt : request.Retries < 10) (hok : (fn request.Payload w).1 = none) :
    (p.Process request fn o w).backOff = p.exponentialBackOff.Reset o.nowDone := by
  have hge : ¬ request.Retries ≥ 10 := by omega
  simp only [ProcessorImpl.Process, hge, if_false, hok]
  split_ifs
  · rw [Reset_Reset, Reset_after_NextBackOff]
  · rw [Reset_after_NextBackOff]

/-- The next `NextBackOff` of a generator that was just reset. -/
theorem NextBackOff_Reset (b : backoff.ExponentialBackOff) (t now : Time) (random : ℚ) :
    ((b.Reset t).NextBackOff now random).1 =
      if b.MaxElapsedTime ≠ 0 ∧ Time.Sub now t > b.MaxElapsedTime then backoff.Stop
      else backoff.getRandomValueFromInterval b.RandomizationFactor random b.InitialInterval := by
  unfold backoff.ExponentialBackOff.NextBackOff backoff.ExponentialBackOff.Reset
    backoff.ExponentialBackOff.GetElapsedTime
  split_ifs <;> rfl

/-! ## Floating point -/

namespace float64

/-- The integer nearest to an integer is that integer. -/
theorem roundHalfEven_intCast (n : Int) : roundHalfEven (n : ℚ) = n := by
  simp [roundHalfEven]

/-- The spacing is positive. -/
theorem ulp_pos (q : ℚ) : 0 < ulp q := by
  unfold ulp
  positivity

/-- A point of the grid of its own binade rounds to itself. -/
theorem nearest_of_grid (q : ℚ) (n : Int) (h : q = (n : ℚ) * ulp q) : nearest q = q := by
  unfold nearest
  have hq : q / ulp q = (n : ℚ) := by
    rw [div_eq_iff (ulp_pos q).ne']
    exact h
  rw [hq, roundHalfEven_intCast]
  exact h.symm

/-- The exponent of a rational in the normal range, from the binade it is in. -/
theorem exponent_of_bounds (q : ℚ) (e : Int) (hlo : (2 : ℚ) ^ e ≤ |q|)
    (hhi : |q| < (2 : ℚ) ^ (e + 1)) (he : -1022 ≤ e) : exponent q = e := by
  have hpos : 0 < |q| := lt_of_lt_of_le (by positivity) hlo
  have h1 : e ≤ Int.log 2 |q| := (Int.zpow_le_iff_le_log (by norm_num) hpos).mp (by exact_mod_cast hlo)
  have h2 : Int.log 2 |q| < e + 1 :=
    (Int.lt_zpow_iff_log_lt (by norm_num) hpos).mp (by exact_mod_cast hhi)
  unfold exponent
  omega


/-- An integer of less than 54 bits is a point of the grid of its binade. -/
theorem intCast_on_grid (m : Int) (hm : |m| < 2 ^ 53) :
    ∃ n : Int, (m : ℚ) = (n : ℚ) * ulp (m : ℚ) := by
  by_cases h0 : m = 0
  · exact ⟨0, by simp [h0]⟩
  · have habs : (1 : ℚ) ≤ |(m : ℚ)| := by
      have : (1 : Int) ≤ |m| := Int.one_le_abs h0
      exact_mod_cast this
    have hpos : 0 < |(m : ℚ)| := lt_of_lt_of_le one_pos habs
    have hlt : |(m : ℚ)| < (2 : ℚ) ^ (53 : Int) := by
      have h53 : |(m : ℚ)| < (2 : ℚ) ^ (53 : ℕ) := by exact_mod_cast hm
      rw [show (53 : Int) = ((53 : ℕ) : Int) from rfl, zpow_natCast]
      exact h53
    have h1 : (0 : Int) ≤ Int.log 2 |(m : ℚ)| :=
      (Int.zpow_le_iff_le_log (by norm_num) hpos).mp (by simpa using habs)
    have h2 : Int.log 2 |(m : ℚ)| < 53 :=
      (Int.lt_zpow_iff_log_lt (by norm_num) hpos).mp (by exact_mod_cast hlt)
    have he : exponent (m : ℚ) = Int.log 2 |(m : ℚ)| := by
      unfold exponent
      omega
    refine ⟨m * 2 ^ (52 - Int.log 2 |(m : ℚ)|).toNat, ?_⟩
    have hnat : (((52 - Int.log 2 |(m : ℚ)|).toNat : ℕ) : Int) = 52 - Int.log 2 |(m : ℚ)| :=
      Int.toNat_of_nonneg (by omega)
    have hpow : ((2 : ℚ) ^ (52 - Int.log 2 |(m : ℚ)|).toNat) =
        (2 : ℚ) ^ (52 - Int.log 2 |(m : ℚ)|) := by
      rw [← zpow_natCast, hnat]
    unfold ulp
    rw [he]
    push_cast
    rw [hpow, mul_assoc, ← zpow_add₀ (by norm_num : (2 : ℚ) ≠ 0)]
    simp

/-- An integer of less than 54 bits is a `float64` value: it rounds to itself. -/
theorem round_intCast (m : Int) (hm : |m| < 2 ^ 53) : round (m : ℚ) = Value.finite (m : ℚ) := by
  obtain ⟨n, hn⟩ := intCast_on_grid m hm
  have hnear : nearest (m : ℚ) = (m : ℚ) := nearest_of_grid _ n hn
  have hsmall : ¬ (2 : ℚ) ^ 1024 ≤ |(m : ℚ)| := by
    have h1 : |(m : ℚ)| < (2 : ℚ) ^ 53 := by exact_mod_cast hm
    have h2 : (2 : ℚ) ^ 53 ≤ (2 : ℚ) ^ 1024 := pow_le_pow_right₀ (by norm_num) (by norm_num)
    linarith
  unfold round
  rw [hnear, if_neg hsmall]

/-- Rounding to the nearest integer does not go above an integer bound. -/
theorem roundHalfEven_le (x : ℚ) (G : Int) (h : x ≤ (G : ℚ)) : roundHalfEven x ≤ G := by
  have hfl : ⌊x⌋ ≤ G := by
    have : (⌊x⌋ : ℚ) ≤ (G : ℚ) := (Int.floor_le x).trans h
    exact_mod_cast this
  unfold roundHalfEven
  have hup : 0 < x - ⌊x⌋ → ⌊x⌋ + 1 ≤ G := by
    intro hpos
    have h1 : (⌊x⌋ : ℚ) < G := by linarith
    have h2 : ⌊x⌋ < G := by exact_mod_cast h1
    omega
  split_ifs with h1 h2 h3
  · exact hfl
  · exact hup (by linarith)
  · exact hfl
  · exact hup (by linarith)

/-- Rounding to the nearest integer does not go below an integer bound. -/
theorem le_roundHalfEven (x : ℚ) (G : Int) (h : (G : ℚ) ≤ x) : G ≤ roundHalfEven x := by
  have hfl : G ≤ ⌊x⌋ := Int.le_floor.mpr h
  unfold roundHalfEven
  split_ifs <;> omega


/-- Zero rounds to zero. -/
theorem nearest_zero : nearest 0 = 0 := by
  simp [nearest, roundHalfEven]

/-- The exponent grows with the magnitude. -/
theorem exponent_mono (q g : ℚ) (hq : 0 < q) (hqg : q ≤ g) : exponent q ≤ exponent g := by
  unfold exponent
  have h : Int.log 2 |q| ≤ Int.log 2 |g| := by
    rw [abs_of_pos hq, abs_of_pos (lt_of_lt_of_le hq hqg)]
    exact Int.log_mono_right hq hqg
  omega

/-- The spacing of a larger binade is a multiple of that of a smaller one. -/
theorem ulp_of_exponent_le (q g : ℚ) (h : exponent q ≤ exponent g) :
    ulp g = ((2 ^ (exponent g - exponent q).toNat : Int) : ℚ) * ulp q := by
  have hnat : (((exponent g - exponent q).toNat : ℕ) : Int) = exponent g - exponent q :=
    Int.toNat_of_nonneg (by omega)
  unfold ulp
  push_cast
  rw [← zpow_natCast, hnat, ← zpow_add₀ (by norm_num : (2 : ℚ) ≠ 0)]
  congr 1
  omega

/-- Rounding does not carry a value that is not negative above a `float64`
value above it. -/
theorem nearest_le (q g : ℚ) (hq : 0 ≤ q) (hqg : q ≤ g) (hg : ∃ n : Int, g = (n : ℚ) * ulp g) :
    nearest q ≤ g := by
  rcases hq.eq_or_lt with h0 | hpos
  · rw [← h0, nearest_zero]
    exact h0 ▸ hqg
  · obtain ⟨n, hn⟩ := hg
    have hu := ulp_of_exponent_le q g (exponent_mono q g hpos hqg)
    have hgrid : g = ((n * 2 ^ (exponent g - exponent q).toNat : Int) : ℚ) * ulp q := by
      rw [Int.cast_mul, mul_assoc, ← hu]
      exact hn
    have hle : q / ulp q ≤ ((n * 2 ^ (exponent g - exponent q).toNat : Int) : ℚ) := by
      rw [div_le_iff₀ (ulp_pos q), ← hgrid]
      exact hqg
    have hr := roundHalfEven_le _ _ hle
    have hr' : (roundHalfEven (q / ulp q) : ℚ) ≤
        ((n * 2 ^ (exponent g - exponent q).toNat : Int) : ℚ) := by exact_mod_cast hr
    unfold nearest
    rw [hgrid]
    exact mul_le_mul_of_nonneg_right hr' (ulp_pos q).le

/-- Rounding does not carry a value below a `float64` value that is not
negative and below it. -/
theorem le_nearest (q g : ℚ) (hg0 : 0 ≤ g) (hgq : g ≤ q)
    (hg : ∃ n : Int, g = (n : ℚ) * ulp g) : g ≤ nearest q := by
  rcases hg0.eq_or_lt with h0 | hpos
  · rw [← h0]
    have hq : (0 : ℚ) ≤ q := h0 ▸ hgq
    have hle : ((0 : Int) : ℚ) ≤ q / ulp q := by
      simpa using div_nonneg hq (ulp_pos q).le
    have hr := le_roundHalfEven _ _ hle
    have hr' : (0 : ℚ) ≤ (roundHalfEven (q / ulp q) : ℚ) := by exact_mod_cast hr
    exact mul_nonneg hr' (ulp_pos q).le
  · have hqpos : 0 < q := lt_of_lt_of_le hpos hgq
    have hmono := exponent_mono g q hpos hgq
    rcases hmono.eq_or_lt with heq | hlt
    · obtain ⟨n, hn⟩ := hg
      have hu : ulp g = ulp q := by unfold ulp; rw [heq]
      rw [hu] at hn
      have hle : (n : ℚ) ≤ q / ulp q := by
        rw [le_div_iff₀ (ulp_pos q), ← hn]
        exact hgq
      have hr := le_roundHalfEven _ _ hle
      have hr' : (n : ℚ) ≤ (roundHalfEven (q / ulp q) : ℚ) := by exact_mod_cast hr
      unfold nearest
      rw [hn]
      exact mul_le_mul_of_nonneg_right hr' (ulp_pos q).le
    · have hlog : exponent q = Int.log 2 |q| := by
        unfold exponent at hlt ⊢
        omega
      have hlow : (2 : ℚ) ^ exponent q ≤ q := by
        rw [hlog, abs_of_pos hqpos]
        exact_mod_cast Int.zpow_log_le_self (by norm_num) hqpos
      have hgup : g < (2 : ℚ) ^ exponent q := by
        have h1 : g < (2 : ℚ) ^ (Int.log 2 g + 1) := by
          exact_mod_cast Int.lt_zpow_succ_log_self (by norm_num : 1 < 2) g
        have h2 : Int.log 2 g + 1 ≤ exponent q := by
          have : Int.log 2 g ≤ exponent g := by
            unfold exponent
            rw [abs_of_pos hpos]
            exact le_max_left _ _
          omega
        exact lt_of_lt_of_le h1 (zpow_le_zpow_right₀ (by norm_num) h2)
      have hpow : (2 : ℚ) ^ exponent q = ((2 ^ 52 : Int) : ℚ) * ulp q := by
        unfold ulp
        rw [show ((2 ^ 52 : Int) : ℚ) = (2 : ℚ) ^ (52 : Int) by norm_num,
          ← zpow_add₀ (by norm_num : (2 : ℚ) ≠ 0)]
        congr 1
        omega
      have hle : ((2 ^ 52 : Int) : ℚ) ≤ q / ulp q := by
        rw [le_div_iff₀ (ulp_pos q), ← hpow]
        exact hlow
      have hr := le_roundHalfEven _ _ hle
      have hr' : ((2 ^ 52 : Int) : ℚ) ≤ (roundHalfEven (q / ulp q) : ℚ) := by exact_mod_cast hr
      have hfin : (2 : ℚ) ^ exponent q ≤ nearest q := by
        unfold nearest
        rw [hpow]
        exact mul_le_mul_of_nonneg_right hr' (ulp_pos q).le
      linarith

/-- An exact result between two `float64` values that are not negative and
below `2^1024` rounds to a finite value between them. -/
theorem round_between (q lo hi : ℚ) (hlo0 : 0 ≤ lo) (hlo : lo ≤ q) (hhi : q ≤ hi)
    (hrlo : ∃ n : Int, lo = (n : ℚ) * ulp lo) (hrhi : ∃ n : Int, hi = (n : ℚ) * ulp hi)
    (hfin : hi < (2 : ℚ) ^ 1024) :
    ∃ r, round q = Value.finite r ∧ lo ≤ r ∧ r ≤ hi := by
  have h1 := le_nearest q lo hlo0 hlo hrlo
  have h2 := nearest_le q hi (hlo0.trans hlo) hhi hrhi
  refine ⟨nearest q, ?_, h1, h2⟩
  unfold round
  rw [if_neg]
  rw [abs_of_nonneg (hlo0.trans h1)]
  linarith

/-- A point of the grid of its binade below `2^1024` is a `float64` value. -/
theorem round_of_grid (q : ℚ) (n : Int) (h : q = (n : ℚ) * ulp q)
    (hfin : |q| < (2 : ℚ) ^ 1024) : round q = Value.finite q := by
  unfold round
  rw [nearest_of_grid q n h, if_neg (not_le.mpr hfin)]

/-- One half is a `float64` value. -/
theorem ofRat_half : ofRat (1 / 2) = Value.finite (1 / 2) := by
  have he : exponent (1 / 2 : ℚ) = -1 :=
    exponent_of_bounds _ _ (by norm_num [abs_of_pos]) (by norm_num [abs_of_pos]) (by norm_num)
  refine round_of_grid _ (2 ^ 52) ?_ ?_
  · unfold ulp
    rw [he]
    norm_num
  · rw [abs_of_pos (by norm_num)]
    exact lt_of_lt_of_le (by norm_num : (1 / 2 : ℚ) < 1) (one_le_pow₀ (by norm_num))

/-- An exact result that is an integer of less than 54 bits is the `float64`
result. -/
theorem round_eq_intCast (q : ℚ) (m : Int) (hq : q = (m : ℚ)) (hm : |m| < 2 ^ 53) :
    round q = Value.finite (m : ℚ) := by
  rw [hq]
  exact round_intCast m hm

/-- The conversion to a duration of a finite value in the range of `int64`
that is not negative. -/
theorem toDuration_finite (s : ℚ) (h0 : 0 ≤ s) (h1 : s < (2 : ℚ) ^ 63) :
    toDuration (Value.finite s) = ⌊s⌋ := by
  have hfl : truncToDuration s = ⌊s⌋ := by
    unfold truncToDuration
    rw [Rat.floor_def]
    exact Int.tdiv_eq_ediv (Rat.num_nonneg.mpr h0) (Int.ofNat_nonneg _)
  have hlo : (0 : Int) ≤ ⌊s⌋ := Int.floor_nonneg.mpr h0
  have hhi : ⌊s⌋ < 2 ^ 63 := by
    have : (⌊s⌋ : ℚ) < ((2 ^ 63 : Int) : ℚ) := by
      push_cast
      exact lt_of_le_of_lt (Int.floor_le s) h1
    exact_mod_cast this
  simp only [toDuration]
  rw [hfl, if_pos ⟨le_trans (by norm_num) hlo, hhi⟩]

/-- A rational less than one half above an integer rounds to that integer. -/
theorem roundHalfEven_of_lt_half (x : ℚ) (f : Int) (h1 : (f : ℚ) ≤ x) (h2 : x - f < 1 / 2) :
    roundHalfEven x = f := by
  have hfl : ⌊x⌋ = f := Int.floor_eq_iff.mpr ⟨h1, by linarith⟩
  unfold roundHalfEven
  rw [hfl, if_pos h2]

/-- A rational half-way above an odd integer rounds to the even integer above. -/
theorem roundHalfEven_of_tie_odd (x : ℚ) (f : Int) (h : x = (f : ℚ) + 1 / 2) (hodd : f % 2 = 1) :
    roundHalfEven x = f + 1 := by
  have hfl : ⌊x⌋ = f := Int.floor_eq_iff.mpr ⟨by linarith, by linarith⟩
  have hd : x - (f : ℚ) = 1 / 2 := by linarith
  unfold roundHalfEven
  rw [hfl, hd, if_neg (lt_irrefl _), if_neg (lt_irrefl _), if_neg (by omega)]

/-- The rounding of a rational in the normal range, from its binade and the
integer nearest to its quotient by the spacing. -/
theorem round_eq (q : ℚ) (e f : Int) (hlo : (2 : ℚ) ^ e ≤ |q|) (hhi : |q| < (2 : ℚ) ^ (e + 1))
    (he : -1022 ≤ e) (hr : roundHalfEven (q / (2 : ℚ) ^ (e - 52)) = f)
    (hfin : |(f : ℚ) * (2 : ℚ) ^ (e - 52)| < (2 : ℚ) ^ 1024) :
    round q = Value.finite ((f : ℚ) * (2 : ℚ) ^ (e - 52)) := by
  have hn : nearest q = (f : ℚ) * (2 : ℚ) ^ (e - 52) := by
    unfold nearest ulp
    rw [exponent_of_bounds q e hlo hhi he, hr]
  unfold round
  rw [hn, if_neg (not_le.mpr hfin)]

end float64

/-! ## The randomized value -/

/-- The computation of `getRandomValueFromInterval`, written out. -/
theorem getRandomValueFromInterval_eq (rf random : ℚ) (interval : Duration) :
    backoff.getRandomValueFromInterval rf random interval =
      float64.toDuration (float64.add
        (float64.sub (float64.ofInt interval)
          (float64.mul (float64.ofRat rf) (float64.ofInt interval)))
        (float64.mul (float64.ofRat random)
          (float64.add
            (float64.sub
              (float64.add (float64.ofInt interval)
                (float64.mul (float64.ofRat rf) (float64.ofInt interval)))
              (float64.sub (float64.ofInt interval)
                (float64.mul (float64.ofRat rf) (float64.ofInt interval))))
            (float64.ofInt 1)))) := rfl

/-- With the settings that `NewProcessor` installs (factor 0.5, initial
interval 500ms), the lower end of the interval is 250ms and its width plus
one is 500000001, all exact in `float64`. -/
theorem getRandomValueFromInterval_default (random : ℚ) :
    backoff.getRandomValueFromInterval (1 / 2) random 500000000 =
      float64.toDuration (float64.add (float64.Value.finite 250000000)
        (float64.mul (float64.ofRat random) (float64.Value.finite 500000001))) := by
  have hI : float64.ofInt 500000000 = float64.Value.finite 500000000 := by
    have h := float64.round_intCast 500000000 (by norm_num)
    simpa [float64.ofInt] using h
  have h1 : float64.ofInt 1 = float64.Value.finite 1 := by
    have h := float64.round_intCast 1 (by norm_num)
    simpa [float64.ofInt] using h
  have hdelta : float64.mul (float64.Value.finite (1 / 2)) (float64.Value.finite 500000000) =
      float64.Value.finite 250000000 := by
    simp only [float64.mul]
    have h := float64.round_eq_intCast ((1 / 2 : ℚ) * 500000000) 250000000 (by norm_num)
      (by norm_num)
    simpa using h
  have hmin : float64.sub (float64.Value.finite 500000000) (float64.Value.finite 250000000) =
      float64.Value.finite 250000000 := by
    simp only [float64.sub, float64.neg, float64.add]
    have h := float64.round_eq_intCast ((500000000 : ℚ) + -250000000) 250000000 (by norm_num)
      (by norm_num)
    simpa using h
  have hmax : float64.add (float64.Value.finite 500000000) (float64.Value.finite 250000000) =
      float64.Value.finite 750000000 := by
    simp only [float64.add]
    have h := float64.round_eq_intCast ((500000000 : ℚ) + 250000000) 750000000 (by norm_num)
      (by norm_num)
    simpa using h
  have hwidth : float64.sub (float64.Value.finite 750000000) (float64.Value.finite 250000000) =
      float64.Value.finite 500000000 := by
    simp only [float64.sub, float64.neg, float64.add]
    have h := float64.round_eq_intCast ((750000000 : ℚ) + -250000000) 500000000 (by norm_num)
      (by norm_num)
    simpa using h
  have hspan : float64.add (float64.Value.finite 500000000) (float64.Value.finite 1) =
      float64.Value.finite 500000001 := by
    simp only [float64.add]
    have h := float64.round_eq_intCast ((500000000 : ℚ) + 1) 500000001 (by norm_num)
      (by norm_num)
    simpa using h
  rw [getRandomValueFromInterval_eq, float64.ofRat_half, hI, hdelta, hmin, hmax, hwidth, h1,
    hspan]

/-- With the settings that `NewProcessor` installs and a draw of zero the
randomized value is the lower end of the interval, 250ms. -/
theorem getRandomValueFromInterval_default_zero :
    backoff.getRandomValueFromInterval (1 / 2) 0 500000000 = 250000000 := by
  have hz : float64.ofRat 0 = float64.Value.finite 0 := by
    have h := float64.round_intCast 0 (by norm_num)
    simpa [float64.ofRat] using h
  have hm : float64.mul (float64.Value.finite 0) (float64.Value.finite 500000001) =
      float64.Value.finite 0 := by
    simp only [float64.mul]
    have h := float64.round_eq_intCast ((0 : ℚ) * 500000001) 0 (by norm_num) (by norm_num)
    simpa using h
  have ha : float64.add (float64.Value.finite 250000000) (float64.Value.finite 0) =
      float64.Value.finite 250000000 := by
    simp only [float64.add]
    have h := float64.round_eq_intCast ((250000000 : ℚ) + 0) 250000000 (by norm_num)
      (by norm_num)
    simpa using h
  rw [getRandomValueFromInterval_default, hz, hm, ha, float64.toDuration_finite _ (by norm_num) (by norm_num)]
  simp

/-- With the settings that `NewProcessor` installs and a draw in `[0, 1]` the
randomized value lies between 250ms and 750ms plus one nanosecond. -/
theorem getRandomValueFromInterval_default_bounds (random : ℚ) (h0 : 0 ≤ random)
    (h1 : random ≤ 1) :
    250000000 ≤ backoff.getRandomValueFromInterval (1 / 2) random 500000000 ∧
    backoff.getRandomValueFromInterval (1 / 2) random 500000000 ≤ 750000001 := by
  have rep0 : ∃ n : Int, (0 : ℚ) = (n : ℚ) * float64.ulp 0 := ⟨0, by simp⟩
  have rep1 : ∃ n : Int, (1 : ℚ) = (n : ℚ) * float64.ulp 1 := by
    have h := float64.intCast_on_grid 1 (by norm_num)
    rw [show ((1 : Int) : ℚ) = 1 by norm_num] at h
    exact h
  have repS : ∃ n : Int, (500000001 : ℚ) = (n : ℚ) * float64.ulp 500000001 := by
    have h := float64.intCast_on_grid 500000001 (by norm_num)
    rw [show ((500000001 : Int) : ℚ) = 500000001 by norm_num] at h
    exact h
  have repL : ∃ n : Int, (250000000 : ℚ) = (n : ℚ) * float64.ulp 250000000 := by
    have h := float64.intCast_on_grid 250000000 (by norm_num)
    rw [show ((250000000 : Int) : ℚ) = 250000000 by norm_num] at h
    exact h
  have repH : ∃ n : Int, (750000001 : ℚ) = (n : ℚ) * float64.ulp 750000001 := by
    have h := float64.intCast_on_grid 750000001 (by norm_num)
    rw [show ((750000001 : Int) : ℚ) = 750000001 by norm_num] at h
    exact h
  have big : ∀ x : ℚ, x ≤ 750000001 → x < (2 : ℚ) ^ 1024 := fun x hx =>
    lt_of_le_of_lt hx (lt_of_lt_of_le (by norm_num : (750000001 : ℚ) < 2 ^ 30)
      (pow_le_pow_right₀ (by norm_num) (by norm_num)))
  obtain ⟨r, hr, hr0, hr1⟩ := float64.round_between random 0 1 le_rfl h0 h1 rep0 rep1
    (big 1 (by norm_num))
  obtain ⟨p, hp, hp0, hp1⟩ := float64.round_between (r * 500000001) 0 500000001 le_rfl
    (by nlinarith) (by nlinarith) rep0 repS (big _ (by norm_num))
  obtain ⟨s, hs, hs0, hs1⟩ := float64.round_between (250000000 + p) 250000000 750000001
    (by norm_num) (by linarith) (by linarith) repL repH (big _ le_rfl)
  have hval : backoff.getRandomValueFromInterval (1 / 2) random 500000000 = ⌊s⌋ := by
    rw [getRandomValueFromInterval_default]
    unfold float64.ofRat
    rw [hr]
    simp only [float64.mul]
    rw [hp]
    simp only [float64.add]
    rw [hs]
    exact float64.toDuration_finite s (by linarith)
      (lt_of_le_of_lt hs1 (by norm_num))
  rw [hval]
  constructor
  · exact Int.le_floor.mpr (by exact_mod_cast hs0)
  · have h : (⌊s⌋ : ℚ) ≤ ((750000001 : Int) : ℚ) := by
      push_cast
      exact (Int.floor_le s).trans hs1
    exact_mod_cast h

/-- With the settings that `NewProcessor` installs and the largest draw below
one, `1 - 2^-53`, the randomized value is 750ms plus one nanosecond. -/
theorem getRandomValueFromInterval_default_last :
    backoff.getRandomValueFromInterval (1 / 2) (9007199254740991 / 9007199254740992)
      500000000 = 750000001 := by
  have hr : float64.ofRat (9007199254740991 / 9007199254740992) =
      float64.Value.finite (9007199254740991 / 9007199254740992) := by
    have h := float64.round_eq (9007199254740991 / 9007199254740992) (-1) 9007199254740991
      (by norm_num [abs_of_pos]) (by norm_num [abs_of_pos]) (by norm_num)
      (float64.roundHalfEven_of_lt_half _ _ (by norm_num) (by norm_num))
      (lt_of_lt_of_le (by norm_num [abs_of_pos] : _ < (1 : ℚ)) (one_le_pow₀ (by norm_num)))
    rw [float64.ofRat, h]
    norm_num
  have hp : float64.mul (float64.Value.finite (9007199254740991 / 9007199254740992))
      (float64.Value.finite 500000001) =
      float64.Value.finite (8388608016777215 / 16777216) := by
    simp only [float64.mul]
    have h := float64.round_eq ((9007199254740991 / 9007199254740992 : ℚ) * 500000001) 28
      8388608016777215
      (by norm_num [abs_of_pos]) (by norm_num [abs_of_pos]) (by norm_num)
      (float64.roundHalfEven_of_lt_half _ _ (by norm_num) (by norm_num))
      (lt_of_lt_of_le (by norm_num [abs_of_pos] : _ < (2 : ℚ) ^ 30)
        (pow_le_pow_right₀ (by norm_num) (by norm_num)))
    rw [h]
    norm_num
  have hs : float64.add (float64.Value.finite 250000000)
      (float64.Value.finite (8388608016777215 / 16777216)) =
      float64.Value.finite 750000001 := by
    simp only [float64.add]
    have h := float64.round_eq ((250000000 : ℚ) + 8388608016777215 / 16777216) 29
      6291456008388608
      (by norm_num [abs_of_pos]) (by norm_num [abs_of_pos]) (by norm_num)
      (by
        have ht := float64.roundHalfEven_of_tie_odd
          (((250000000 : ℚ) + 8388608016777215 / 16777216) / (2 : ℚ) ^ ((29 : Int) - 52))
          6291456008388607 (by norm_num) (by norm_num)
        rw [ht]
        norm_num)
      (lt_of_lt_of_le (by norm_num [abs_of_pos] : _ < (2 : ℚ) ^ 30)
        (pow_le_pow_right₀ (by norm_num) (by norm_num)))
    rw [h]
    norm_num
  rw [getRandomValueFromInterval_default, hr, hp, hs, float64.toDuration_finite _ (by norm_num) (by norm_num)]
  simp

/-- C10 fails as stated: after a successful `Process` on a processor with the
default settings, the next `NextBackOff` with random draw `0` is 250ms, while
the initial interval is 500ms. -/
theorem NextBackOff_after_success_not_initial :
    (Sample.defaultProcessor.Process (Sample.envelope 0) Sample.okHandler
      Sample.oracle 0).result = none ∧
    (Sample.defaultProcessor.Process (Sample.envelope 0) Sample.okHandler
      Sample.oracle 0).backOff.InitialInterval = 500000000 ∧
    (((Sample.defaultProcessor.Process (Sample.envelope 0) Sample.okHandler
      Sample.oracle 0).backOff).NextBackOff 63900000000003000000 0).1 = 250000000 ∧
    (((Sample.defaultProcessor.Process (Sample.envelope 0) Sample.okHandler
      Sample.oracle 0).backOff).NextBackOff 63900000000003000000 0).1 ≠
    (Sample.defaultProcessor.Process (Sample.envelope 0) Sample.okHandler
      Sample.oracle 0).backOff.InitialInterval := by
  have hb := Process_success_backOff Sample.defaultProcessor (Sample.envelope 0)
    Sample.okHandler Sample.oracle 0 (by decide) rfl
  have hinit : (Sample.defaultProcessor.Process (Sample.envelope 0) Sample.okHandler
      Sample.oracle 0).backOff.InitialInterval = 500000000 := by rw [hb]; decide
  suffices hnext : (((Sample.defaultProcessor.Process (Sample.envelope 0) Sample.okHandler
      Sample.oracle 0).backOff).NextBackOff 63900000000003000000 0).1 = 250000000 by
    refine ⟨?_, hinit, hnext, ?_⟩
    · simp [ProcessorImpl.Process, Sample.envelope, Sample.okHandler]
    · rw [hnext, hinit]; decide
  rw [hb, NextBackOff_Reset]
  have hcond : ¬ (Sample.defaultProcessor.exponentialBackOff.MaxElapsedTime ≠ 0 ∧
      Time.Sub 63900000000003000000 Sample.oracle.nowDone >
        Sample.defaultProcessor.exponentialBackOff.MaxElapsedTime) := by decide
  rw [if_neg hcond]
  have hrf : Sample.defaultProcessor.exponentialBackOff.RandomizationFactor = 1 / 2 := rfl
  have hI : Sample.defaultProcessor.exponentialBackOff.InitialInterval = 500000000 := by decide
  rw [hrf, hI]
  exact getRandomValueFromInterval_default_zero

/-- C10 (amended): after a `Process` call whose handler succeeds the generator
has been reset: it is the generator as it was, with the current interval back
at the initial interval and the start time at the time of the reset.  The next
`NextBackOff` is therefore `Stop` when the maximum elapsed time has already
passed again, and else the randomized value that `getRandomValueFromInterval`
computes around the initial interval, which need not equal it: with the
settings that `NewProcessor` installs (factor 0.5, initial interval 500ms)
and a draw in `[0, 1)` it lies between 250ms and 750ms plus one nanosecond,
both of which occur, for the draw `0` and for the draw `1 - 2^-53`. -/
theorem Process_success_resets {T W : Type} (p : ProcessorImpl T W) (request : Event T)
    (fn : ProcessorFunc T W) (o : Oracle) (w : W) (now : Time) (random : ℚ)
    (hlt : request.Retries < 10) (hok : (fn request.Payload w).1 = none) :
    (p.Process request fn o w).backOff = p.exponentialBackOff.Reset o.nowDone ∧
    (p.Process request fn o w).backOff.currentInterval =
      p.exponentialBackOff.InitialInterval ∧
    (((p.Process request fn o w).backOff).NextBackOff now random).1 =
      (if p.exponentialBackOff.MaxElapsedTime ≠ 0 ∧
          Time.Sub now o.nowDone > p.exponentialBackOff.MaxElapsedTime then backoff.Stop
       else backoff.getRandomValueFromInterval p.exponentialBackOff.RandomizationFactor random
          p.exponentialBackOff.InitialInterval) ∧
    (p.exponentialBackOff.RandomizationFactor = 1 / 2 →
      p.exponentialBackOff.InitialInterval = 500000000 → 0 ≤ random → random < 1 →
      250000000 ≤ backoff.getRandomValueFromInterval p.exponentialBackOff.RandomizationFactor
        random p.exponentialBackOff.InitialInterval ∧
      backoff.getRandomValueFromInterval p.exponentialBackOff.RandomizationFactor random
        p.exponentialBackOff.InitialInterval ≤ 750000001) ∧
    backoff.getRandomValueFromInterval (1 / 2) 0 500000000 = 250000000 ∧
    backoff.getRandomValueFromInterval (1 / 2) (9007199254740991 / 9007199254740992)
      500000000 = 750000001 := by
  have hb := Process_success_backOff p request fn o w hlt hok
  refine ⟨hb, ?_, ?_, ?_, getRandomValueFromInterval_default_zero,
    getRandomValueFromInterval_default_last⟩
  · rw [hb]; rfl
  · rw [hb, NextBackOff_Reset]
  · intro hrf hI h0 h1
    rw [hrf, hI]
    exact getRandomValueFromInterval_default_bounds random h0 h1.le

/-- After a success on the default processor the current interval is 500ms
again, and the next randomized value for the draw `1/4` is at least 250ms. -/
theorem Process_success_resets_witness :
    (Sample.envelope 0).Retries < 10 ∧
    (Sample.defaultProcessor.Process (Sample.envelope 0) Sample.okHandler
      Sample.oracle 0).backOff.currentInterval = 500000000 ∧
    250000000 ≤ backoff.getRandomValueFromInterval
      Sample.defaultProcessor.exponentialBackOff.RandomizationFactor (1 / 4)
      Sample.defaultProcessor.exponentialBackOff.InitialInterval :=
  ⟨by decide,
    (Process_success_resets Sample.defaultProcessor (Sample.envelope 0) Sample.okHandler
      Sample.oracle 0 63900000000003000000 (1 / 4) (by decide) rfl).2.1,
    ((Process_success_resets Sample.defaultProcessor (Sample.envelope 0) Sample.okHandler
      Sample.oracle 0 63900000000003000000 (1 / 4) (by decide) rfl).2.2.2.1
      rfl (by decide) (by norm_num) (by norm_num)).1⟩

/-! ## Envelope codec -/

theorem decodeMap_encodeStd (s : Nat) (h : s < 64) :
    base64.decodeMap (base64.encodeStd s) = some s := by
  interval_cases s <;> rfl

/-- The alphabet holds neither the padding character nor a line break. -/
theorem encodeStd_ne_special (s : Nat) (h : s < 64) :
    base64.encodeStd s ≠ '=' ∧ base64.encodeStd s ≠ '\r' ∧ base64.encodeStd s ≠ '\n' := by
  interval_cases s <;> decide

/-- A byte is rebuilt from its value. -/
theorem byteOf_val (a : Byte) (n : Nat) (h : n = a.val) : byteOf n = a := by
  apply Fin.ext
  have := a.isLt
  simp only [byteOf]
  omega

/-- Decoding the characters of an encoding gives the bytes back. -/
theorem decodeChars_encodeChars (bs : List Byte) :
    base64.decodeChars (base64.encodeChars bs) = some bs := by
  induction bs using base64.encodeChars.induct with
  | case1 => rfl
  | case2 a =>
    have ha := a.isLt
    simp only [base64.encodeChars, base64.decodeChars, true_and, if_true, and_self,
      decodeMap_encodeStd (a.val / 4) (by omega), decodeMap_encodeStd (a.val % 4 * 16) (by omega)]
    rw [byteOf_val a _ (by omega)]
  | case3 a b =>
    have ha := a.isLt
    have hb := b.isLt
    have h3 := (encodeStd_ne_special (b.val % 16 * 4) (by omega)).1
    simp only [base64.encodeChars, base64.decodeChars, true_and, if_true, and_true, h3, if_false,
      decodeMap_encodeStd (a.val / 4) (by omega),
      decodeMap_encodeStd (a.val % 4 * 16 + b.val / 16) (by omega),
      decodeMap_encodeStd (b.val % 16 * 4) (by omega)]
    rw [byteOf_val a _ (by omega), byteOf_val b _ (by omega)]
  | case4 a b c rest ih =>
    have ha := a.isLt
    have hb := b.isLt
    have hc := c.isLt
    have h4 := (encodeStd_ne_special (c.val % 64) (by omega)).1
    simp only [base64.encodeChars, base64.decodeChars, h4, and_false, if_false, ih,
      decodeMap_encodeStd (a.val / 4) (by omega),
      decodeMap_encodeStd (a.val % 4 * 16 + b.val / 16) (by omega),
      decodeMap_encodeStd (b.val % 16 * 4 + c.val / 64) (by omega),
      decodeMap_encodeStd (c.val % 64) (by omega)]
    rw [byteOf_val a _ (by omega), byteOf_val b _ (by omega), byteOf_val c _ (by omega)]

/-- An encoding holds no carriage return and no line feed. -/
theorem encodeChars_no_newline (bs : List Byte) :
    (base64.encodeChars bs).filter (fun c => c ≠ '\r' ∧ c ≠ '\n') = base64.encodeChars bs := by
  rw [List.filter_eq_self]
  intro c hc
  induction bs using base64.encodeChars.induct with
  | case1 => simp [base64.encodeChars] at hc
  | case2 a =>
    have ha := a.isLt
    simp only [base64.encodeChars, List.mem_cons, List.mem_singleton, List.not_mem_nil,
      or_false] at hc
    rcases hc with h | h | h | h
    · subst h; simpa using (encodeStd_ne_special (a.val / 4) (by omega)).2
    · subst h; simpa using (encodeStd_ne_special (a.val % 4 * 16) (by omega)).2
    · subst h; decide
    · subst h; decide
  | case3 a b =>
    have ha := a.isLt
    have hb := b.isLt
    simp only [base64.encodeChars, List.mem_cons, List.mem_singleton, List.not_mem_nil,
      or_false] at hc
    rcases hc with h | h | h | h
    · subst h; simpa using (encodeStd_ne_special (a.val / 4) (by omega)).2
    · subst h; simpa using (encodeStd_ne_special (a.val % 4 * 16 + b.val / 16) (by omega)).2
    · subst h; simpa using (encodeStd_ne_special (b.val % 16 * 4) (by omega)).2
    · subst h; decide
  | case4 a b d rest ih =>
    have ha := a.isLt
    have hb := b.isLt
    have hd := d.isLt
    simp only [base64.encodeChars, List.mem_cons] at hc
    rcases hc with h | h | h | h | h
    · subst h; simpa using (encodeStd_ne_special (a.val / 4) (by omega)).2
    · subst h; simpa using (encodeStd_ne_special (a.val % 4 * 16 + b.val / 16) (by omega)).2
    · subst h; simpa using (encodeStd_ne_special (b.val % 16 * 4 + d.val / 64) (by omega)).2
    · subst h; simpa using (encodeStd_ne_special (d.val % 64) (by omega)).2
    · exact ih h

/-- The function `DecodeString` undoes `EncodeToString`. -/
theorem DecodeString_EncodeToString (bs : List Byte) :
    base64.DecodeString (base64.EncodeToString bs) = some bs := by
  simp only [base64.DecodeString, base64.EncodeToString]
  rw [encodeChars_no_newline, decodeChars_encodeChars]

/-- Decoding with `mapstructure` reads back the `BaseEvent` it wrote. -/
theorem toBaseEvent_fromBaseEvent (b : BaseEvent) :
    mapstructure.toBaseEvent (mapstructure.fromBaseEvent b) = Except.ok b := by
  unfold mapstructure.toBaseEvent mapstructure.findData mapstructure.fromBaseEvent
  rw [AList.lookup_insert]

/-- Storing the document of an event into any event gives the event, when the
payload reads back and the retry count is a 64-bit integer. -/
theorem intoEvent_ofEvent {T : Type} (codec : json.Codec T) (e cur : Event T)
    (payload : json.Value) (hback : codec.fromJson payload = some e.Payload)
    (hint : -(2 ^ 63) ≤ e.Retries ∧ e.Retries < 2 ^ 63) :
    json.intoEvent codec (json.ofEvent e payload) cur = some e := by
  have k1 : json.lowerKey "header" = "header" := by decide
  have k2 : json.lowerKey "payload" = "payload" := by decide
  have k3 : json.lowerKey "retries" = "retries" := by decide
  have k4 : json.lowerKey "key" = "key" := by decide
  have k5 : json.lowerKey "traceparent" = "traceparent" := by decide
  have k6 : json.lowerKey "tracestate" = "tracestate" := by decide
  have hrange : (-9223372036854775808 ≤ e.Retries ∧ e.Retries < 9223372036854775808) := by
    constructor <;> omega
  simp [json.intoEvent, json.ofEvent, json.intoEventMembers, json.intoHeader, json.ofHeader,
    json.intoHeaderMembers, json.intoString, json.intoInt, k1, k2, k3, k4, k5, k6, hback, hrange]

/-! ## UTF-8 -/

namespace utf8

/-- The value of a byte made from a number. -/
theorem byteOf_val_mod (n : Nat) : (byteOf n).val = n % 256 := rfl

/-- The number of a character is a Unicode scalar value. -/
theorem toNat_valid (c : Char) :
    c.toNat < 0xD800 ∨ (0xDFFF < c.toNat ∧ c.toNat < 0x110000) := by
  have h := c.valid
  simpa [UInt32.isValidChar, Nat.isValidChar, Char.toNat] using h

/-- The encoding of a rune has between one and four bytes. -/
theorem encodeRune_length (c : Char) :
    1 ≤ (encodeRune c).length ∧ (encodeRune c).length ≤ 4 := by
  unfold encodeRune
  split_ifs <;> simp

/-- Decoding reads back the rune that was encoded, and its width. -/
theorem decodeRune_encodeRune (c : Char) (rest : List Byte) :
    decodeRune (encodeRune c ++ rest) = some (c, (encodeRune c).length) := by
  have hv := toNat_valid c
  have hc : Char.ofNat c.toNat = c := Char.ofNat_toNat c
  unfold encodeRune
  by_cases h1 : c.toNat < 0x80
  · have hb : (byteOf c.toNat).val = c.toNat := by rw [byteOf_val_mod]; omega
    simp only [h1, if_true, List.cons_append, List.nil_append, decodeRune, hb, hc,
      List.length_singleton]
  · by_cases h2 : c.toNat < 0x800
    · have hb0 : (byteOf (0xC0 + c.toNat / 64)).val = 0xC0 + c.toNat / 64 := by
        rw [byteOf_val_mod]; omega
      have hb1 : (byteOf (0x80 + c.toNat % 64)).val = 0x80 + c.toNat % 64 := by
        rw [byteOf_val_mod]; omega
      have e0 : ¬ (0xC0 + c.toNat / 64 < 0x80) := by omega
      have e1 : 0xC2 ≤ 0xC0 + c.toNat / 64 ∧ 0xC0 + c.toNat / 64 ≤ 0xDF := by omega
      have e2 : isCont (byteOf (0x80 + c.toNat % 64)) = true := by
        simp only [isCont, hb1, decide_eq_true_eq]; omega
      have e3 : (0xC0 + c.toNat / 64 - 0xC0) * 64 + (0x80 + c.toNat % 64 - 0x80) = c.toNat := by
        omega
      simp only [h1, h2, if_true, if_false, List.cons_append, List.nil_append, decodeRune, hb0,
        hb1, e0, e1, e2, e3, hc, and_self, List.length_cons, List.length_nil]
    · by_cases h3 : c.toNat < 0x10000
      · have hb0 : (byteOf (0xE0 + c.toNat / 4096)).val = 0xE0 + c.toNat / 4096 := by
          rw [byteOf_val_mod]; omega
        have hb1 : (byteOf (0x80 + c.toNat / 64 % 64)).val = 0x80 + c.toNat / 64 % 64 := by
          rw [byteOf_val_mod]; omega
        have hb2 : (byteOf (0x80 + c.toNat % 64)).val = 0x80 + c.toNat % 64 := by
          rw [byteOf_val_mod]; omega
        have e0 : ¬ (0xE0 + c.toNat / 4096 < 0x80) := by omega
        have e1 : ¬ (0xC2 ≤ 0xE0 + c.toNat / 4096 ∧ 0xE0 + c.toNat / 4096 ≤ 0xDF) := by omega
        have e2 : 0xE0 ≤ 0xE0 + c.toNat / 4096 ∧ 0xE0 + c.toNat / 4096 ≤ 0xEF := by omega
        have e3 : (if 0xE0 + c.toNat / 4096 = 0xE0 then 0xA0 else 0x80) ≤ 0x80 + c.toNat / 64 % 64 ∧
            0x80 + c.toNat / 64 % 64 ≤ (if 0xE0 + c.toNat / 4096 = 0xED then 0x9F else 0xBF) ∧
            isCont (byteOf (0x80 + c.toNat % 64)) = true := by
          refine ⟨?_, ?_, ?_⟩
          · split_ifs <;> omega
          · split_ifs <;> omega
          · simp only [isCont, hb2, decide_eq_true_eq]; omega
        have e4 : (0xE0 + c.toNat / 4096 - 0xE0) * 4096 + (0x80 + c.toNat / 64 % 64 - 0x80) * 64 +
            (0x80 + c.toNat % 64 - 0x80) = c.toNat := by omega
        simp only [h1, h2, h3, if_true, if_false, List.cons_append, List.nil_append, decodeRune,
          hb0, hb1, hb2, e0, e1, e2, e3, e4, hc, and_self, List.length_cons, List.length_nil]
      · have hb0 : (byteOf (0xF0 + c.toNat / 262144)).val = 0xF0 + c.toNat / 262144 := by
          rw [byteOf_val_mod]; omega
        have hb1 : (byteOf (0x80 + c.toNat / 4096 % 64)).val = 0x80 + c.toNat / 4096 % 64 := by
          rw [byteOf_val_mod]; omega
        have hb2 : (byteOf (0x80 + c.toNat / 64 % 64)).val = 0x80 + c.toNat / 64 % 64 := by
          rw [byteOf_val_mod]; omega
        have hb3 : (byteOf (0x80 + c.toNat % 64)).val = 0x80 + c.toNat % 64 := by
          rw [byteOf_val_mod]; omega
        have e0 : ¬ (0xF0 + c.toNat / 262144 < 0x80) := by omega
        have e1 : ¬ (0xC2 ≤ 0xF0 + c.toNat / 262144 ∧ 0xF0 + c.toNat / 262144 ≤ 0xDF) := by omega
        have e2 : ¬ (0xE0 ≤ 0xF0 + c.toNat / 262144 ∧ 0xF0 + c.toNat / 262144 ≤ 0xEF) := by omega
        have e2' : 0xF0 ≤ 0xF0 + c.toNat / 262144 ∧ 0xF0 + c.toNat / 262144 ≤ 0xF4 := by omega
        have e3 : (if 0xF0 + c.toNat / 262144 = 0xF0 then 0x90 else 0x80) ≤
              0x80 + c.toNat / 4096 % 64 ∧
            0x80 + c.toNat / 4096 % 64 ≤
              (if 0xF0 + c.toNat / 262144 = 0xF4 then 0x8F else 0xBF) ∧
            isCont (byteOf (0x80 + c.toNat / 64 % 64)) = true ∧
            isCont (byteOf (0x80 + c.toNat % 64)) = true := by
          refine ⟨?_, ?_, ?_, ?_⟩
          · split_ifs <;> omega
          · split_ifs <;> omega
          · simp only [isCont, hb2, decide_eq_true_eq]; omega
          · simp only [isCont, hb3, decide_eq_true_eq]; omega
        have e4 : (0xF0 + c.toNat / 262144 - 0xF0) * 262144 +
            (0x80 + c.toNat / 4096 % 64 - 0x80) * 4096 +
            (0x80 + c.toNat / 64 % 64 - 0x80) * 64 + (0x80 + c.toNat % 64 - 0x80) = c.toNat := by
          omega
        simp only [h1, h2, h3, if_true, if_false, List.cons_append, List.nil_append, decodeRune,
          hb0, hb1, hb2, hb3, e0, e1, e2, e2', e3, e4, hc, and_self, List.length_cons,
          List.length_nil]

end utf8

/-! ## JSON strings -/

namespace json

/-- A character is determined by its number. -/
theorem char_eq_of_toNat (c : Char) (n : Nat) (h : c.toNat = n) : c = Char.ofNat n := by
  rw [← h, Char.ofNat_toNat]

/-- The first byte of the encoding of a rune: the rune itself below `0x80`,
and a byte from `0x80` on otherwise. -/
theorem encodeRune_cons (c : Char) :
    ∃ b tl, utf8.encodeRune c = b :: tl ∧
      (c.toNat < 0x80 → tl = [] ∧ b.val = c.toNat) ∧ (¬ c.toNat < 0x80 → 0x80 ≤ b.val) := by
  have hv := utf8.toNat_valid c
  unfold utf8.encodeRune
  by_cases h1 : c.toNat < 0x80
  · refine ⟨_, _, by rw [if_pos h1], fun _ => ⟨rfl, ?_⟩, fun h => absurd h1 h⟩
    rw [utf8.byteOf_val_mod]; omega
  · by_cases h2 : c.toNat < 0x800
    · refine ⟨_, _, by rw [if_neg h1, if_pos h2], fun h => absurd h h1, fun _ => ?_⟩
      rw [utf8.byteOf_val_mod]; omega
    · by_cases h3 : c.toNat < 0x10000
      · refine ⟨_, _, by rw [if_neg h1, if_neg h2, if_pos h3], fun h => absurd h h1, fun _ => ?_⟩
        rw [utf8.byteOf_val_mod]; omega
      · refine ⟨_, _, by rw [if_neg h1, if_neg h2, if_neg h3], fun h => absurd h h1, fun _ => ?_⟩
        rw [utf8.byteOf_val_mod]; omega

/-- On the bytes of a valid text, `appendString` writes rune by rune. -/
theorem encode_stringBody (cs : List Char) (fuel : Nat) (hfuel : cs.length ≤ fuel) :
    encode.stringBody fuel (cs.flatMap utf8.encodeRune) = cs.flatMap encode.rune := by
  induction cs generalizing fuel with
  | nil => cases fuel <;> rfl
  | cons c cs ih =>
    obtain ⟨fuel, rfl⟩ : ∃ f, fuel = f + 1 := ⟨fuel - 1, by simp at hfuel; omega⟩
    have hf : cs.length ≤ fuel := by simpa using hfuel
    obtain ⟨b, tl, hbt, hlow, hhigh⟩ := encodeRune_cons c
    have hdec := utf8.decodeRune_encodeRune c (cs.flatMap utf8.encodeRune)
    simp only [List.flatMap_cons]
    rw [hbt] at hdec ⊢
    by_cases h1 : c.toNat < 0x80
    · obtain ⟨htl, hb⟩ := hlow h1
      subst htl
      have hb' : b = byteOf c.toNat := by
        apply Fin.ext
        rw [hb, utf8.byteOf_val_mod]; omega
      have hlt : (byteOf c.toNat).val < 0x80 := by rw [← hb']; omega
      subst hb'
      simp only [List.cons_append, List.nil_append, encode.stringBody, hlt, if_true, ih fuel hf,
        encode.rune, h1, List.append_eq]
    · have hge := hhigh h1
      have hnlt : ¬ b.val < 0x80 := by omega
      have hlen : (b :: tl).length = (utf8.encodeRune c).length := by rw [hbt]
      rw [List.cons_append] at hdec
      simp only [List.cons_append, encode.stringBody, hnlt, if_false, List.append_eq,
        List.nil_append, hdec]
      have htake : (b :: (tl ++ cs.flatMap utf8.encodeRune)).take (b :: tl).length = b :: tl := by
        rw [← List.cons_append, List.take_left']
        rfl
      have hdrop : (b :: (tl ++ cs.flatMap utf8.encodeRune)).drop (b :: tl).length =
          cs.flatMap utf8.encodeRune := by
        rw [← List.cons_append, List.drop_left']
        rfl
      rw [htake, hdrop, ih fuel hf]
      simp only [encode.rune, h1, if_false, hbt]
      split_ifs <;> rfl

/-- A hexadecimal digit is read back. -/
theorem hexVal_hex (n : Nat) (h : n < 16) : decode.hexVal (encode.hex n) = some n := by
  interval_cases n <;> rfl

/-- Reading back what `appendString` wrote for one rune of a valid text. -/
theorem decode_stringBody_rune (c : Char) (fuel : Nat) (rest : List Byte) (acc : List Char) :
    decode.stringBody (fuel + 1) (encode.rune c ++ rest) acc =
      decode.stringBody fuel rest (c :: acc) := by
  have hc : Char.ofNat c.toNat = c := Char.ofNat_toNat c
  unfold encode.rune
  by_cases h1 : c.toNat < 0x80
  · have hb : (byteOf c.toNat).val = c.toNat := by rw [utf8.byteOf_val_mod]; omega
    rw [if_pos h1]
    unfold encode.escapeASCII
    by_cases hs : encode.htmlSafe (byteOf c.toNat) = true
    · rw [if_pos hs]
      simp only [encode.htmlSafe, hb, decide_eq_true_eq] at hs
      have e1 : ¬ c.toNat = 34 := by omega
      have e2 : ¬ c.toNat = 92 := by omega
      have e3 : ¬ c.toNat < 0x20 := by omega
      simp only [List.cons_append, List.nil_append, decode.stringBody, hb, e1, e2, e3, h1,
        if_true, if_false, hc, List.append_eq]
    · rw [if_neg hs]
      simp only [encode.htmlSafe, hb, decide_eq_true_eq] at hs
      by_cases hq : c.toNat = 92 ∨ c.toNat = 34
      · rw [hb, if_pos hq]
        rcases hq with h | h
        · have := char_eq_of_toNat c 92 h
          subst this
          rfl
        · have := char_eq_of_toNat c 34 h
          subst this
          rfl
      · rw [hb, if_neg hq]
        by_cases h8 : c.toNat = 8
        · have := char_eq_of_toNat c 8 h8
          subst this
          rfl
        · by_cases h12 : c.toNat = 12
          · have := char_eq_of_toNat c 12 h12
            subst this
            rfl
          · by_cases h10 : c.toNat = 10
            · have := char_eq_of_toNat c 10 h10
              subst this
              rfl
            · by_cases h13 : c.toNat = 13
              · have := char_eq_of_toNat c 13 h13
                subst this
                rfl
              · by_cases h9 : c.toNat = 9
                · have := char_eq_of_toNat c 9 h9
                  subst this
                  rfl
                · rw [if_neg h8, if_neg h12, if_neg h10, if_neg h13, if_neg h9]
                  have hu : decode.getu4 (byteOf 92 :: byteOf 117 :: byteOf 48 :: byteOf 48 ::
                      encode.hex (c.toNat / 16) :: encode.hex (c.toNat % 16) :: rest) =
                      some c.toNat := by
                    have k1 := hexVal_hex (c.toNat / 16) (by omega)
                    have k2 := hexVal_hex (c.toNat % 16) (by omega)
                    have k0 : decode.hexVal (byteOf 48) = some 0 := rfl
                    simp only [decode.getu4, k0, k1, k2]
                    have e : (byteOf 92).val = 92 ∧ (byteOf 117).val = 117 := ⟨rfl, rfl⟩
                    rw [if_pos e]
                    congr 1
                    omega
                  have hns : ¬ (0xD800 ≤ c.toNat ∧ c.toNat < 0xE000) := by omega
                  have e1 : ¬ (byteOf 92).val = 34 := by decide
                  have e2 : (byteOf 92).val = 92 := rfl
                  have e3 : (byteOf 117).val = 117 := rfl
                  have e4 : ¬ (92 : Nat) = 34 := by decide
                  simp only [List.cons_append, List.nil_append, decode.stringBody, e1, e2, e3,
                    e4, if_true, if_false, hu, hns, List.drop_succ_cons, List.drop_zero, hc,
                    List.append_eq]
  · rw [if_neg h1]
    by_cases hsep : c.toNat = 0x2028 ∨ c.toNat = 0x2029
    · rw [if_pos hsep]
      rcases hsep with h | h
      · have := char_eq_of_toNat c 0x2028 h
        subst this
        rfl
      · have := char_eq_of_toNat c 0x2029 h
        subst this
        rfl
    · rw [if_neg hsep]
      obtain ⟨b, tl, hbt, _, hhigh⟩ := encodeRune_cons c
      have hge := hhigh h1
      have hdec := utf8.decodeRune_encodeRune c rest
      rw [hbt] at hdec ⊢
      rw [List.cons_append] at hdec ⊢
      have e1 : ¬ b.val = 34 := by omega
      have e2 : ¬ b.val = 92 := by omega
      have e3 : ¬ b.val < 0x20 := by omega
      have e4 : ¬ b.val < 0x80 := by omega
      have hdrop : (b :: (tl ++ rest)).drop (b :: tl).length = rest := by
        rw [← List.cons_append, List.drop_left']
        rfl
      simp only [decode.stringBody, e1, e2, e3, e4, if_false, hdec, hdrop, List.append_eq]

/-- Reading back what `appendString` wrote for a valid text, up to the closing
quote. -/
theorem decode_stringBody_text (cs : List Char) (fuel : Nat) (rest : List Byte)
    (acc : List Char) (hfuel : cs.length + 1 ≤ fuel) :
    decode.stringBody fuel (cs.flatMap encode.rune ++ byteOf 34 :: rest) acc =
      some (String.mk (acc.reverse ++ cs), rest) := by
  induction cs generalizing fuel acc with
  | nil =>
    obtain ⟨fuel, rfl⟩ : ∃ f, fuel = f + 1 := ⟨fuel - 1, by simp at hfuel; omega⟩
    have e : (byteOf 34).val = 34 := rfl
    simp [decode.stringBody, e]
  | cons c cs ih =>
    obtain ⟨fuel, rfl⟩ : ∃ f, fuel = f + 1 := ⟨fuel - 1, by simp at hfuel; omega⟩
    have hf : cs.length + 1 ≤ fuel := by simpa using hfuel
    rw [List.flatMap_cons, List.append_assoc, decode_stringBody_rune, ih fuel (c :: acc) hf]
    simp

/-- What `appendString` writes for a rune is not empty. -/
theorem rune_length (c : Char) : 1 ≤ (encode.rune c).length := by
  unfold encode.rune encode.escapeASCII
  have := (utf8.encodeRune_length c).1
  split_ifs <;> simp
  omega

/-- What `appendString` writes for a text has at least one byte for each rune. -/
theorem flatMap_rune_length (cs : List Char) : cs.length ≤ (cs.flatMap encode.rune).length := by
  induction cs with
  | nil => simp
  | cons c cs ih =>
    have := rune_length c
    simp only [List.flatMap_cons, List.length_append, List.length_cons]
    omega

/-- The JSON string of a text. -/
theorem encode_string (s : String) :
    encode.string (utf8.encode s) = byteOf 34 :: s.data.flatMap encode.rune ++ [byteOf 34] := by
  unfold encode.string utf8.encode
  rw [encode_stringBody]
  have : ∀ cs : List Char, cs.length ≤ (cs.flatMap utf8.encodeRune).length := by
    intro cs
    induction cs with
    | nil => simp
    | cons c cs ih =>
      have := (utf8.encodeRune_length c).1
      simp only [List.flatMap_cons, List.length_append, List.length_cons]
      omega
  exact this _

/-- A JSON string written by `appendString` for a text is read back as that
text, whatever follows it. -/
theorem decode_string (s : String) (rest : List Byte) :
    decode.stringBody (s.data.flatMap encode.rune ++ byteOf 34 :: rest).length
      (s.data.flatMap encode.rune ++ byteOf 34 :: rest) [] = some (s, rest) := by
  rw [decode_stringBody_text]
  · rfl
  · have := flatMap_rune_length s.data
    simp only [List.length_append, List.length_cons]
    omega

end json

/-! ## JSON numbers -/

namespace json

/-- What cannot continue a number is not a digit. -/
theorem endsNumber_digit (b : Byte) (r : List Byte) (h : decode.endsNumber (b :: r) = true) :
    decode.isDigit b = false ∧ b.val ≠ 46 ∧ b.val ≠ 101 ∧ b.val ≠ 69 := by
  simp only [decode.endsNumber, Bool.and_eq_true, Bool.not_eq_true', decide_eq_true_eq] at h
  exact ⟨h.1, h.2⟩

/-- The digits at the start of an input are the same when the input goes on
with what cannot continue a number. -/
theorem digits_append (bs rest : List Byte) (h : decode.endsNumber rest = true) :
    decode.digits (bs ++ rest) = ((decode.digits bs).1, (decode.digits bs).2 ++ rest) := by
  induction bs with
  | nil =>
    cases rest with
    | nil => rfl
    | cons c r =>
      have hc := (endsNumber_digit c r h).1
      simp [decode.digits, hc]
  | cons b bs ih =>
    by_cases hb : decode.isDigit b = true
    · simp [decode.digits, hb, ih]
    · simp [decode.digits, hb]

/-- The fraction at the start of an input is the same when the input goes on
with what cannot continue a number. -/
theorem fraction_append (bs rest f r : List Byte) (h : decode.endsNumber rest = true)
    (hf : decode.fraction bs = some (f, r)) :
    decode.fraction (bs ++ rest) = some (f, r ++ rest) := by
  cases bs with
  | nil =>
    simp only [decode.fraction, Option.some.injEq, Prod.mk.injEq] at hf
    obtain ⟨rfl, rfl⟩ := hf
    cases rest with
    | nil => rfl
    | cons c r =>
      have hc := (endsNumber_digit c r h).2.1
      simp [decode.fraction, hc]
  | cons b bs =>
    by_cases hb : b.val = 46
    · simp only [decode.fraction, hb, if_true] at hf
      by_cases hd : (decode.digits bs).1 = []
      · simp [hd] at hf
      · simp only [hd, if_false, Option.some.injEq, Prod.mk.injEq] at hf
        obtain ⟨rfl, rfl⟩ := hf
        simp [decode.fraction, hb, digits_append bs rest h, hd]
    · simp only [decode.fraction, hb, if_false, Option.some.injEq, Prod.mk.injEq] at hf
      obtain ⟨rfl, rfl⟩ := hf
      simp [decode.fraction, hb]

/-- The exponent at the start of an input is the same when the input goes on
with what cannot continue a number. -/
theorem exponent_append (bs rest f r : List Byte) (h : decode.endsNumber rest = true)
    (hf : decode.exponent bs = some (f, r)) :
    decode.exponent (bs ++ rest) = some (f, r ++ rest) := by
  cases bs with
  | nil =>
    simp only [decode.exponent, Option.some.injEq, Prod.mk.injEq] at hf
    obtain ⟨rfl, rfl⟩ := hf
    cases rest with
    | nil => rfl
    | cons c r =>
      have hc := (endsNumber_digit c r h).2.2
      have hc' : ¬ (c.val = 101 ∨ c.val = 69) := by
        intro hh
        rcases hh with hh | hh
        · exact hc.1 hh
        · exact hc.2 hh
      simp [decode.exponent, hc']
  | cons b bs =>
    by_cases hb : b.val = 101 ∨ b.val = 69
    · cases bs with
      | nil => simp [decode.exponent, hb] at hf
      | cons s bs =>
        by_cases hs : s.val = 43 ∨ s.val = 45
        · simp only [decode.exponent, hb, hs, if_true] at hf
          by_cases hd : (decode.digits bs).1 = []
          · simp [hd] at hf
          · simp only [hd, if_false, Option.some.injEq, Prod.mk.injEq] at hf
            obtain ⟨rfl, rfl⟩ := hf
            simp [decode.exponent, hb, hs, digits_append bs rest h, hd]
        · simp only [decode.exponent, hb, hs, if_true, if_false] at hf
          by_cases hd : (decode.digits (s :: bs)).1 = []
          · simp [hd] at hf
          · simp only [hd, if_false, Option.some.injEq, Prod.mk.injEq] at hf
            obtain ⟨rfl, rfl⟩ := hf
            have hda := digits_append (s :: bs) rest h
            rw [List.cons_append] at hda
            simp [decode.exponent, hb, hs, hda, hd]
    · simp only [decode.exponent, hb, if_false, Option.some.injEq, Prod.mk.injEq] at hf
      obtain ⟨rfl, rfl⟩ := hf
      simp [decode.exponent, hb]

/-- A number without its sign is read the same when the input goes on with
what cannot continue a number. -/
theorem unsigned_append (sign bs rest : List Byte) (x : Value) (r : List Byte)
    (h : decode.endsNumber rest = true) (hx : decode.unsigned sign bs = some (x, r)) :
    decode.unsigned sign (bs ++ rest) = some (x, r ++ rest) := by
  cases bs with
  | nil => simp [decode.unsigned] at hx
  | cons d bs =>
    by_cases hd : decode.isDigit d = true
    · simp only [decode.unsigned, hd, if_true] at hx
      rw [List.cons_append]
      simp only [decode.unsigned, hd, if_true]
      have hda := digits_append bs rest h
      cases hfr : decode.fraction (if d.val = 48 then bs else (decode.digits bs).2) with
      | none => simp [hfr] at hx
      | some p =>
        obtain ⟨frac, r1⟩ := p
        simp only [hfr] at hx
        have hfr' : decode.fraction (if d.val = 48 then bs ++ rest
            else (decode.digits (bs ++ rest)).2) = some (frac, r1 ++ rest) := by
          by_cases h0 : d.val = 48
          · simp only [h0, if_true] at hfr ⊢
            exact fraction_append bs rest frac r1 h hfr
          · simp only [h0, if_false] at hfr ⊢
            rw [hda]
            exact fraction_append _ rest frac r1 h hfr
        simp only [hfr']
        cases hex : decode.exponent r1 with
        | none => simp [hex] at hx
        | some q =>
          obtain ⟨exp, r2⟩ := q
          simp only [hex] at hx
          rw [exponent_append r1 rest exp r2 h hex]
          simp only [hda]
          by_cases hint : frac = [] ∧ exp = []
          · simp only [hint, and_self, if_true, Option.some.injEq, Prod.mk.injEq] at hx ⊢
            exact ⟨hx.1, by rw [hx.2]⟩
          · simp only [hint, if_false, Option.some.injEq, Prod.mk.injEq] at hx ⊢
            exact ⟨hx.1, by rw [hx.2]⟩
    · simp [decode.unsigned, hd] at hx

/-- A number is read the same when the input goes on with what cannot continue
a number. -/
theorem number_append (bs rest : List Byte) (x : Value) (r : List Byte)
    (h : decode.endsNumber rest = true) (hx : decode.number bs = some (x, r)) :
    decode.number (bs ++ rest) = some (x, r ++ rest) := by
  cases bs with
  | nil => simp [decode.number] at hx
  | cons b bs =>
    by_cases hb : b.val = 45
    · simp only [decode.number, hb, if_true] at hx
      rw [List.cons_append]
      simp only [decode.number, hb, if_true]
      exact unsigned_append _ bs rest x r h hx
    · simp only [decode.number, hb, if_false] at hx
      rw [List.cons_append]
      simp only [decode.number, hb, if_false]
      have := unsigned_append [] (b :: bs) rest x r h hx
      rw [List.cons_append] at this
      exact this

/-- A number starts with a minus sign or a digit. -/
theorem number_head (b : Byte) (bs : List Byte) (x : Value) (r : List Byte)
    (hx : decode.number (b :: bs) = some (x, r)) : b.val = 45 ∨ decode.isDigit b = true := by
  by_cases hb : b.val = 45
  · exact Or.inl hb
  · right
    simp only [decode.number, hb, if_false, decode.unsigned] at hx
    by_cases hd : decode.isDigit b = true
    · exact hd
    · simp [hd] at hx

end json

namespace json

/-- The number that digits followed by one more digit denote. -/
theorem natOf_append (ds : List Byte) (d : Byte) :
    decode.natOf (ds ++ [d]) = decode.natOf ds * 10 + (d.val - 48) := by
  simp [decode.natOf, List.foldl_append]

/-- A run of digits is read as a whole. -/
theorem digits_of_all (ds : List Byte) (h : ds.all decode.isDigit = true) :
    decode.digits ds = (ds, []) := by
  induction ds with
  | nil => rfl
  | cons d ds ih =>
    simp only [List.all_cons, Bool.and_eq_true] at h
    simp [decode.digits, h.1, ih h.2]

/-- The digits written for a natural number: they are digits, they denote the
number, and the first is `0` only for the number zero, written `0`. -/
theorem encode_digits_spec (fuel n : Nat) (h : n < 10 ^ (fuel + 1)) :
    (encode.digits (fuel + 1) n).all decode.isDigit = true ∧
    decode.natOf (encode.digits (fuel + 1) n) = n ∧
    ∃ d tl, encode.digits (fuel + 1) n = d :: tl ∧ (d.val = 48 → n = 0 ∧ tl = []) := by
  induction fuel generalizing n with
  | zero =>
    have hn : n < 10 := by simpa using h
    have hv : (byteOf (48 + n)).val = 48 + n := by rw [utf8.byteOf_val_mod]; omega
    refine ⟨?_, ?_, byteOf (48 + n), [], ?_, ?_⟩
    · simp only [encode.digits, hn, if_true, List.all_cons, List.all_nil, Bool.and_true,
        decode.isDigit, hv, decide_eq_true_eq]
      omega
    · simp only [encode.digits, hn, if_true, decode.natOf, List.foldl_cons, List.foldl_nil, hv]
      omega
    · simp only [encode.digits, hn, if_true]
    · intro h48
      rw [hv] at h48
      exact ⟨by omega, rfl⟩
  | succ f ih =>
    by_cases hn : n < 10
    · have hv : (byteOf (48 + n)).val = 48 + n := by rw [utf8.byteOf_val_mod]; omega
      refine ⟨?_, ?_, byteOf (48 + n), [], ?_, ?_⟩
      · simp only [encode.digits, hn, if_true, List.all_cons, List.all_nil, Bool.and_true,
          decode.isDigit, hv, decide_eq_true_eq]
        omega
      · simp only [encode.digits, hn, if_true, decode.natOf, List.foldl_cons, List.foldl_nil, hv]
        omega
      · simp only [encode.digits, hn, if_true]
      · intro h48
        rw [hv] at h48
        exact ⟨by omega, rfl⟩
    · have hdiv : n / 10 < 10 ^ (f + 1) := by
        have : n < 10 ^ (f + 1) * 10 := by rw [← pow_succ]; exact h
        exact Nat.div_lt_of_lt_mul (by rw [Nat.mul_comm]; exact this)
      obtain ⟨hall, hnat, d, tl, hdt, h0⟩ := ih (n / 10) hdiv
      have hv : (byteOf (48 + n % 10)).val = 48 + n % 10 := by rw [utf8.byteOf_val_mod]; omega
      have hstep : encode.digits (f + 1 + 1) n =
          encode.digits (f + 1) (n / 10) ++ [byteOf (48 + n % 10)] := by
        rw [encode.digits]
        simp only [hn, if_false]
      refine ⟨?_, ?_, d, tl ++ [byteOf (48 + n % 10)], ?_, ?_⟩
      · rw [hstep, List.all_append, hall]
        simp only [List.all_cons, List.all_nil, Bool.and_true, Bool.true_and, decode.isDigit, hv,
          decide_eq_true_eq]
        omega
      · rw [hstep, natOf_append, hnat, hv]
        omega
      · rw [hstep, hdt]
        rfl
      · intro h48
        have := (h0 h48).1
        omega

/-- An integer written by `strconv.AppendInt` is read back as that integer. -/
theorem number_int (n : Int) : decode.number (encode.int n) = some (Value.num n, []) := by
  have hlt : n.natAbs < 10 ^ (n.natAbs + 1) :=
    lt_of_lt_of_le (Nat.lt_pow_self (by norm_num) n.natAbs)
      (Nat.pow_le_pow_right (by norm_num) (Nat.le_succ _))
  obtain ⟨hall, hnat, d, tl, hdt, h0⟩ := encode_digits_spec n.natAbs n.natAbs hlt
  have hd : decode.isDigit d = true := by
    rw [hdt] at hall
    simp only [List.all_cons, Bool.and_eq_true] at hall
    exact hall.1
  have htl : tl.all decode.isDigit = true := by
    rw [hdt] at hall
    simp only [List.all_cons, Bool.and_eq_true] at hall
    exact hall.2
  have hun : ∀ sign : List Byte, decode.unsigned sign (d :: tl) =
      some (Value.num (if sign = [] then (n.natAbs : Int) else -(n.natAbs : Int)), []) := by
    intro sign
    rw [hdt] at hnat
    by_cases h48 : d.val = 48
    · obtain ⟨_, htl0⟩ := h0 h48
      subst htl0
      simp [decode.unsigned, hd, h48, decode.fraction, decode.exponent, hnat]
    · simp [decode.unsigned, hd, h48, digits_of_all tl htl, decode.fraction, decode.exponent,
        hnat]
  unfold encode.int
  by_cases hneg : n < 0
  · rw [if_pos hneg, hdt]
    have e : (byteOf 45).val = 45 := rfl
    simp only [decode.number, e, if_true, hun]
    have hne : ¬ ([byteOf 45] = ([] : List Byte)) := by simp
    rw [if_neg hne]
    congr 3
    omega
  · rw [if_neg hneg, hdt]
    have hd45 : ¬ d.val = 45 := by
      simp only [decode.isDigit, decide_eq_true_eq] at hd
      omega
    simp only [decode.number, hd45, if_false, hun, if_true]
    congr 3
    omega

end json

/-! ## JSON documents -/

namespace json

/-- White space is skipped only where there is some. -/
theorem skipSpace_cons (b : Byte) (r : List Byte) (h : decode.isSpace b = false) :
    decode.skipSpace (b :: r) = b :: r := by
  simp [decode.skipSpace, h]

/-- A text that passes for a number literal is read as that literal. -/
theorem isLiteral_spec (text : String) (h : decode.isLiteral text = true) :
    decode.number (utf8.encode text) = some (Value.lit text, []) := by
  unfold decode.isLiteral at h
  split at h
  · rename_i t heq
    simp only [decide_eq_true_eq] at h
    rw [heq, h]
  · exact absurd h (by simp)

/-- A value that is a number: it is read by the number scanner, whatever
follows that cannot continue a number. -/
theorem value_of_number (bs : List Byte) (x : Value) (fuel depth : Nat) (rest : List Byte)
    (hnum : decode.number bs = some (x, [])) (hends : decode.endsNumber rest = true) :
    decode.value (fuel + 1) depth (bs ++ rest) = some (x, rest) := by
  cases bs with
  | nil => simp [decode.number] at hnum
  | cons b tl =>
    have hh := number_head b tl x [] hnum
    have happ := number_append (b :: tl) rest x [] hends hnum
    rw [List.cons_append, List.nil_append] at happ
    have hval : b.val = 45 ∨ (48 ≤ b.val ∧ b.val ≤ 57) := by
      rcases hh with h | h
      · exact Or.inl h
      · right
        simpa [decode.isDigit] using h
    have hsp : decode.isSpace b = false := by
      simp only [decode.isSpace, decide_eq_false_iff_not]
      omega
    have e1 : ¬ b.val = 110 := by omega
    have e2 : ¬ b.val = 116 := by omega
    have e3 : ¬ b.val = 102 := by omega
    have e4 : ¬ b.val = 34 := by omega
    have e5 : ¬ b.val = 91 := by omega
    have e6 : ¬ b.val = 123 := by omega
    rw [List.cons_append]
    simp only [decode.value, skipSpace_cons b _ hsp, e1, e2, e3, e4, e5, e6, if_false, happ]

/-- The first byte of the text of a document: no white space, no closing
bracket. -/
theorem encode_value_cons (v : Value) (hwf : v.wellFormed = true) :
    ∃ b tl, encode.value v = b :: tl ∧ decode.isSpace b = false ∧ b.val ≠ 93 := by
  have hnumhead : ∀ bs x, decode.number bs = some (x, []) →
      ∃ b tl, bs = b :: tl ∧ decode.isSpace b = false ∧ b.val ≠ 93 := by
    intro bs x hnum
    cases bs with
    | nil => simp [decode.number] at hnum
    | cons b tl =>
      have hh := number_head b tl x [] hnum
      have hval : b.val = 45 ∨ (48 ≤ b.val ∧ b.val ≤ 57) := by
        rcases hh with h | h
        · exact Or.inl h
        · right
          simpa [decode.isDigit] using h
      refine ⟨b, tl, rfl, ?_, by omega⟩
      simp only [decode.isSpace, decide_eq_false_iff_not]
      omega
  cases v with
  | null => exact ⟨_, _, by rw [encode.value], by decide, by decide⟩
  | bool b =>
    cases b
    · exact ⟨_, _, by rw [encode.value], by decide, by decide⟩
    · exact ⟨_, _, by rw [encode.value], by decide, by decide⟩
  | num n =>
    rw [encode.value]
    exact hnumhead _ _ (number_int n)
  | lit text =>
    rw [encode.value]
    rw [Value.wellFormed] at hwf
    exact hnumhead _ _ (isLiteral_spec text hwf)
  | str s =>
    exact ⟨byteOf 34, _, by rw [encode.value, encode.string, List.cons_append], by decide,
      by decide⟩
  | arr items =>
    exact ⟨byteOf 91, _, by rw [encode.value, List.cons_append], by decide, by decide⟩
  | obj members =>
    exact ⟨byteOf 123, _, by rw [encode.value, List.cons_append], by decide, by decide⟩

end json
namespace json

/-- The text of the members of an object starts with the quote of a key. -/
theorem encode_fields_cons (k : String) (v : Value) (ms : List (String × Value)) :
    ∃ tl, encode.fields ((k, v) :: ms) = byteOf 34 :: tl := by
  cases ms with
  | nil => exact ⟨_, by rw [encode.fields, encode.string]; rfl⟩
  | cons m ms => exact ⟨_, by rw [encode.fields, encode.string]; rfl⟩

/-- A closing bracket, a closing brace and a comma cannot continue a number. -/
theorem endsNumber_delim (rest : List Byte) :
    decode.endsNumber (byteOf 93 :: rest) = true ∧ decode.endsNumber (byteOf 125 :: rest) = true ∧
    decode.endsNumber (byteOf 44 :: rest) = true :=
  ⟨rfl, rfl, rfl⟩

/-- The text of the items of an array starts with no white space and no
closing bracket. -/
theorem encode_elements_cons (v : Value) (vs : List Value) (hv : v.wellFormed = true) :
    ∃ b tl, encode.elements (v :: vs) = b :: tl ∧ decode.isSpace b = false ∧ b.val ≠ 93 := by
  obtain ⟨b, tl, hbt, hsp, h93⟩ := encode_value_cons v hv
  cases vs with
  | nil => exact ⟨b, tl, by rw [encode.elements, hbt], hsp, h93⟩
  | cons w ws => exact ⟨b, _, by rw [encode.elements, hbt, List.cons_append], hsp, h93⟩

/-- An array that is not empty, from its items. -/
theorem value_of_elements (v : Value) (vs : List Value) (f d : Nat) (rest : List Byte)
    (hv : v.wellFormed = true)
    (hels : decode.elements f d (encode.elements (v :: vs) ++ byteOf 93 :: rest) =
      some (v :: vs, rest)) :
    decode.value (f + 1) (d + 1) (encode.value (Value.arr (v :: vs)) ++ rest) =
      some (Value.arr (v :: vs), rest) := by
  obtain ⟨b, tl, hbt, hsp, h93⟩ := encode_elements_cons v vs hv
  rw [hbt] at hels
  rw [encode.value, hbt]
  have e1 : decode.isSpace (byteOf 91) = false := by decide
  have e2 : ¬ (91 : Nat) = 110 := by decide
  have e3 : ¬ (91 : Nat) = 116 := by decide
  have e4 : ¬ (91 : Nat) = 102 := by decide
  have e5 : ¬ (91 : Nat) = 34 := by decide
  have e6 : (byteOf 91).val = 91 := rfl
  simp only [List.cons_append, List.append_assoc, List.singleton_append, List.nil_append] at hels ⊢
  simp only [decode.value, skipSpace_cons _ _ e1, e2, e3, e4, e5, e6, if_true, if_false,
    skipSpace_cons _ _ hsp, h93, hels]

/-- An object that is not empty, from its members. -/
theorem value_of_fields (k : String) (v : Value) (ms : List (String × Value)) (f d : Nat)
    (rest : List Byte)
    (hfs : decode.fields f d (encode.fields ((k, v) :: ms) ++ byteOf 125 :: rest) =
      some ((k, v) :: ms, rest)) :
    decode.value (f + 1) (d + 1) (encode.value (Value.obj ((k, v) :: ms)) ++ rest) =
      some (Value.obj ((k, v) :: ms), rest) := by
  obtain ⟨tl, hbt⟩ := encode_fields_cons k v ms
  rw [hbt] at hfs
  rw [encode.value, hbt]
  have e1 : decode.isSpace (byteOf 123) = false := by decide
  have e2 : ¬ (123 : Nat) = 110 := by decide
  have e3 : ¬ (123 : Nat) = 116 := by decide
  have e4 : ¬ (123 : Nat) = 102 := by decide
  have e5 : ¬ (123 : Nat) = 34 := by decide
  have e6 : ¬ (123 : Nat) = 91 := by decide
  have e7 : (byteOf 123).val = 123 := rfl
  have e8 : decode.isSpace (byteOf 34) = false := by decide
  have e9 : ¬ (byteOf 34).val = 125 := by decide
  simp only [List.cons_append, List.append_assoc, List.singleton_append, List.nil_append] at hfs ⊢
  simp only [decode.value, skipSpace_cons _ _ e1, e2, e3, e4, e5, e6, e7, if_true, if_false,
    skipSpace_cons _ _ e8, e9, hfs]

/-- A string value is read back. -/
theorem value_of_string (s : String) (f depth : Nat) (rest : List Byte) :
    decode.value (f + 1) depth (encode.value (Value.str s) ++ rest) =
      some (Value.str s, rest) := by
  rw [encode.value, encode_string]
  simp only [List.cons_append, List.append_assoc, List.singleton_append, List.nil_append]
  have e1 : decode.isSpace (byteOf 34) = false := by decide
  have e2 : ¬ (34 : Nat) = 110 := by decide
  have e3 : ¬ (34 : Nat) = 116 := by decide
  have e4 : ¬ (34 : Nat) = 102 := by decide
  have e5 : (byteOf 34).val = 34 := rfl
  simp only [decode.value, skipSpace_cons _ _ e1, e2, e3, e4, e5, if_true, if_false,
    decode_string s rest]

/-- One item, then the closing bracket. -/
theorem elements_last (v : Value) (f depth : Nat) (rest : List Byte)
    (hv : decode.value f depth (encode.value v ++ byteOf 93 :: rest) =
      some (v, byteOf 93 :: rest)) :
    decode.elements (f + 1) depth (encode.elements [v] ++ byteOf 93 :: rest) =
      some ([v], rest) := by
  have e1 : decode.isSpace (byteOf 93) = false := by decide
  have e2 : ¬ (93 : Nat) = 44 := by decide
  have e3 : (byteOf 93).val = 93 := rfl
  simp only [encode.elements, decode.elements, hv, skipSpace_cons _ _ e1, e2, e3, if_true,
    if_false]

/-- One item, a comma, and the items after it. -/
theorem elements_more (v w : Value) (ws : List Value) (f depth : Nat) (rest : List Byte)
    (hv : decode.value f depth
      (encode.value v ++ byteOf 44 :: (encode.elements (w :: ws) ++ byteOf 93 :: rest)) =
      some (v, byteOf 44 :: (encode.elements (w :: ws) ++ byteOf 93 :: rest)))
    (hrec : decode.elements f depth (encode.elements (w :: ws) ++ byteOf 93 :: rest) =
      some (w :: ws, rest)) :
    decode.elements (f + 1) depth (encode.elements (v :: w :: ws) ++ byteOf 93 :: rest) =
      some (v :: w :: ws, rest) := by
  have e4 : decode.isSpace (byteOf 44) = false := by decide
  have e5 : (byteOf 44).val = 44 := rfl
  rw [encode.elements]
  simp only [List.append_assoc, List.cons_append]
  simp only [decode.elements, hv, skipSpace_cons _ _ e4, e5, if_true, hrec]

/-- One member, then the closing brace. -/
theorem fields_last (k : String) (v : Value) (f depth : Nat) (rest : List Byte)
    (hv : decode.value f depth (encode.value v ++ byteOf 125 :: rest) =
      some (v, byteOf 125 :: rest)) :
    decode.fields (f + 1) depth (encode.fields [(k, v)] ++ byteOf 125 :: rest) =
      some ([(k, v)], rest) := by
  have e0 : decode.isSpace (byteOf 34) = false := by decide
  have e0' : (byteOf 34).val = 34 := rfl
  have e1 : decode.isSpace (byteOf 125) = false := by decide
  have e2 : ¬ (125 : Nat) = 44 := by decide
  have e3 : (byteOf 125).val = 125 := rfl
  have e6 : decode.isSpace (byteOf 58) = false := by decide
  have e7 : (byteOf 58).val = 58 := rfl
  have hk := decode_string k (byteOf 58 :: (encode.value v ++ byteOf 125 :: rest))
  simp only [encode.fields, encode_string, List.append_assoc, List.cons_append,
    List.nil_append] at hk ⊢
  simp only [decode.fields, skipSpace_cons _ _ e0, e0', if_true, hk, skipSpace_cons _ _ e6, e7,
    hv, skipSpace_cons _ _ e1, e2, e3, if_false]

/-- One member, a comma, and the members after it. -/
theorem fields_more (k : String) (v : Value) (m : String × Value) (ms : List (String × Value))
    (f depth : Nat) (rest : List Byte)
    (hv : decode.value f depth
      (encode.value v ++ byteOf 44 :: (encode.fields (m :: ms) ++ byteOf 125 :: rest)) =
      some (v, byteOf 44 :: (encode.fields (m :: ms) ++ byteOf 125 :: rest)))
    (hrec : decode.fields f depth (encode.fields (m :: ms) ++ byteOf 125 :: rest) =
      some (m :: ms, rest)) :
    decode.fields (f + 1) depth (encode.fields ((k, v) :: m :: ms) ++ byteOf 125 :: rest) =
      some ((k, v) :: m :: ms, rest) := by
  have e0 : decode.isSpace (byteOf 34) = false := by decide
  have e0' : (byteOf 34).val = 34 := rfl
  have e4 : decode.isSpace (byteOf 44) = false := by decide
  have e5 : (byteOf 44).val = 44 := rfl
  have e6 : decode.isSpace (byteOf 58) = false := by decide
  have e7 : (byteOf 58).val = 58 := rfl
  have hk := decode_string k (byteOf 58 ::
    (encode.value v ++ byteOf 44 :: (encode.fields (m :: ms) ++ byteOf 125 :: rest)))
  rw [encode.fields]
  simp only [encode_string, List.append_assoc, List.cons_append, List.nil_append] at hk ⊢
  simp only [decode.fields, skipSpace_cons _ _ e0, e0', if_true, hk, skipSpace_cons _ _ e6, e7,
    hv, skipSpace_cons _ _ e4, e5, hrec]

mutual

/-- A document written by `Marshal` is read back as it is, whatever follows
that cannot continue a number. -/
theorem decode_value_encode : (v : Value) → v.wellFormed = true → (fuel depth : Nat) →
    (rest : List Byte) → (encode.value v).length + 1 ≤ fuel → v.depth ≤ depth →
    decode.endsNumber rest = true →
    decode.value fuel depth (encode.value v ++ rest) = some (v, rest)
  | Value.null, _, fuel, depth, rest, hfuel, _, _ => by
    obtain ⟨f, rfl⟩ : ∃ f, fuel = f + 1 := ⟨fuel - 1, by omega⟩
    rfl
  | Value.bool true, _, fuel, depth, rest, hfuel, _, _ => by
    obtain ⟨f, rfl⟩ : ∃ f, fuel = f + 1 := ⟨fuel - 1, by omega⟩
    rfl
  | Value.bool false, _, fuel, depth, rest, hfuel, _, _ => by
    obtain ⟨f, rfl⟩ : ∃ f, fuel = f + 1 := ⟨fuel - 1, by omega⟩
    rfl
  | Value.num n, _, fuel, depth, rest, hfuel, _, hends => by
    obtain ⟨f, rfl⟩ : ∃ f, fuel = f + 1 := ⟨fuel - 1, by omega⟩
    rw [encode.value]
    exact value_of_number _ _ f depth rest (number_int n) hends
  | Value.lit text, hwf, fuel, depth, rest, hfuel, _, hends => by
    obtain ⟨f, rfl⟩ : ∃ f, fuel = f + 1 := ⟨fuel - 1, by omega⟩
    rw [encode.value]
    rw [Value.wellFormed] at hwf
    exact value_of_number _ _ f depth rest (isLiteral_spec text hwf) hends
  | Value.str s, _, fuel, depth, rest, hfuel, _, _ => by
    obtain ⟨f, rfl⟩ : ∃ f, fuel = f + 1 := ⟨fuel - 1, by omega⟩
    exact value_of_string s f depth rest
  | Value.arr [], _, fuel, depth, rest, hfuel, hdepth, _ => by
    obtain ⟨f, rfl⟩ : ∃ f, fuel = f + 1 := ⟨fuel - 1, by omega⟩
    obtain ⟨d, rfl⟩ : ∃ d, depth = d + 1 := ⟨depth - 1, by
      simp only [Value.depth, Value.depthItems] at hdepth; omega⟩
    rfl
  | Value.arr (v :: vs), hwf, fuel, depth, rest, hfuel, hdepth, _ => by
    obtain ⟨f, rfl⟩ : ∃ f, fuel = f + 1 := ⟨fuel - 1, by omega⟩
    obtain ⟨d, rfl⟩ : ∃ d, depth = d + 1 := ⟨depth - 1, by
      simp only [Value.depth] at hdepth; omega⟩
    rw [Value.wellFormed] at hwf
    have hlen : (encode.elements (v :: vs)).length + 2 ≤ f := by
      simp only [encode.value, List.length_cons, List.length_append, List.length_nil] at hfuel
      omega
    have hd : Value.depthItems (v :: vs) ≤ d := by
      simp only [Value.depth] at hdepth
      omega
    have hv : Value.wellFormed v = true := by
      simp only [Value.wellFormedItems, Bool.and_eq_true] at hwf
      exact hwf.1
    exact value_of_elements v vs f d rest hv (decode_elements_encode v vs hwf f d rest hlen hd)
  | Value.obj [], _, fuel, depth, rest, hfuel, hdepth, _ => by
    obtain ⟨f, rfl⟩ : ∃ f, fuel = f + 1 := ⟨fuel - 1, by omega⟩
    obtain ⟨d, rfl⟩ : ∃ d, depth = d + 1 := ⟨depth - 1, by
      simp only [Value.depth, Value.depthMembers] at hdepth; omega⟩
    rfl
  | Value.obj ((k, v) :: ms), hwf, fuel, depth, rest, hfuel, hdepth, _ => by
    obtain ⟨f, rfl⟩ : ∃ f, fuel = f + 1 := ⟨fuel - 1, by omega⟩
    obtain ⟨d, rfl⟩ : ∃ d, depth = d + 1 := ⟨depth - 1, by
      simp only [Value.depth] at hdepth; omega⟩
    rw [Value.wellFormed] at hwf
    have hlen : (encode.fields ((k, v) :: ms)).length + 2 ≤ f := by
      simp only [encode.value, List.length_cons, List.length_append, List.length_nil] at hfuel
      omega
    have hd : Value.depthMembers ((k, v) :: ms) ≤ d := by
      simp only [Value.depth] at hdepth
      omega
    exact value_of_fields k v ms f d rest (decode_fields_encode k v ms hwf f d rest hlen hd)
termination_by v => sizeOf v
decreasing_by
  all_goals simp_wf
  all_goals omega

/-- The items of an array written by `Marshal` are read back as they are, up
to the closing bracket. -/
theorem decode_elements_encode : (v : Value) → (vs : List Value) →
    Value.wellFormedItems (v :: vs) = true → (fuel depth : Nat) → (rest : List Byte) →
    (encode.elements (v :: vs)).length + 2 ≤ fuel → Value.depthItems (v :: vs) ≤ depth →
    decode.elements fuel depth (encode.elements (v :: vs) ++ byteOf 93 :: rest) =
      some (v :: vs, rest)
  | v, [], hwf, fuel, depth, rest, hfuel, hdepth => by
    obtain ⟨f, rfl⟩ : ∃ f, fuel = f + 1 := ⟨fuel - 1, by omega⟩
    simp only [Value.wellFormedItems, Bool.and_eq_true] at hwf
    have hdv : Value.depth v ≤ depth := by
      simp only [Value.depthItems] at hdepth
      omega
    have hlen : (encode.value v).length + 1 ≤ f := by
      simp only [encode.elements] at hfuel
      omega
    exact elements_last v f depth rest
      (decode_value_encode v hwf.1 f depth (byteOf 93 :: rest) hlen hdv (endsNumber_delim rest).1)
  | v, w :: ws, hwf, fuel, depth, rest, hfuel, hdepth => by
    obtain ⟨f, rfl⟩ : ∃ f, fuel = f + 1 := ⟨fuel - 1, by omega⟩
    simp only [Value.wellFormedItems, Bool.and_eq_true] at hwf
    have hdv : Value.depth v ≤ depth := by
      simp only [Value.depthItems] at hdepth
      omega
    have hlen : (encode.value v).length + 1 ≤ f := by
      simp only [encode.elements, List.length_append, List.length_cons] at hfuel
      omega
    have hlen2 : (encode.elements (w :: ws)).length + 2 ≤ f := by
      simp only [encode.elements, List.length_append, List.length_cons] at hfuel
      omega
    have hd2 : Value.depthItems (w :: ws) ≤ depth := by
      simp only [Value.depthItems] at hdepth ⊢
      omega
    have hwf2 : Value.wellFormedItems (w :: ws) = true := by
      simp only [Value.wellFormedItems, Bool.and_eq_true]
      exact hwf.2
    exact elements_more v w ws f depth rest
      (decode_value_encode v hwf.1 f depth _ hlen hdv (endsNumber_delim _).2.2)
      (decode_elements_encode w ws hwf2 f depth rest hlen2 hd2)
termination_by v vs => sizeOf v + sizeOf vs
decreasing_by
  all_goals simp_wf
  all_goals omega

/-- The members of an object written by `Marshal` are read back as they are,
up to the closing brace. -/
theorem decode_fields_encode : (k : String) → (v : Value) → (ms : List (String × Value)) →
    Value.wellFormedMembers ((k, v) :: ms) = true → (fuel depth : Nat) → (rest : List Byte) →
    (encode.fields ((k, v) :: ms)).length + 2 ≤ fuel → Value.depthMembers ((k, v) :: ms) ≤ depth →
    decode.fields fuel depth (encode.fields ((k, v) :: ms) ++ byteOf 125 :: rest) =
      some ((k, v) :: ms, rest)
  | k, v, [], hwf, fuel, depth, rest, hfuel, hdepth => by
    obtain ⟨f, rfl⟩ : ∃ f, fuel = f + 1 := ⟨fuel - 1, by omega⟩
    simp only [Value.wellFormedMembers, Bool.and_eq_true] at hwf
    have hdv : Value.depth v ≤ depth := by
      simp only [Value.depthMembers] at hdepth
      omega
    have hlen : (encode.value v).length + 1 ≤ f := by
      simp only [encode.fields, List.length_append, List.length_cons] at hfuel
      omega
    exact fields_last k v f depth rest
      (decode_value_encode v hwf.1 f depth (byteOf 125 :: rest) hlen hdv
        (endsNumber_delim rest).2.1)
  | k, v, (k2, v2) :: ms, hwf, fuel, depth, rest, hfuel, hdepth => by
    obtain ⟨f, rfl⟩ : ∃ f, fuel = f + 1 := ⟨fuel - 1, by omega⟩
    simp only [Value.wellFormedMembers, Bool.and_eq_true] at hwf
    have hdv : Value.depth v ≤ depth := by
      simp only [Value.depthMembers] at hdepth
      omega
    have hlen : (encode.value v).length + 1 ≤ f := by
      simp only [encode.fields, List.length_append, List.length_cons] at hfuel
      omega
    have hlen2 : (encode.fields ((k2, v2) :: ms)).length + 2 ≤ f := by
      simp only [encode.fields, List.length_append, List.length_cons] at hfuel
      omega
    have hd2 : Value.depthMembers ((k2, v2) :: ms) ≤ depth := by
      simp only [Value.depthMembers] at hdepth ⊢
      omega
    have hwf2 : Value.wellFormedMembers ((k2, v2) :: ms) = true := by
      simp only [Value.wellFormedMembers, Bool.and_eq_true]
      exact hwf.2
    exact fields_more k v (k2, v2) ms f depth rest
      (decode_value_encode v hwf.1 f depth _ hlen hdv (endsNumber_delim _).2.2)
      (decode_fields_encode k2 v2 ms hwf2 f depth rest hlen2 hd2)
termination_by k v ms => sizeOf k + sizeOf v + sizeOf ms
decreasing_by
  all_goals simp_wf
  all_goals omega

end

end json

namespace json

/-- A document that `Marshal` can have written, nested no deeper than the
decoder allows, is read back from its text as it is. -/
theorem parse_render (v : Value) (hwf : v.wellFormed = true)
    (hdepth : v.depth ≤ decode.maxNestingDepth) : std.parse (std.render v) = some v := by
  have h := decode_value_encode v hwf ((encode.value v).length + 1) decode.maxNestingDepth []
    le_rfl hdepth rfl
  rw [List.append_nil] at h
  show decode.document (encode.value v) = some v
  unfold decode.document
  rw [h]
  rfl

/-- For an envelope whose header strings hold texts, `Marshal` writes the text
of the document of the envelope. -/
theorem encode_event_raw {T : Type} (e : Event T) (payload : Value) :
    encode.event e.raw payload = std.render (ofEvent e payload) := by
  show encode.event e.raw payload = encode.value (ofEvent e payload)
  simp [encode.event, encode.header, ofEvent, ofHeader, encode.value, encode.fields, Event.raw,
    EventHeader.raw]

/-- The document of an envelope can have been written by `Marshal` when that
of the payload can, and is nested one level deeper, two at least. -/
theorem ofEvent_document {T : Type} (e : Event T) (payload : Value)
    (hwf : payload.wellFormed = true) (hdepth : payload.depth < decode.maxNestingDepth) :
    (ofEvent e payload).wellFormed = true ∧
    (ofEvent e payload).depth ≤ decode.maxNestingDepth := by
  constructor
  · simp [ofEvent, ofHeader, Value.wellFormed, Value.wellFormedMembers, hwf]
  · simp only [ofEvent, ofHeader, Value.depth, Value.depthMembers, decode.maxNestingDepth] at hdepth ⊢
    omega

end json

set_option maxRecDepth 100000 in
/-- C9 fails as stated: the envelope whose header key is the one byte `0xff`,
which is not valid UTF-8, with the payload `hello`, which survives a JSON
round trip, and one retry.  `Marshal` writes the key as the escape of U+FFFD,
`Publish` hands `PublishToStream` the base64 of that text in the field `data`,
and the callback of `Consume`, fed that map, calls the handler with an
envelope whose key is the three bytes of U+FFFD, not the key published. -/
theorem publish_then_consume_changes_key :
    Sample.stringCodec.toJson Sample.rawEnvelope.Payload = some (json.Value.str "hello") ∧
    json.std.parse (json.std.render (json.Value.str "hello")) = some (json.Value.str "hello") ∧
    Sample.stringCodec.fromJson (json.Value.str "hello") = some Sample.rawEnvelope.Payload ∧
    Sample.rawEnvelope.EventHeader.Key = [byteOf 255] ∧
    json.Marshal Sample.stringCodec Sample.rawEnvelope = Except.ok (utf8.encode
      "\x7b\"header\":\x7b\"key\":\"\\ufffd\",\"traceparent\":\"\",\"tracestate\":\"\"\x7d,\"payload\":\"hello\",\"retries\":1\x7d") ∧
    (Sample.publisher.Publish Sample.stringCodec (some Sample.rawEnvelope) 0).published =
      [("test-stream", (∅ : StreamValues).insert "data" (Any.str
        "eyJoZWFkZXIiOnsia2V5IjoiXHVmZmZkIiwidHJhY2VwYXJlbnQiOiIiLCJ0cmFjZXN0YXRlIjoiIn0sInBheWxvYWQiOiJoZWxsbyIsInJldHJpZXMiOjF9"))] ∧
    (RedisConsumer.callback json.std Sample.stringCodec Sample.okConsumerFunc
      ((∅ : StreamValues).insert "data" (Any.str
        "eyJoZWFkZXIiOnsia2V5IjoiXHVmZmZkIiwidHJhY2VwYXJlbnQiOiIiLCJ0cmFjZXN0YXRlIjoiIn0sInBheWxvYWQiOiJoZWxsbyIsInJldHJpZXMiOjF9"))
      0).handled =
      [Sample.replacedEnvelope] ∧
    Sample.replacedEnvelope.EventHeader.Key = String.mk [Char.ofNat 0xFFFD] ∧
    utf8.encode (String.mk [Char.ofNat 0xFFFD]) = [byteOf 239, byteOf 191, byteOf 189] ∧
    utf8.encode (String.mk [Char.ofNat 0xFFFD]) ≠ Sample.rawEnvelope.EventHeader.Key := by
  refine ⟨rfl, rfl, rfl, rfl, rfl, rfl, rfl, rfl, rfl, by decide⟩

/-- C9 (amended): for an envelope whose header strings are valid UTF-8 (they
hold texts), whose retry count is a 64-bit integer, and whose payload
`json.Marshal` writes as a JSON document, nested fewer than 10000 levels
deep, that `json.Unmarshal` reads back to the same payload: the text of the
payload is read back as the document written, `Publish` hands to
`PublishToStream`, once, the map with the single field `data` holding the
standard base64 encoding of the JSON of the envelope; and the callback built
by `Consume`, fed that map, calls the handler once, with an envelope equal to
the published one (header, payload and retries), and returns what the handler
returned, wrapped. -/
theorem publish_then_consume {T W V : Type} (codec : json.Codec T)
    (p : RedisPublisher W) (e : Event T) (w : W) (fn : RedisConsumerFunc T V) (v : V)
    (payload : json.Value)
    (hpay : codec.toJson e.Payload = some payload)
    (hback : codec.fromJson payload = some e.Payload)
    (hdoc : payload.wellFormed = true) (hdepth : payload.depth < json.decode.maxNestingDepth)
    (hint : -(2 ^ 63) ≤ e.Retries ∧ e.Retries < 2 ^ 63) :
    json.std.parse (json.std.render payload) = some payload ∧
    json.Marshal codec e.raw = Except.ok (json.std.render (json.ofEvent e payload)) ∧
    (p.Publish codec (some e.raw) w).published =
      [(p.streamKey, (∅ : StreamValues).insert "data"
        (Any.str (base64.EncodeToString (json.std.render (json.ofEvent e payload)))))] ∧
    (RedisConsumer.callback json.std codec fn
      ((∅ : StreamValues).insert "data"
        (Any.str (base64.EncodeToString (json.std.render (json.ofEvent e payload))))) v).handled
      = [e] ∧
    (RedisConsumer.callback json.std codec fn
      ((∅ : StreamValues).insert "data"
        (Any.str (base64.EncodeToString (json.std.render (json.ofEvent e payload))))) v).world
      = (fn e v).2 ∧
    (RedisConsumer.callback json.std codec fn
      ((∅ : StreamValues).insert "data"
        (Any.str (base64.EncodeToString (json.std.render (json.ofEvent e payload))))) v).result
      = (fn e v).1.map (fun err => "failed to consume redis event: " ++ err) ∧
    (∀ c : RedisConsumer V, c.Consume json.std codec fn v =
      c.RedisClient c.streamKey c.consumerName c.consumerGroup
        (fun data u => ((RedisConsumer.callback json.std codec fn data u).result,
          (RedisConsumer.callback json.std codec fn data u).world)) v) := by
  have hm : json.Marshal codec e.raw =
      Except.ok (json.std.render (json.ofEvent e payload)) := by
    unfold json.Marshal
    have hp : codec.toJson e.raw.Payload = some payload := hpay
    rw [hp]
    simp only []
    rw [json.encode_event_raw]
  have hdocE := json.ofEvent_document e payload hdoc hdepth
  have htext : json.std.parse (json.std.render (json.ofEvent e payload)) =
      some (json.ofEvent e payload) := json.parse_render _ hdocE.1 hdocE.2
  have hmap : (∅ : StreamValues).insert "data"
      (Any.str (base64.EncodeToString (json.std.render (json.ofEvent e payload)))) =
      mapstructure.fromBaseEvent
        { Data := base64.EncodeToString (json.std.render (json.ofEvent e payload)) } := rfl
  have hun : ∀ cur : Event T,
      json.Unmarshal json.std codec (json.std.render (json.ofEvent e payload)) cur
      = Except.ok e := by
    intro cur
    simp [json.Unmarshal, htext, intoEvent_ofEvent codec e cur payload hback hint]
  refine ⟨json.parse_render payload hdoc (Nat.le_of_lt hdepth), hm, ?_, ?_, ?_, ?_,
    fun c => rfl⟩
  · simp only [RedisPublisher.Publish, hm, mapstructure.fromBaseEvent]
    cases (p.RedisClient p.streamKey
      ((∅ : StreamValues).insert "data"
        (Any.str (base64.EncodeToString (json.std.render (json.ofEvent e payload))))) w).1 <;> rfl
  · rw [hmap]
    simp only [RedisConsumer.callback, toBaseEvent_fromBaseEvent, DecodeString_EncodeToString, hun]
    cases (fn e v).1 <;> rfl
  · rw [hmap]
    simp only [RedisConsumer.callback, toBaseEvent_fromBaseEvent, DecodeString_EncodeToString, hun]
    cases (fn e v).1 <;> rfl
  · rw [hmap]
    simp only [RedisConsumer.callback, toBaseEvent_fromBaseEvent, DecodeString_EncodeToString, hun]
    cases (fn e v).1 <;> rfl

set_option maxRecDepth 100000 in
/-- The sample envelope on the wire, and back. -/
theorem publish_then_consume_witness :
    (Sample.publisher.Publish Sample.stringCodec (some (Sample.envelope 1).raw) 0).published =
      [("test-stream", (∅ : StreamValues).insert "data" (Any.str
        "eyJoZWFkZXIiOnsia2V5IjoiayIsInRyYWNlcGFyZW50IjoiIiwidHJhY2VzdGF0ZSI6IiJ9LCJwYXlsb2FkIjoiaGVsbG8iLCJyZXRyaWVzIjoxfQ=="))] ∧
    (RedisConsumer.callback json.std Sample.stringCodec Sample.okConsumerFunc
      ((∅ : StreamValues).insert "data" (Any.str
        "eyJoZWFkZXIiOnsia2V5IjoiayIsInRyYWNlcGFyZW50IjoiIiwidHJhY2VzdGF0ZSI6IiJ9LCJwYXlsb2FkIjoiaGVsbG8iLCJyZXRyaWVzIjoxfQ=="))
      0).handled = [Sample.envelope 1] :=
  ⟨(publish_then_consume Sample.stringCodec Sample.publisher
      (Sample.envelope 1) 0 Sample.okConsumerFunc 0 (json.Value.str "hello") rfl rfl rfl
      (by decide) (by decide)).2.2.1,
   (publish_then_consume Sample.stringCodec Sample.publisher
      (Sample.envelope 1) 0 Sample.okConsumerFunc 0 (json.Value.str "hello") rfl rfl rfl
      (by decide) (by decide)).2.2.2.1⟩

/-! ## Inject and extract -/

section
open propagation

/-- The value of a hexadecimal digit is read back. -/
theorem hexVal_hexChar (d : Nat) (h : d < 16) : hexVal (hexChar d) = some d := by
  interval_cases d <;> rfl

/-- A hexadecimal digit is not the delimiter. -/
theorem hexChar_ne_dash (d : Nat) (h : d < 16) : hexChar d ≠ '-' := by
  interval_cases d <;> decide

/-- Decoding a concatenation continues from the value of the first part. -/
theorem hexDecode_append (l1 l2 : List Char) (acc : Nat) :
    hexDecode (l1 ++ l2) acc = (hexDecode l1 acc).bind (hexDecode l2) := by
  induction l1 generalizing acc with
  | nil => rfl
  | cons c cs ih =>
    simp only [List.cons_append, hexDecode]
    cases hexVal c with
    | none => rfl
    | some d => exact ih _

/-- Decoding a fixed-width encoding gives the number modulo the width. -/
theorem hexDecode_hexEncode (w n acc : Nat) :
    hexDecode (hexEncode w n) acc = some (acc * 16 ^ w + n % 16 ^ w) := by
  induction w generalizing n acc with
  | zero => simp [hexEncode, hexDecode, Nat.mod_one]
  | succ w ih =>
    simp only [hexEncode, hexDecode_append, ih, Option.some_bind, hexDecode,
      hexVal_hexChar (n % 16) (Nat.mod_lt _ (by decide))]
    congr 1
    have h1 : n % 16 ^ (w + 1) = 16 * (n / 16 % 16 ^ w) + n % 16 := by
      rw [pow_succ, mul_comm, Nat.mod_mul]; omega
    rw [h1, pow_succ]
    ring

/-- A fixed-width encoding has that width. -/
theorem hexEncode_length (w n : Nat) : (hexEncode w n).length = w := by
  induction w generalizing n with
  | zero => rfl
  | succ w ih => simp [hexEncode, ih]

/-- A fixed-width encoding holds no delimiter. -/
theorem hexEncode_no_dash (w n : Nat) : ∀ c ∈ hexEncode w n, c ≠ '-' := by
  induction w generalizing n with
  | zero => simp [hexEncode]
  | succ w ih =>
    intro c hc
    simp only [hexEncode, List.mem_append, List.mem_singleton] at hc
    rcases hc with h | h
    · exact ih _ c h
    · subst h; exact hexChar_ne_dash _ (Nat.mod_lt _ (by decide))

/-- Cutting at the first delimiter when the prefix holds none. -/
theorem cut_append_dash (l r : List Char) (h : ∀ c ∈ l, c ≠ '-') :
    cut (l ++ '-' :: r) = (l, r) := by
  induction l with
  | nil => simp [cut]
  | cons c cs ih =>
    have hc : c ≠ '-' := h c (List.mem_cons_self _ _)
    have ih' := ih (fun d hd => h d (List.mem_cons_of_mem _ hd))
    simp [cut, hc, ih']

/-- Cutting a text without delimiter gives the text and nothing after it. -/
theorem cut_no_dash (l : List Char) (h : ∀ c ∈ l, c ≠ '-') : cut l = (l, []) := by
  induction l with
  | nil => rfl
  | cons c cs ih =>
    have hc : c ≠ '-' := h c (List.mem_cons_self _ _)
    have ih' := ih (fun d hd => h d (List.mem_cons_of_mem _ hd))
    simp [cut, hc, ih']

/-- A part that is an encoding followed by the delimiter is extracted. -/
theorem extractPart_hexEncode_dash (w n : Nat) (r : List Char) (hn : n < 16 ^ w) :
    extractPart (hexEncode w n ++ '-' :: r) w = some (n, r) := by
  simp [extractPart, cut_append_dash _ _ (hexEncode_no_dash w n), hexEncode_length,
    hexDecode_hexEncode, Nat.mod_eq_of_lt hn]

/-- A part that is an encoding at the end of the text is extracted. -/
theorem extractPart_hexEncode_end (w n : Nat) (hn : n < 16 ^ w) :
    extractPart (hexEncode w n) w = some (n, []) := by
  simp [extractPart, cut_no_dash _ (hexEncode_no_dash w n), hexEncode_length,
    hexDecode_hexEncode, Nat.mod_eq_of_lt hn]

/-- Extraction from a carrier that reads the injected `traceparent` gives the
identifiers of the injected span context. -/
theorem extract_traceparentOf (sc : trace.SpanContext) (get : String → String)
    (hvalid : sc.IsValid = true) (ht : sc.TraceID < 2 ^ 128) (hs : sc.SpanID < 2 ^ 64)
    (hget : get "traceparent" = traceparentOf sc) :
    TraceContext.extract get =
      { TraceID := sc.TraceID, SpanID := sc.SpanID, TraceFlags := sc.TraceFlags % 2,
        TraceState := get "tracestate", Remote := true } := by
  have hne : traceparentOf sc ≠ "" := by
    intro h
    have := congrArg String.data h
    simp [traceparentOf] at this
  have h0 : (['0', '0'] : List Char) = hexEncode 2 0 := by decide
  have hf : sc.TraceFlags % 2 < 16 ^ 2 := by omega
  have hf2 : sc.TraceFlags % 2 % 2 = sc.TraceFlags % 2 := by omega
  have hvalid' : (trace.SpanContext.IsValid
      { TraceID := sc.TraceID, SpanID := sc.SpanID, TraceFlags := sc.TraceFlags % 2,
        TraceState := get "tracestate", Remote := true }) = true := by
    simpa [trace.SpanContext.IsValid] using hvalid
  have ht' : sc.TraceID < 16 ^ 32 := by
    have : (16 : Nat) ^ 32 = 2 ^ 128 := by norm_num
    omega
  have hs' : sc.SpanID < 16 ^ 16 := by
    have : (16 : Nat) ^ 16 = 2 ^ 64 := by norm_num
    omega
  have e1 : extractPart (['0', '0'] ++ '-' :: (hexEncode 32 sc.TraceID ++ '-' ::
      (hexEncode 16 sc.SpanID ++ '-' :: hexEncode 2 (sc.TraceFlags % 2)))) 2 =
      some (0, hexEncode 32 sc.TraceID ++ '-' ::
        (hexEncode 16 sc.SpanID ++ '-' :: hexEncode 2 (sc.TraceFlags % 2))) :=
    extractPart_hexEncode_dash 2 0 _ (by norm_num)
  have e2 := extractPart_hexEncode_dash 32 sc.TraceID
    (hexEncode 16 sc.SpanID ++ '-' :: hexEncode 2 (sc.TraceFlags % 2)) ht'
  have e3 := extractPart_hexEncode_dash 16 sc.SpanID (hexEncode 2 (sc.TraceFlags % 2)) hs'
  have e4 := extractPart_hexEncode_end 2 (sc.TraceFlags % 2) hf
  unfold TraceContext.extract
  rw [hget, if_neg hne]
  have hd : (traceparentOf sc).data = ['0', '0'] ++ '-' :: (hexEncode 32 sc.TraceID ++ '-' ::
    (hexEncode 16 sc.SpanID ++ '-' :: hexEncode 2 (sc.TraceFlags % 2))) := rfl
  rw [hd, e1]
  simp only [e2, e3, e4, hf2]
  have hopts : ¬ (True ∧ (([] : List Char) ≠ [] ∨ sc.TraceFlags % 2 > 2)) := by
    simp only [ne_eq, not_true_eq_false, false_or, true_and]
    omega
  rw [if_neg (by decide), if_neg hopts, if_pos hvalid']

end

/-- What the installed propagator injects: the trace state when there is one,
the `traceparent`, the baggage when there is one. -/
theorem newPropagator_Inject (ctx : Context) (hvalid : ctx.spanContext.IsValid = true) :
    tracing.newPropagator.Inject ctx =
      (if ctx.spanContext.TraceState ≠ "" then [("tracestate", ctx.spanContext.TraceState)]
        else []) ++
      (("traceparent", propagation.traceparentOf ctx.spanContext) ::
        (if ctx.baggage ≠ "" then [("baggage", ctx.baggage)] else [])) := by
  simp [tracing.newPropagator, propagation.NewCompositeTextMapPropagator,
    propagation.TraceContext, propagation.Baggage, hvalid]

/-- After `WrapPublishMessage` the envelope carries the injected `traceparent`. -/
theorem WrapPublishMessage_TraceParent {T : Type} (ctx : Context) (msg : Event T)
    (hvalid : ctx.spanContext.IsValid = true) :
    (redis.WrapPublishMessage tracing.newPropagator Event.redisMessage ctx
      msg).EventHeader.TraceParent = propagation.traceparentOf ctx.spanContext := by
  have h1 : ("traceparent" : String) ≠ "baggage" := by decide
  have h2 : ("traceparent" : String) ≠ "tracestate" := by decide
  simp only [redis.WrapPublishMessage, newPropagator_Inject ctx hvalid, Event.redisMessage,
    Event.SetHeaders, redis.index, redis.NewEventCarrier]
  split_ifs <;>
    simp [redis.EventCarrier.Set, AList.lookup_insert, AList.lookup_insert_ne h1,
      -AList.insert_empty]

/-- C8: with the propagator that `SetupOTelSDK` installs, for a context that
carries a valid span context, `WrapPublishMessage` on an envelope followed by
`ExtractTraceContext` on an envelope with the resulting headers gives a
context whose span context is remote and has the trace identifier and the
span identifier of the injected span context. -/
theorem inject_extract_roundtrip {T : Type} (ctx parent : Context) (msg received : Event T)
    (hvalid : ctx.spanContext.IsValid = true)
    (htrace : ctx.spanContext.TraceID < 2 ^ 128) (hspan : ctx.spanContext.SpanID < 2 ^ 64)
    (hheaders : received.Headers =
      (redis.WrapPublishMessage tracing.newPropagator Event.redisMessage ctx msg).Headers) :
    (redis.ExtractTraceContext tracing.newPropagator Event.redisMessage parent
      received).spanContext.TraceID = ctx.spanContext.TraceID ∧
    (redis.ExtractTraceContext tracing.newPropagator Event.redisMessage parent
      received).spanContext.SpanID = ctx.spanContext.SpanID ∧
    (redis.ExtractTraceContext tracing.newPropagator Event.redisMessage parent
      received).spanContext.Remote = true := by
  have hget : (redis.EventCarrier.mk received.Headers).Get "traceparent" =
      propagation.traceparentOf ctx.spanContext := by
    rw [hheaders]
    simp only [Event.Headers, WrapPublishMessage_TraceParent ctx msg hvalid,
      redis.EventCarrier.Get, AList.lookup_insert]
  have hex := extract_traceparentOf ctx.spanContext
    (redis.EventCarrier.mk received.Headers).Get hvalid htrace hspan hget
  have hv : (propagation.TraceContext.extract
      (redis.EventCarrier.mk received.Headers).Get).IsValid = true := by
    rw [hex]
    simpa [trace.SpanContext.IsValid] using hvalid
  have hsc : (redis.ExtractTraceContext tracing.newPropagator Event.redisMessage parent
      received).spanContext =
      propagation.TraceContext.extract (redis.EventCarrier.mk received.Headers).Get := by
    simp only [redis.ExtractTraceContext, tracing.newPropagator,
      propagation.NewCompositeTextMapPropagator, propagation.TraceContext,
      propagation.Baggage, List.foldl, Event.redisMessage, hv, if_true]
    split_ifs <;> rfl
  rw [hsc, hex]
  exact ⟨rfl, rfl, rfl⟩

/-- The sample span context through an envelope and back. -/
theorem inject_extract_roundtrip_witness :
    Sample.spanCtx.spanContext.IsValid = true ∧
    (redis.WrapPublishMessage tracing.newPropagator Event.redisMessage Sample.spanCtx
      (Sample.envelope 0)).EventHeader.TraceParent =
      "00-0af7651916cd43dd8448eb211c80319c-b7ad6b7169203331-01" ∧
    (redis.ExtractTraceContext tracing.newPropagator Event.redisMessage Sample.background
      (redis.WrapPublishMessage tracing.newPropagator Event.redisMessage Sample.spanCtx
        (Sample.envelope 0))).spanContext.TraceID = 0x0af7651916cd43dd8448eb211c80319c :=
  ⟨by decide, by decide,
   (inject_extract_roundtrip Sample.spanCtx Sample.background (Sample.envelope 0)
      (redis.WrapPublishMessage tracing.newPropagator Event.redisMessage Sample.spanCtx
        (Sample.envelope 0)) (by decide) (by decide) (by decide) rfl).1⟩

/-! ## Retry processor: backoff, configuration and the retry count -/

/-- With `Retries < 10`, the generator that `Process` leaves behind is the one
the handler found when the handler fails, and that one reset when it succeeds. -/
theorem Process_backOff_eq {T W : Type} (p : ProcessorImpl T W) (request : Event T)
    (fn : ProcessorFunc T W) (o : Oracle) (w : W) (hlt : request.Retries < 10) :
    (p.Process request fn o w).backOff =
      match (fn request.Payload w).1 with
      | some _ => (p.beforeHandler o).2
      | none => (p.beforeHandler o).2.Reset o.nowDone := by
  have hge : ¬ request.Retries ≥ 10 := by omega
  simp only [ProcessorImpl.Process, hge, if_false, ProcessorImpl.beforeHandler]
  cases hf : (fn request.Payload w).1 with
  | none => split_ifs <;> rfl
  | some err =>
    simp only []
    cases hp : (p.publisher { request with Retries := request.Retries + 1 }
        (fn request.Payload w).2).1 <;> split_ifs <;> rfl

/-- With `Retries < 10`, a failing handler and a republish that succeeds,
`Process` sleeps once, for the duration `NextBackOff` returned in that call. -/
theorem Process_failure_sleep {T W : Type} (p : ProcessorImpl T W) (request : Event T)
    (fn : ProcessorFunc T W) (o : Oracle) (w : W) (err : Error)
    (hlt : request.Retries < 10) (hfail : (fn request.Payload w).1 = some err)
    (hpub : (p.publisher { request with Retries := request.Retries + 1 }
      (fn request.Payload w).2).1 = none) :
    (p.Process request fn o w).result = none ∧
    sleepCalls (p.Process request fn o w).calls =
      [(p.exponentialBackOff.NextBackOff o.nowNext o.random).1] := by
  have hge : ¬ request.Retries ≥ 10 := by omega
  simp [ProcessorImpl.Process, hge, hfail, hpub, sleepCalls]

/-- With `Retries < 10` and a failing handler, `Publish` receives, once, the
input with one retry more, and the envelope behind the pointer after the call
is that envelope as `Publish` left it. -/
theorem Process_failure_envelope {T W : Type} (p : ProcessorImpl T W) (request : Event T)
    (fn : ProcessorFunc T W) (o : Oracle) (w : W) (err : Error)
    (hlt : request.Retries < 10) (hfail : (fn request.Payload w).1 = some err) :
    (p.Process request fn o w).request =
      (p.publisher { request with Retries := request.Retries + 1 }
        (fn request.Payload w).2).2.2 ∧
    publishCalls (p.Process request fn o w).calls =
      [{ request with Retries := request.Retries + 1 }] ∧
    handlerCalls (p.Process request fn o w).calls = [request.Payload] := by
  have hge : ¬ request.Retries ≥ 10 := by omega
  simp only [ProcessorImpl.Process, hge, if_false, hfail]
  cases hp : (p.publisher { request with Retries := request.Retries + 1 }
      (fn request.Payload w).2).1 <;> simp [hp, publishCalls, handlerCalls]

/-- C11 at the failing input: on a processor fresh from `NewProcessor` (default
settings), with the envelope `{retries: 0, payload: "hello"}`, a failing
handler and a republish that succeeds, `NextBackOff` returns `Stop` and the
one sleep of `Process` is for `Stop` (-1ns), while the initial interval is
500ms. -/
theorem fresh_processor_sleep_not_initial :
    (Sample.defaultProcessor.Process (Sample.envelope 0) Sample.failingHandler
      Sample.oracle 0).result = none ∧
    publishCalls (Sample.defaultProcessor.Process (Sample.envelope 0) Sample.failingHandler
      Sample.oracle 0).calls = [Sample.envelope 1] ∧
    sleepCalls (Sample.defaultProcessor.Process (Sample.envelope 0) Sample.failingHandler
      Sample.oracle 0).calls = [-1] ∧
    Sample.defaultProcessor.exponentialBackOff.InitialInterval = 500000000 := by
  have hs := Process_failure_sleep Sample.defaultProcessor (Sample.envelope 0)
    Sample.failingHandler Sample.oracle 0 "boom" (by decide) rfl rfl
  have hnext : (Sample.defaultProcessor.exponentialBackOff.NextBackOff
      Sample.oracle.nowNext Sample.oracle.random).1 = -1 := by
    have hcond : Sample.defaultProcessor.exponentialBackOff.MaxElapsedTime ≠ 0 ∧
        Sample.defaultProcessor.exponentialBackOff.GetElapsedTime Sample.oracle.nowNext >
          Sample.defaultProcessor.exponentialBackOff.MaxElapsedTime := by decide
    unfold backoff.ExponentialBackOff.NextBackOff
    rw [if_pos hcond]
    rfl
  refine ⟨hs.1, ?_, ?_, by decide⟩
  · exact (Process_failure_envelope Sample.defaultProcessor (Sample.envelope 0)
      Sample.failingHandler Sample.oracle 0 "boom" (by decide) rfl).2.1
  · rw [hs.2, hnext]

/-- C12: with `Retries < 10` the handler is called exactly once; when
`NextBackOff` returns `Stop` the handler finds the generator reset (the
generator as it was, back at the initial interval, restarted at the time of
that reset), and when `NextBackOff` returns another duration the handler
finds the generator as `NextBackOff` left it, not reset. -/
theorem Process_reset_on_Stop {T W : Type} (p : ProcessorImpl T W) (request : Event T)
    (fn : ProcessorFunc T W) (o : Oracle) (w : W) (hlt : request.Retries < 10) :
    handlerCalls (p.Process request fn o w).calls = [request.Payload] ∧
    ((p.exponentialBackOff.NextBackOff o.nowNext o.random).1 = backoff.Stop →
      (p.beforeHandler o).2 = p.exponentialBackOff.Reset o.nowStop ∧
      (p.beforeHandler o).2.currentInterval = p.exponentialBackOff.InitialInterval ∧
      (p.beforeHandler o).2.startTime = o.nowStop) ∧
    ((p.exponentialBackOff.NextBackOff o.nowNext o.random).1 ≠ backoff.Stop →
      (p.beforeHandler o).2 = (p.exponentialBackOff.NextBackOff o.nowNext o.random).2) ∧
    (∀ err, (fn request.Payload w).1 = some err →
      (p.Process request fn o w).backOff = (p.beforeHandler o).2) ∧
    ((fn request.Payload w).1 = none →
      (p.Process request fn o w).backOff = (p.beforeHandler o).2.Reset o.nowDone) := by
  have hb := Process_backOff_eq p request fn o w hlt
  have hge : ¬ request.Retries ≥ 10 := by omega
  refine ⟨?_, ?_, ?_, ?_, ?_⟩
  · simp only [ProcessorImpl.Process, hge, if_false]
    cases hf : (fn request.Payload w).1 with
    | none => simp [handlerCalls]
    | some err =>
      simp only []
      cases hp : (p.publisher { request with Retries := request.Retries + 1 }
          (fn request.Payload w).2).1 <;> simp [handlerCalls]
  · intro hstop
    have h : (p.beforeHandler o).2 = p.exponentialBackOff.Reset o.nowStop := by
      simp only [ProcessorImpl.beforeHandler, hstop, if_true]
      exact Reset_after_NextBackOff _ _ _ _
    exact ⟨h, by rw [h]; rfl, by rw [h]; rfl⟩
  · intro hne
    simp only [ProcessorImpl.beforeHandler, hne, if_false]
  · intro err herr
    rw [hb, herr]
  · intro hok
    rw [hb, hok]

/-- On a fresh processor the first `NextBackOff` is `Stop`, and the handler
still runs once. -/
theorem Process_reset_on_Stop_witness :
    (Sample.envelope 0).Retries < 10 ∧
    handlerCalls (Sample.defaultProcessor.Process (Sample.envelope 0) Sample.failingHandler
      Sample.oracle 0).calls = ["hello"] ∧
    (Sample.defaultProcessor.Process (Sample.envelope 0) Sample.failingHandler
      Sample.oracle 0).backOff = (Sample.defaultProcessor.beforeHandler Sample.oracle).2 :=
  ⟨by decide,
   (Process_reset_on_Stop Sample.defaultProcessor (Sample.envelope 0) Sample.failingHandler
      Sample.oracle 0 (by decide)).1,
   (Process_reset_on_Stop Sample.defaultProcessor (Sample.envelope 0) Sample.failingHandler
      Sample.oracle 0 (by decide)).2.2.2.1 "boom" rfl⟩

/-- C13: for every configuration, the generator that `NewProcessor` builds has
the `MaxInterval` of the configuration when that is not zero and the default
of the library (60s) otherwise, the `MaxElapsedTime` of the configuration when
that is not zero and the default of the library (15min) otherwise, and the
defaults of the library for the initial interval (500ms), the multiplier (1.5)
and the randomization factor (0.5). -/
theorem NewProcessor_config {T W : Type} (publisher : Publisher T W) (cfg : PublisherConfig) :
    (cfg.MaxInterval ≠ 0 →
      (NewProcessor publisher cfg).exponentialBackOff.MaxInterval = cfg.MaxInterval) ∧
    (cfg.MaxInterval = 0 →
      (NewProcessor publisher cfg).exponentialBackOff.MaxInterval = backoff.DefaultMaxInterval) ∧
    (cfg.MaxElapsedTime ≠ 0 →
      (NewProcessor publisher cfg).exponentialBackOff.MaxElapsedTime = cfg.MaxElapsedTime) ∧
    (cfg.MaxElapsedTime = 0 →
      (NewProcessor publisher cfg).exponentialBackOff.MaxElapsedTime =
        backoff.DefaultMaxElapsedTime) ∧
    (NewProcessor publisher cfg).exponentialBackOff.InitialInterval =
      backoff.DefaultInitialInterval ∧
    (NewProcessor publisher cfg).exponentialBackOff.Multiplier = backoff.DefaultMultiplier ∧
    (NewProcessor publisher cfg).exponentialBackOff.RandomizationFactor =
      backoff.DefaultRandomizationFactor ∧
    backoff.DefaultMaxInterval = 60000000000 ∧ backoff.DefaultMaxElapsedTime = 900000000000 ∧
    backoff.DefaultInitialInterval = 500000000 ∧ backoff.DefaultMultiplier = 3 / 2 ∧
    backoff.DefaultRandomizationFactor = 1 / 2 := by
  refine ⟨?_, ?_, ?_, ?_, rfl, rfl, rfl, by decide, by decide, by decide, rfl, rfl⟩
  · intro h; simp [NewProcessor, h]
  · intro h; simp [NewProcessor, h]
  · intro h; simp [NewProcessor, h]
  · intro h; simp [NewProcessor, h]

/-- The configuration of `server.go` and the zero configuration. -/
theorem NewProcessor_config_witness :
    Sample.processor.exponentialBackOff.MaxInterval = 10 ∧
    Sample.defaultProcessor.exponentialBackOff.MaxInterval = 60000000000 ∧
    Sample.processor.exponentialBackOff.MaxElapsedTime = 10 ∧
    Sample.defaultProcessor.exponentialBackOff.MaxElapsedTime = 900000000000 :=
  ⟨(NewProcessor_config Sample.okPublisher { MaxInterval := 10, MaxElapsedTime := 10 }).1
      (by decide),
   (NewProcessor_config Sample.okPublisher { MaxInterval := 0, MaxElapsedTime := 0 }).2.1 rfl,
   (NewProcessor_config Sample.okPublisher { MaxInterval := 10, MaxElapsedTime := 10 }).2.2.1
      (by decide),
   (NewProcessor_config Sample.okPublisher { MaxInterval := 0, MaxElapsedTime := 0 }).2.2.2.1
      rfl⟩

/-- C14 fails as stated: `Publish` is handed the pointer to the envelope.  With
the envelope `{retries: 5}`, a failing handler and a publisher that writes
`Retries = 0` to the envelope it is handed, the envelope has no retries after
the call: fewer than before, neither five nor six. -/
theorem Process_retries_written_by_publisher :
    (Sample.envelope 5).Retries = 5 ∧
    publishCalls (({ Sample.processor with publisher := Sample.rewindingPublisher } :
        ProcessorImpl String Nat).Process (Sample.envelope 5) Sample.failingHandler
      Sample.oracle 0).calls = [Sample.envelope 6] ∧
    (({ Sample.processor with publisher := Sample.rewindingPublisher } :
        ProcessorImpl String Nat).Process (Sample.envelope 5) Sample.failingHandler
      Sample.oracle 0).request.Retries = 0 ∧
    (({ Sample.processor with publisher := Sample.rewindingPublisher } :
        ProcessorImpl String Nat).Process (Sample.envelope 5) Sample.failingHandler
      Sample.oracle 0).request.Retries < (Sample.envelope 5).Retries := by
  decide

/-- C14 (amended): `Process` itself never takes a retry away and adds one only
on a handler failure.  With `Retries >= 10`, and with a handler that returns
`nil`, the envelope after the call is the envelope before it.  With
`Retries < 10` and a handler that returns an error, the handler was called
once, `Publish` is handed the envelope with exactly one retry more, and the
envelope after the call is that envelope as `Publish` left it.  So when the
publisher leaves the envelope it is handed as it is, the retry count after the
call is what it was or exactly one more, and it is one more only if the
handler was called and returned an error. -/
theorem Process_retries_step {T W : Type} (p : ProcessorImpl T W) (request : Event T)
    (fn : ProcessorFunc T W) (o : Oracle) (w : W) :
    (request.Retries ≥ 10 → (p.Process request fn o w).request = request) ∧
    ((fn request.Payload w).1 = none → (p.Process request fn o w).request = request) ∧
    (∀ err, request.Retries < 10 → (fn request.Payload w).1 = some err →
      handlerCalls (p.Process request fn o w).calls = [request.Payload] ∧
      publishCalls (p.Process request fn o w).calls =
        [{ request with Retries := request.Retries + 1 }] ∧
      (p.Process request fn o w).request =
        (p.publisher { request with Retries := request.Retries + 1 }
          (fn request.Payload w).2).2.2) ∧
    ((∀ e u, (p.publisher e u).2.2 = e) →
      ((p.Process request fn o w).request.Retries = request.Retries ∨
        (p.Process request fn o w).request.Retries = request.Retries + 1) ∧
      request.Retries ≤ (p.Process request fn o w).request.Retries ∧
      ((p.Process request fn o w).request.Retries ≠ request.Retries →
        handlerCalls (p.Process request fn o w).calls = [request.Payload] ∧
        ∃ err, (fn request.Payload w).1 = some err)) := by
  have hmax : request.Retries ≥ 10 → (p.Process request fn o w).request = request := by
    intro hge
    simp [ProcessorImpl.Process, hge]
  have hok : (fn request.Payload w).1 = none → (p.Process request fn o w).request = request := by
    intro hf
    by_cases hge : request.Retries ≥ 10
    · exact hmax hge
    · simp [ProcessorImpl.Process, hge, hf]
  refine ⟨hmax, hok, ?_, ?_⟩
  · intro err hlt hf
    have h := Process_failure_envelope p request fn o w err hlt hf
    exact ⟨h.2.2, h.2.1, h.1⟩
  · intro hpure
    by_cases hge : request.Retries ≥ 10
    · rw [hmax hge]
      simp
    · have hlt : request.Retries < 10 := by omega
      cases hf : (fn request.Payload w).1 with
      | none =>
        rw [hok hf]
        simp
      | some err =>
        have h := Process_failure_envelope p request fn o w err hlt hf
        rw [h.1, hpure]
        refine ⟨Or.inr rfl, ?_, fun _ => ⟨h.2.2, err, rfl⟩⟩
        simp

/-- A failing round with a publisher that leaves the envelope as it is adds
one retry, and the handler was called. -/
theorem Process_retries_step_witness :
    (Sample.processor.Process (Sample.envelope 3) Sample.failingHandler
      Sample.oracle 0).request.Retries ≠ (Sample.envelope 3).Retries ∧
    handlerCalls (Sample.processor.Process (Sample.envelope 3) Sample.failingHandler
      Sample.oracle 0).calls = ["hello"] ∧
    (Sample.processor.Process (Sample.envelope 3) Sample.failingHandler
      Sample.oracle 0).request = Sample.envelope 4 :=
  ⟨by decide,
   (((Process_retries_step Sample.processor (Sample.envelope 3) Sample.failingHandler
      Sample.oracle 0).2.2.2 (fun _ _ => rfl)).2.2 (by decide)).1,
   ((Process_retries_step Sample.processor (Sample.envelope 3) Sample.failingHandler
      Sample.oracle 0).2.2.1 "boom" (by decide) rfl).2.2⟩

/-- C15 fails as stated: after a failing round on the envelope
`{retries: 0}`, with a publisher that leaves the envelope as it is, the
envelope of the caller has one retry, not zero: it was changed in place. -/
theorem Process_changes_caller_envelope :
    (Sample.envelope 0).Retries = 0 ∧
    (Sample.processor.Process (Sample.envelope 0) Sample.failingHandler
      Sample.oracle 0).request.Retries = 1 ∧
    (Sample.processor.Process (Sample.envelope 0) Sample.failingHandler
      Sample.oracle 0).request.Retries ≠ (Sample.envelope 0).Retries := by
  decide

/-- C15 (amended): when `Process` republishes after a handler failure, the
envelope is changed in place: `Process` adds one retry to the envelope of the
caller and hands that same envelope to `Publish`, with exactly one retry more
than before the call and with the header and the payload it had; the envelope
of the caller after the call is that envelope as `Publish` left it.  So when
the publisher leaves the envelope it is handed as it is, the envelope of the
caller has exactly one retry more after the call than before it, its header
and payload are unchanged, and it is the republished envelope. -/
theorem Process_failure_in_place {T W : Type} (p : ProcessorImpl T W) (request : Event T)
    (fn : ProcessorFunc T W) (o : Oracle) (w : W) (err : Error)
    (hlt : request.Retries < 10) (hfail : (fn request.Payload w).1 = some err) :
    publishCalls (p.Process request fn o w).calls =
      [{ request with Retries := request.Retries + 1 }] ∧
    (p.Process request fn o w).request =
      (p.publisher { request with Retries := request.Retries + 1 } (fn request.Payload w).2).2.2 ∧
    ((p.publisher { request with Retries := request.Retries + 1 } (fn request.Payload w).2).2.2 =
        { request with Retries := request.Retries + 1 } →
      (p.Process request fn o w).request.Retries = request.Retries + 1 ∧
      (p.Process request fn o w).request.Payload = request.Payload ∧
      (p.Process request fn o w).request.EventHeader = request.EventHeader ∧
      publishCalls (p.Process request fn o w).calls = [(p.Process request fn o w).request]) := by
  have h := Process_failure_envelope p request fn o w err hlt hfail
  refine ⟨h.2.1, h.1, ?_⟩
  intro hpure
  have hreq : (p.Process request fn o w).request =
      { request with Retries := request.Retries + 1 } := h.1.trans hpure
  rw [h.2.1, hreq]
  exact ⟨rfl, rfl, rfl, rfl⟩

/-- The caller's envelope after a failing round is the republished one. -/
theorem Process_failure_in_place_witness :
    (Sample.envelope 0).Retries < 10 ∧
    publishCalls (Sample.processor.Process (Sample.envelope 0) Sample.failingHandler
      Sample.oracle 0).calls =
      [(Sample.processor.Process (Sample.envelope 0) Sample.failingHandler
        Sample.oracle 0).request] ∧
    (Sample.processor.Process (Sample.envelope 0) Sample.failingHandler
      Sample.oracle 0).request = Sample.envelope 1 :=
  ⟨by decide,
   ((Process_failure_in_place Sample.processor (Sample.envelope 0) Sample.failingHandler
      Sample.oracle 0 "boom" (by decide) rfl).2.2 rfl).2.2.2,
   (Process_failure_in_place Sample.processor (Sample.envelope 0) Sample.failingHandler
      Sample.oracle 0 "boom" (by decide) rfl).2.1⟩

/-! ## Decoding in the consumer -/

/-- C16: the callback built by `Consume` returns an error and does not call
the handler when the `data` field cannot be read as a string, when it is not
valid standard base64, or when the decoded bytes are not a JSON envelope
(`json.Unmarshal` fails); and when decoding succeeds it calls the handler
exactly once, with the decoded envelope. -/
theorem callback_decoding {T W : Type} (text : json.Text) (codec : json.Codec T)
    (fn : RedisConsumerFunc T W) (data : StreamValues) (w : W) :
    (∀ err, mapstructure.toBaseEvent data = Except.error err →
      (RedisConsumer.callback text codec fn data w).result ≠ none ∧
      (RedisConsumer.callback text codec fn data w).handled = [] ∧
      (RedisConsumer.callback text codec fn data w).world = w) ∧
    (∀ b, mapstructure.toBaseEvent data = Except.ok b → base64.DecodeString b.Data = none →
      (RedisConsumer.callback text codec fn data w).result ≠ none ∧
      (RedisConsumer.callback text codec fn data w).handled = [] ∧
      (RedisConsumer.callback text codec fn data w).world = w) ∧
    (∀ b bytes err, mapstructure.toBaseEvent data = Except.ok b →
      base64.DecodeString b.Data = some bytes →
      json.Unmarshal text codec bytes
        { EventHeader := { Key := "", TraceParent := "", TraceState := "" },
          Payload := codec.zero, Retries := 0 } = Except.error err →
      (RedisConsumer.callback text codec fn data w).result = some err ∧
      (RedisConsumer.callback text codec fn data w).handled = [] ∧
      (RedisConsumer.callback text codec fn data w).world = w) ∧
    (∀ b bytes request, mapstructure.toBaseEvent data = Except.ok b →
      base64.DecodeString b.Data = some bytes →
      json.Unmarshal text codec bytes
        { EventHeader := { Key := "", TraceParent := "", TraceState := "" },
          Payload := codec.zero, Retries := 0 } = Except.ok request →
      (RedisConsumer.callback text codec fn data w).handled = [request] ∧
      (RedisConsumer.callback text codec fn data w).world = (fn request w).2 ∧
      ((RedisConsumer.callback text codec fn data w).result = none ↔
        (fn request w).1 = none)) := by
  refine ⟨?_, ?_, ?_, ?_⟩
  · intro err h
    simp [RedisConsumer.callback, h]
  · intro b h hb
    simp [RedisConsumer.callback, h, hb]
  · intro b bytes err h hb hu
    simp [RedisConsumer.callback, h, hb, hu]
  · intro b bytes request h hb hu
    simp only [RedisConsumer.callback, h, hb, hu]
    cases hf : (fn request w).1 <;> simp [hf]

/-- A `data` field that is not base64, one that is base64 of text that is not
JSON, and the sample envelope. -/
theorem callback_decoding_witness :
    (RedisConsumer.callback Sample.compactText Sample.stringCodec Sample.okConsumerFunc
      ((∅ : StreamValues).insert "data" (Any.str "!!!")) 0).handled = [] ∧
    (RedisConsumer.callback Sample.compactText Sample.stringCodec Sample.okConsumerFunc
      ((∅ : StreamValues).insert "data" (Any.str "aGVsbG8=")) 0).handled = [] ∧
    (RedisConsumer.callback Sample.compactText Sample.stringCodec Sample.okConsumerFunc
      ((∅ : StreamValues).insert "data" (Any.int 7)) 0).handled = [] ∧
    (RedisConsumer.callback Sample.compactText Sample.stringCodec Sample.okConsumerFunc
      ((∅ : StreamValues).insert "data" (Any.str
        "eyJoZWFkZXIiOnsia2V5IjoiayIsInRyYWNlcGFyZW50IjoiIiwidHJhY2VzdGF0ZSI6IiJ9LCJwYXlsb2FkIjoiaGVsbG8iLCJyZXRyaWVzIjoxfQ=="))
      0).handled = [Sample.envelope 1] :=
  ⟨((callback_decoding Sample.compactText Sample.stringCodec Sample.okConsumerFunc
      ((∅ : StreamValues).insert "data" (Any.str "!!!")) 0).2.1 { Data := "!!!" } rfl rfl).2.1,
   ((callback_decoding Sample.compactText Sample.stringCodec Sample.okConsumerFunc
      ((∅ : StreamValues).insert "data" (Any.str "aGVsbG8=")) 0).2.2.1 { Data := "aGVsbG8=" }
      [byteOf 104, byteOf 101, byteOf 108, byteOf 108, byteOf 111] "json: syntax error"
      rfl rfl rfl).2.1,
   ((callback_decoding Sample.compactText Sample.stringCodec Sample.okConsumerFunc
      ((∅ : StreamValues).insert "data" (Any.int 7)) 0).1 "'data' expected type 'string'"
      rfl).2.1,
   ((callback_decoding Sample.compactText Sample.stringCodec Sample.okConsumerFunc
      ((∅ : StreamValues).insert "data" (Any.str
        "eyJoZWFkZXIiOnsia2V5IjoiayIsInRyYWNlcGFyZW50IjoiIiwidHJhY2VzdGF0ZSI6IiJ9LCJwYXlsb2FkIjoiaGVsbG8iLCJyZXRyaWVzIjoxfQ=="))
      0).2.2.2
      { Data := "eyJoZWFkZXIiOnsia2V5IjoiayIsInRyYWNlcGFyZW50IjoiIiwidHJhY2VzdGF0ZSI6IiJ9LCJwYXlsb2FkIjoiaGVsbG8iLCJyZXRyaWVzIjoxfQ==" }
      (Sample.compactText.render (json.ofEvent (Sample.envelope 1) (json.Value.str "hello")))
      (Sample.envelope 1) rfl rfl rfl).1⟩

/-! ## The consume loop -/

section
open examples.redis

/-- The steps of the message handler: the handler function, then the
acknowledgement. -/
theorem msgHandler_steps {W : Type} (c : Client W) (consumerGroup : String)
    (fn : ConsumerFunc W) (stream : String) (message : XMessage) (w : W) :
    (c.msgHandler consumerGroup fn stream message w).steps =
      [Step.fn message.Values (fn message.Values w).1,
        Step.xack stream consumerGroup message.ID
          (c.conn.XAck stream consumerGroup message.ID (fn message.Values w).2).1] := by
  unfold Client.msgHandler
  cases h : (c.conn.XAck stream consumerGroup message.ID (fn message.Values w).2).1 <;> simp [h]

/-- The error of the message handler is the error of the acknowledgement, wrapped. -/
theorem msgHandler_err {W : Type} (c : Client W) (consumerGroup : String)
    (fn : ConsumerFunc W) (stream : String) (message : XMessage) (w : W) :
    (c.msgHandler consumerGroup fn stream message w).err =
      (c.conn.XAck stream consumerGroup message.ID (fn message.Values w).2).1.map
        (fun err => "failed to ACK message (" ++ message.ID ++ "): " ++ err) := by
  unfold Client.msgHandler
  cases h : (c.conn.XAck stream consumerGroup message.ID (fn message.Values w).2).1 <;> simp [h]

/-- Acknowledged identifiers of a concatenation. -/
theorem ackedIDs_append (xs ys : List Step) :
    ackedIDs (xs ++ ys) = ackedIDs xs ++ ackedIDs ys := by
  induction xs with
  | nil => rfl
  | cons x xs ih => cases x <;> simp [ackedIDs, ih]

/-- Handled values of a concatenation. -/
theorem handledValues_append (xs ys : List Step) :
    handledValues (xs ++ ys) = handledValues xs ++ handledValues ys := by
  induction xs with
  | nil => rfl
  | cons x xs ih => cases x <;> simp [handledValues, ih]

/-- Over a batch of messages, the acknowledged identifiers and the handled
values are those of the first `k` messages, in order, for some `k`; and all
of them when the batch was handled without error. -/
theorem handleMessages_prefix {W : Type} (c : Client W) (consumerGroup : String)
    (fn : ConsumerFunc W) (stream : String) (messages : List XMessage) (w : W) :
    ∃ k, k ≤ messages.length ∧
      ackedIDs (c.handleMessages consumerGroup fn stream messages w).steps =
        (messages.take k).map XMessage.ID ∧
      handledValues (c.handleMessages consumerGroup fn stream messages w).steps =
        (messages.take k).map XMessage.Values ∧
      ((c.handleMessages consumerGroup fn stream messages w).err = none →
        k = messages.length) := by
  induction messages generalizing w with
  | nil => exact ⟨0, le_refl _, rfl, rfl, fun _ => rfl⟩
  | cons m ms ih =>
    have hs := msgHandler_steps c consumerGroup fn stream m w
    cases he : (c.msgHandler consumerGroup fn stream m w).err with
    | some e =>
      refine ⟨1, by simp, ?_, ?_, ?_⟩
      · simp [Client.handleMessages, he, hs, ackedIDs]
      · simp [Client.handleMessages, he, hs, handledValues]
      · simp [Client.handleMessages, he]
    | none =>
      obtain ⟨k, hk, ha, hv, hn⟩ := ih (c.msgHandler consumerGroup fn stream m w).world
      refine ⟨k + 1, by simp; omega, ?_, ?_, ?_⟩
      · simp [Client.handleMessages, he, hs, ackedIDs, ackedIDs_append] at ha ⊢
        simpa [hs] using ha
      · simp [Client.handleMessages, he, hs, handledValues, handledValues_append] at hv ⊢
        simpa [hs] using hv
      · intro hnone
        simp only [Client.handleMessages, he] at hnone
        simp [hn hnone]

end

section
open examples.redis

/-- An error of the message handler is a failed acknowledgement, its last step. -/
theorem msgHandler_fails {W : Type} (c : Client W) (consumerGroup : String)
    (fn : ConsumerFunc W) (stream : String) (message : XMessage) (w : W) (e : Error)
    (h : (c.msgHandler consumerGroup fn stream message w).err = some e) :
    ∃ pre last, (c.msgHandler consumerGroup fn stream message w).steps = pre ++ [last] ∧
      last.failsWith e := by
  unfold Client.msgHandler at h ⊢
  cases ha : (c.conn.XAck stream consumerGroup message.ID (fn message.Values w).2).1 with
  | none => simp [ha] at h
  | some t =>
    simp only [ha, Option.some.injEq] at h ⊢
    exact ⟨[Step.fn message.Values (fn message.Values w).1], _, rfl, h.symm⟩

/-- An error of a batch of messages is a failed acknowledgement, its last step. -/
theorem handleMessages_fails {W : Type} (c : Client W) (consumerGroup : String)
    (fn : ConsumerFunc W) (stream : String) (messages : List XMessage) (w : W) (e : Error)
    (h : (c.handleMessages consumerGroup fn stream messages w).err = some e) :
    ∃ pre last, (c.handleMessages consumerGroup fn stream messages w).steps = pre ++ [last] ∧
      last.failsWith e := by
  induction messages generalizing w with
  | nil => simp [Client.handleMessages] at h
  | cons m ms ih =>
    cases he : (c.msgHandler consumerGroup fn stream m w).err with
    | some t =>
      simp only [Client.handleMessages, he, Option.some.injEq] at h ⊢
      exact msgHandler_fails c consumerGroup fn stream m w e (by rw [he, h])
    | none =>
      simp only [Client.handleMessages, he] at h ⊢
      obtain ⟨pre, last, hsteps, hlast⟩ :=
        ih (c.msgHandler consumerGroup fn stream m w).world h
      exact ⟨(c.msgHandler consumerGroup fn stream m w).steps ++ pre, last,
        by rw [hsteps, List.append_assoc], hlast⟩

/-- An error of the streams of one read is a failed acknowledgement, its last step. -/
theorem handleStreams_fails {W : Type} (c : Client W) (consumerGroup : String)
    (fn : ConsumerFunc W) (streams : List XStream) (w : W) (e : Error)
    (h : (c.handleStreams consumerGroup fn streams w).err = some e) :
    ∃ pre last, (c.handleStreams consumerGroup fn streams w).steps = pre ++ [last] ∧
      last.failsWith e := by
  induction streams generalizing w with
  | nil => simp [Client.handleStreams] at h
  | cons r rs ih =>
    cases he : (c.handleMessages consumerGroup fn r.Stream r.Messages w).err with
    | some t =>
      simp only [Client.handleStreams, he, Option.some.injEq] at h ⊢
      exact handleMessages_fails c consumerGroup fn r.Stream r.Messages w e (by rw [he, h])
    | none =>
      simp only [Client.handleStreams, he] at h ⊢
      obtain ⟨pre, last, hsteps, hlast⟩ :=
        ih (c.handleMessages consumerGroup fn r.Stream r.Messages w).world h
      exact ⟨(c.handleMessages consumerGroup fn r.Stream r.Messages w).steps ++ pre, last,
        by rw [hsteps, List.append_assoc], hlast⟩

/-- An error of the endless loop is a failed read or a failed acknowledgement,
its last step. -/
theorem listen_fails {W : Type} (c : Client W) (streamKey consumerGroup consumerName : String)
    (fn : ConsumerFunc W) (rounds : Nat) (w : W) (e : Error)
    (h : (c.listen streamKey consumerGroup consumerName fn rounds w).err = some e) :
    ∃ pre last, (c.listen streamKey consumerGroup consumerName fn rounds w).steps =
      pre ++ [last] ∧ last.failsWith e := by
  induction rounds generalizing w with
  | zero => simp [Client.listen] at h
  | succ n ih =>
    cases hr : (c.conn.XReadGroup (newMessagesArgs streamKey consumerGroup consumerName) w).1 with
    | error t =>
      simp only [Client.listen, hr, Option.some.injEq] at h ⊢
      exact ⟨[], _, rfl, Or.inr h.symm⟩
    | ok mainStream =>
      cases hh : (c.handleStreams consumerGroup fn mainStream
          (c.conn.XReadGroup (newMessagesArgs streamKey consumerGroup consumerName) w).2).err with
      | some t =>
        simp only [Client.listen, hr, hh, Option.some.injEq] at h ⊢
        obtain ⟨pre, last, hsteps, hlast⟩ := handleStreams_fails c consumerGroup fn mainStream
          (c.conn.XReadGroup (newMessagesArgs streamKey consumerGroup consumerName) w).2 e
          (by rw [hh, h])
        exact ⟨Step.xreadGroup (newMessagesArgs streamKey consumerGroup consumerName)
          mainStream none :: pre, last, by rw [hsteps]; rfl, hlast⟩
      | none =>
        simp only [Client.listen, hr, hh] at h ⊢
        obtain ⟨pre, last, hsteps, hlast⟩ := ih _ h
        exact ⟨Step.xreadGroup (newMessagesArgs streamKey consumerGroup consumerName)
          mainStream none :: ((c.handleStreams consumerGroup fn mainStream
            (c.conn.XReadGroup (newMessagesArgs streamKey consumerGroup consumerName)
              w).2).steps ++ pre),
          last, by rw [hsteps]; simp, hlast⟩

/-- An error of `ConsumeStream` after the set-up is a failed read or a failed
acknowledgement, its last step. -/
theorem consume_fails {W : Type} (c : Client W) (streamKey consumerGroup consumerName : String)
    (fn : ConsumerFunc W) (rounds : Nat) (w : W) (e : Error)
    (h : (c.consume streamKey consumerGroup consumerName fn rounds w).err = some e) :
    ∃ pre last, (c.consume streamKey consumerGroup consumerName fn rounds w).steps =
      pre ++ [last] ∧ last.failsWith e := by
  cases hr : (c.conn.XReadGroup (pendingArgs streamKey consumerGroup consumerName) w).1 with
  | error t =>
    simp only [Client.consume, hr, Option.some.injEq] at h ⊢
    exact ⟨[], _, rfl, Or.inl h.symm⟩
  | ok pendingStream =>
    cases hh : (c.handleStreams consumerGroup fn pendingStream
        (c.conn.XReadGroup (pendingArgs streamKey consumerGroup consumerName) w).2).err with
    | some t =>
      simp only [Client.consume, hr, hh, Option.some.injEq] at h ⊢
      obtain ⟨pre, last, hsteps, hlast⟩ := handleStreams_fails c consumerGroup fn pendingStream
        (c.conn.XReadGroup (pendingArgs streamKey consumerGroup consumerName) w).2 e
        (by rw [hh, h])
      exact ⟨Step.xreadGroup (pendingArgs streamKey consumerGroup consumerName)
        pendingStream none :: pre, last, by rw [hsteps]; rfl, hlast⟩
    | none =>
      simp only [Client.consume, hr, hh] at h ⊢
      obtain ⟨pre, last, hsteps, hlast⟩ := listen_fails c streamKey consumerGroup consumerName
        fn rounds _ e h
      exact ⟨Step.xreadGroup (pendingArgs streamKey consumerGroup consumerName)
        pendingStream none :: ((c.handleStreams consumerGroup fn pendingStream
          (c.conn.XReadGroup (pendingArgs streamKey consumerGroup consumerName) w).2).steps ++
          pre),
        last, by rw [hsteps]; simp, hlast⟩

/-- When no acknowledgement fails, a batch of messages is handled without error. -/
theorem handleMessages_ok {W : Type} (c : Client W) (consumerGroup : String)
    (fn : ConsumerFunc W) (stream : String) (messages : List XMessage) (w : W)
    (hack : ∀ s g id u, (c.conn.XAck s g id u).1 = none) :
    (c.handleMessages consumerGroup fn stream messages w).err = none := by
  induction messages generalizing w with
  | nil => rfl
  | cons m ms ih =>
    have he : (c.msgHandler consumerGroup fn stream m w).err = none := by
      rw [msgHandler_err, hack]; rfl
    simp only [Client.handleMessages, he]
    exact ih _

/-- When no acknowledgement fails, the streams of a read are handled without error. -/
theorem handleStreams_ok {W : Type} (c : Client W) (consumerGroup : String)
    (fn : ConsumerFunc W) (streams : List XStream) (w : W)
    (hack : ∀ s g id u, (c.conn.XAck s g id u).1 = none) :
    (c.handleStreams consumerGroup fn streams w).err = none := by
  induction streams generalizing w with
  | nil => rfl
  | cons r rs ih =>
    have he := handleMessages_ok c consumerGroup fn r.Stream r.Messages w hack
    simp only [Client.handleStreams, he]
    exact ih _

/-- When no read and no acknowledgement fails, the endless loop does not return. -/
theorem listen_ok {W : Type} (c : Client W) (streamKey consumerGroup consumerName : String)
    (fn : ConsumerFunc W) (rounds : Nat) (w : W)
    (hread : ∀ args u, ∃ streams, (c.conn.XReadGroup args u).1 = Except.ok streams)
    (hack : ∀ s g id u, (c.conn.XAck s g id u).1 = none) :
    (c.listen streamKey consumerGroup consumerName fn rounds w).err = none := by
  induction rounds generalizing w with
  | zero => rfl
  | succ n ih =>
    obtain ⟨streams, hr⟩ := hread (newMessagesArgs streamKey consumerGroup consumerName) w
    have hh := handleStreams_ok c consumerGroup fn streams
      (c.conn.XReadGroup (newMessagesArgs streamKey consumerGroup consumerName) w).2 hack
    simp only [Client.listen, hr, hh]
    exact ih _

/-- When no read and no acknowledgement fails, `ConsumeStream` does not return
once it is set up. -/
theorem consume_ok {W : Type} (c : Client W) (streamKey consumerGroup consumerName : String)
    (fn : ConsumerFunc W) (rounds : Nat) (w : W)
    (hread : ∀ args u, ∃ streams, (c.conn.XReadGroup args u).1 = Except.ok streams)
    (hack : ∀ s g id u, (c.conn.XAck s g id u).1 = none) :
    (c.consume streamKey consumerGroup consumerName fn rounds w).err = none := by
  obtain ⟨streams, hr⟩ := hread (pendingArgs streamKey consumerGroup consumerName) w
  have hh := handleStreams_ok c consumerGroup fn streams
    (c.conn.XReadGroup (pendingArgs streamKey consumerGroup consumerName) w).2 hack
  simp only [Client.consume, hr, hh]
  exact listen_ok c streamKey consumerGroup consumerName fn rounds _ hread hack

end

section
open examples.redis

/-- Calls and acknowledgements of a concatenation. -/
theorem handlings_append (xs ys : List Step) :
    handlings (xs ++ ys) = handlings xs ++ handlings ys := by
  induction xs with
  | nil => rfl
  | cons x xs ih => cases x <;> simp [handlings, ih]

/-- Messages delivered in a concatenation. -/
theorem delivered_append (xs ys : List Step) :
    delivered (xs ++ ys) = delivered xs ++ delivered ys := by
  induction xs with
  | nil => rfl
  | cons x xs ih => cases x <;> simp [delivered, ih]

/-- What is due to a concatenation of messages. -/
theorem handledThenAcked_append (group : String) (xs ys : List (String × XMessage)) :
    handledThenAcked group (xs ++ ys) =
      handledThenAcked group xs ++ handledThenAcked group ys := by
  induction xs with
  | nil => rfl
  | cons x xs ih =>
    obtain ⟨s, m⟩ := x
    simp [handledThenAcked, ih]

/-- Over a batch of messages of one stream: the handler function is called on
and an acknowledgement is issued for the first `k` messages, in order, all of
them unless an acknowledgement failed; no read is made. -/
theorem handleMessages_handlings {W : Type} (c : Client W) (consumerGroup : String)
    (fn : ConsumerFunc W) (stream : String) (messages : List XMessage) (w : W) :
    delivered (c.handleMessages consumerGroup fn stream messages w).steps = [] ∧
    ∃ k, k ≤ messages.length ∧
      handlings (c.handleMessages consumerGroup fn stream messages w).steps =
        handledThenAcked consumerGroup
          ((messages.map (fun message => (stream, message))).take k) ∧
      ((c.handleMessages consumerGroup fn stream messages w).err = none →
        k = messages.length) ∧
      ((c.handleMessages consumerGroup fn stream messages w).err ≠ none →
        (c.handleMessages consumerGroup fn stream messages w).endsInFailedAck) := by
  induction messages generalizing w with
  | nil => exact ⟨rfl, 0, le_refl _, rfl, fun _ => rfl, fun h => absurd rfl h⟩
  | cons m ms ih =>
    have hs := msgHandler_steps c consumerGroup fn stream m w
    have herr := msgHandler_err c consumerGroup fn stream m w
    cases he : (c.msgHandler consumerGroup fn stream m w).err with
    | some e =>
      refine ⟨?_, 1, by simp, ?_, ?_, ?_⟩
      · simp [Client.handleMessages, he, hs, delivered]
      · simp [Client.handleMessages, he, hs, handlings, handledThenAcked]
      · simp [Client.handleMessages, he]
      · intro _
        rw [he] at herr
        cases ha : (c.conn.XAck stream consumerGroup m.ID (fn m.Values w).2).1 with
        | none => simp [ha] at herr
        | some t =>
          simp only [ha, Option.map_some', Option.some.injEq] at herr
          refine ⟨[Step.fn m.Values (fn m.Values w).1], stream, consumerGroup, m.ID, t, ?_, ?_⟩
          · simp [Client.handleMessages, he, hs, ha]
          · simp [Client.handleMessages, he, herr]
    | none =>
      obtain ⟨hd, k, hk, hh, hn, hf⟩ := ih (c.msgHandler consumerGroup fn stream m w).world
      refine ⟨?_, k + 1, by simp; omega, ?_, ?_, ?_⟩
      · simp only [Client.handleMessages, he, delivered_append, hd]
        simp [hs, delivered]
      · simp only [Client.handleMessages, he, handlings_append, hh]
        simp [hs, handlings, handledThenAcked]
      · intro hnone
        simp only [Client.handleMessages, he] at hnone
        simp [hn hnone]
      · intro hsome
        simp only [Client.handleMessages, he] at hsome ⊢
        obtain ⟨pre, s, g, id, e, hsteps, herr2⟩ := hf hsome
        exact ⟨(c.msgHandler consumerGroup fn stream m w).steps ++ pre, s, g, id, e,
          by simp [hsteps], herr2⟩

/-- Over the streams of one read: the handler function is called on and an
acknowledgement is issued for the first `k` messages of the read, in order,
all of them unless an acknowledgement failed; no read is made. -/
theorem handleStreams_handlings {W : Type} (c : Client W) (consumerGroup : String)
    (fn : ConsumerFunc W) (streams : List XStream) (w : W) :
    delivered (c.handleStreams consumerGroup fn streams w).steps = [] ∧
    ∃ k, k ≤ (messagesOf streams).length ∧
      handlings (c.handleStreams consumerGroup fn streams w).steps =
        handledThenAcked consumerGroup ((messagesOf streams).take k) ∧
      ((c.handleStreams consumerGroup fn streams w).err = none →
        k = (messagesOf streams).length) ∧
      ((c.handleStreams consumerGroup fn streams w).err ≠ none →
        (c.handleStreams consumerGroup fn streams w).endsInFailedAck) := by
  induction streams generalizing w with
  | nil => exact ⟨rfl, 0, le_refl _, rfl, fun _ => rfl, fun h => absurd rfl h⟩
  | cons r rs ih =>
    obtain ⟨hd1, k1, hk1, hh1, hn1, hf1⟩ :=
      handleMessages_handlings c consumerGroup fn r.Stream r.Messages w
    cases he : (c.handleMessages consumerGroup fn r.Stream r.Messages w).err with
    | some e =>
      have hlen : k1 ≤ (r.Messages.map (fun message => (r.Stream, message))).length := by
        simpa using hk1
      refine ⟨?_, k1, ?_, ?_, ?_, ?_⟩
      · simp [Client.handleStreams, he, hd1]
      · simp only [messagesOf, List.length_append]
        omega
      · simp only [Client.handleStreams, he, hh1, messagesOf]
        rw [List.take_append_of_le_length hlen]
      · simp [Client.handleStreams, he]
      · intro _
        have h := hf1 (by rw [he]; simp)
        obtain ⟨pre, s, g, id, t, hsteps, herr⟩ := h
        exact ⟨pre, s, g, id, t, by simp [Client.handleStreams, he, hsteps],
          by simp [Client.handleStreams, he, ← herr]⟩
    | none =>
      obtain ⟨hd2, k2, hk2, hh2, hn2, hf2⟩ :=
        ih (c.handleMessages consumerGroup fn r.Stream r.Messages w).world
      have hk1eq := hn1 he
      refine ⟨?_, r.Messages.length + k2, ?_, ?_, ?_, ?_⟩
      · simp [Client.handleStreams, he, delivered_append, hd1, hd2]
      · simp only [messagesOf, List.length_append, List.length_map]
        omega
      · simp only [Client.handleStreams, he, handlings_append, hh1, hh2, messagesOf, hk1eq]
        rw [← handledThenAcked_append]
        congr 1
        rw [List.take_append_eq_append_take]
        simp
      · intro hnone
        simp only [Client.handleStreams, he] at hnone
        simp [messagesOf, hn2 hnone]
      · intro hsome
        simp only [Client.handleStreams, he] at hsome ⊢
        obtain ⟨pre, s, g, id, e, hsteps, herr2⟩ := hf2 hsome
        exact ⟨(c.handleMessages consumerGroup fn r.Stream r.Messages w).steps ++ pre,
          s, g, id, e, by simp [hsteps], herr2⟩

/-- The endless loop: the handler function is called on and an acknowledgement
is issued for the first `k` messages that its reads returned, in order, all
of them unless an acknowledgement failed. -/
theorem listen_handlings {W : Type} (c : Client W)
    (streamKey consumerGroup consumerName : String) (fn : ConsumerFunc W) (rounds : Nat)
    (w : W) :
    ∃ k, k ≤ (delivered (c.listen streamKey consumerGroup consumerName fn rounds w).steps).length ∧
      handlings (c.listen streamKey consumerGroup consumerName fn rounds w).steps =
        handledThenAcked consumerGroup
          ((delivered (c.listen streamKey consumerGroup consumerName fn rounds w).steps).take k) ∧
      (k < (delivered (c.listen streamKey consumerGroup consumerName fn rounds w).steps).length →
        (c.listen streamKey consumerGroup consumerName fn rounds w).endsInFailedAck) := by
  induction rounds generalizing w with
  | zero => exact ⟨0, le_refl _, rfl, fun h => absurd h (by simp [Client.listen, delivered])⟩
  | succ n ih =>
    cases hr : (c.conn.XReadGroup (newMessagesArgs streamKey consumerGroup consumerName) w).1 with
    | error t =>
      refine ⟨0, Nat.zero_le _, ?_, ?_⟩
      · simp [Client.listen, hr, handlings, handledThenAcked]
      · simp [Client.listen, hr, delivered, messagesOf]
    | ok mainStream =>
      obtain ⟨hd1, k1, hk1, hh1, hn1, hf1⟩ := handleStreams_handlings c consumerGroup fn
        mainStream (c.conn.XReadGroup (newMessagesArgs streamKey consumerGroup consumerName) w).2
      cases hh : (c.handleStreams consumerGroup fn mainStream
          (c.conn.XReadGroup (newMessagesArgs streamKey consumerGroup consumerName) w).2).err with
      | some t =>
        refine ⟨k1, ?_, ?_, ?_⟩
        · simp [Client.listen, hr, hh, delivered, hd1, hk1]
        · simp [Client.listen, hr, hh, delivered, handlings, hd1, hh1]
        · intro _
          obtain ⟨pre, s, g, id, e, hsteps, herr⟩ := hf1 (by rw [hh]; simp)
          refine ⟨Step.xreadGroup (newMessagesArgs streamKey consumerGroup consumerName)
            mainStream none :: pre, s, g, id, e, ?_, ?_⟩
          · simp [Client.listen, hr, hh, hsteps]
          · simp [Client.listen, hr, hh, ← herr]
      | none =>
        obtain ⟨k2, hk2, hh2, hf2⟩ := ih (c.handleStreams consumerGroup fn mainStream
          (c.conn.XReadGroup (newMessagesArgs streamKey consumerGroup consumerName) w).2).world
        have hk1eq := hn1 hh
        refine ⟨(messagesOf mainStream).length + k2, ?_, ?_, ?_⟩
        · simp only [Client.listen, hr, hh, delivered, delivered_append, hd1, List.nil_append,
            List.length_append]
          omega
        · simp only [Client.listen, hr, hh, delivered, delivered_append, hd1, List.nil_append,
            handlings, handlings_append, hh1, hh2, hk1eq]
          rw [← handledThenAcked_append]
          congr 1
          rw [List.take_append_eq_append_take]
          simp
        · intro hlt
          simp only [Client.listen, hr, hh, delivered, delivered_append, hd1, List.nil_append,
            List.length_append] at hlt ⊢
          obtain ⟨pre, s, g, id, e, hsteps, herr⟩ := hf2 (by omega)
          exact ⟨Step.xreadGroup (newMessagesArgs streamKey consumerGroup consumerName)
            mainStream none :: ((c.handleStreams consumerGroup fn mainStream
              (c.conn.XReadGroup (newMessagesArgs streamKey consumerGroup consumerName)
                w).2).steps ++ pre), s, g, id, e, by simp [hsteps], herr⟩

/-- After the set-up: the handler function is called on and an acknowledgement
is issued for the first `k` messages that the reads returned, pending or new,
in order, all of them unless an acknowledgement failed. -/
theorem consume_handlings {W : Type} (c : Client W)
    (streamKey consumerGroup consumerName : String) (fn : ConsumerFunc W) (rounds : Nat)
    (w : W) :
    ∃ k, k ≤ (delivered (c.consume streamKey consumerGroup consumerName fn rounds w).steps).length ∧
      handlings (c.consume streamKey consumerGroup consumerName fn rounds w).steps =
        handledThenAcked consumerGroup
          ((delivered (c.consume streamKey consumerGroup consumerName fn rounds w).steps).take k) ∧
      (k < (delivered (c.consume streamKey consumerGroup consumerName fn rounds w).steps).length →
        (c.consume streamKey consumerGroup consumerName fn rounds w).endsInFailedAck) := by
  cases hr : (c.conn.XReadGroup (pendingArgs streamKey consumerGroup consumerName) w).1 with
  | error t =>
    refine ⟨0, Nat.zero_le _, ?_, ?_⟩
    · simp [Client.consume, hr, handlings, handledThenAcked]
    · simp [Client.consume, hr, delivered, messagesOf]
  | ok pendingStream =>
    obtain ⟨hd1, k1, hk1, hh1, hn1, hf1⟩ := handleStreams_handlings c consumerGroup fn
      pendingStream (c.conn.XReadGroup (pendingArgs streamKey consumerGroup consumerName) w).2
    cases hh : (c.handleStreams consumerGroup fn pendingStream
        (c.conn.XReadGroup (pendingArgs streamKey consumerGroup consumerName) w).2).err with
    | some t =>
      refine ⟨k1, ?_, ?_, ?_⟩
      · simp [Client.consume, hr, hh, delivered, hd1, hk1]
      · simp [Client.consume, hr, hh, delivered, handlings, hd1, hh1]
      · intro _
        obtain ⟨pre, s, g, id, e, hsteps, herr⟩ := hf1 (by rw [hh]; simp)
        refine ⟨Step.xreadGroup (pendingArgs streamKey consumerGroup consumerName)
          pendingStream none :: pre, s, g, id, e, ?_, ?_⟩
        · simp [Client.consume, hr, hh, hsteps]
        · simp [Client.consume, hr, hh, ← herr]
    | none =>
      obtain ⟨k2, hk2, hh2, hf2⟩ := listen_handlings c streamKey consumerGroup consumerName fn
        rounds (c.handleStreams consumerGroup fn pendingStream
          (c.conn.XReadGroup (pendingArgs streamKey consumerGroup consumerName) w).2).world
      have hk1eq := hn1 hh
      refine ⟨(messagesOf pendingStream).length + k2, ?_, ?_, ?_⟩
      · simp only [Client.consume, hr, hh, delivered, delivered_append, hd1, List.nil_append,
          List.length_append]
        omega
      · simp only [Client.consume, hr, hh, delivered, delivered_append, hd1, List.nil_append,
          handlings, handlings_append, hh1, hh2, hk1eq]
        rw [← handledThenAcked_append]
        congr 1
        rw [List.take_append_eq_append_take]
        simp
      · intro hlt
        simp only [Client.consume, hr, hh, delivered, delivered_append, hd1, List.nil_append,
          List.length_append] at hlt ⊢
        obtain ⟨pre, s, g, id, e, hsteps, herr⟩ := hf2 (by omega)
        exact ⟨Step.xreadGroup (pendingArgs streamKey consumerGroup consumerName)
          pendingStream none :: ((c.handleStreams consumerGroup fn pendingStream
            (c.conn.XReadGroup (pendingArgs streamKey consumerGroup consumerName)
              w).2).steps ++ pre), s, g, id, e, by simp [hsteps], herr⟩

/-- The set-up makes no read, calls no handler and acknowledges nothing. -/
theorem setUp_quiet {W : Type} (c : Client W) (streamKey consumerGroup : String) (w : W) :
    delivered (c.setUp streamKey consumerGroup w).steps = [] ∧
    handlings (c.setUp streamKey consumerGroup w).steps = [] := by
  have hcheck : ∀ u, delivered (c.checkStreamExistence streamKey u).steps = [] ∧
      handlings (c.checkStreamExistence streamKey u).steps = [] := by
    intro u
    unfold Client.checkStreamExistence
    cases h : (c.conn.XInfoStreamFull streamKey 0 u).1 with
    | none => simp [h, delivered, handlings]
    | some e => simp only [h]; split_ifs <;> simp [delivered, handlings]
  have hstream : ∀ u, delivered (c.createStream streamKey consumerGroup u).steps = [] ∧
      handlings (c.createStream streamKey consumerGroup u).steps = [] := by
    intro u
    unfold Client.createStream
    cases h : (c.conn.XGroupCreateMkStream streamKey consumerGroup "$" u).1 <;>
      simp [h, delivered, handlings]
  have hgroup : ∀ u, delivered (c.createConsumerGroup streamKey consumerGroup u).steps = [] ∧
      handlings (c.createConsumerGroup streamKey consumerGroup u).steps = [] := by
    intro u
    unfold Client.createConsumerGroup
    cases h : (c.conn.XGroupCreate streamKey consumerGroup "$" u).1 with
    | none => simp [h, delivered, handlings]
    | some e => simp only [h]; split_ifs <;> simp [delivered, handlings]
  unfold Client.setUp
  constructor
  · simp only []
    repeat' split
    all_goals simp [delivered_append, (hcheck _).1, (hstream _).1, (hgroup _).1]
  · simp only []
    repeat' split
    all_goals simp [handlings_append, (hcheck _).2, (hstream _).2, (hgroup _).2]

/-- When no acknowledgement fails, the streams of a read are handled and
acknowledged in full. -/
theorem handleStreams_handlings_all {W : Type} (c : Client W) (consumerGroup : String)
    (fn : ConsumerFunc W) (streams : List XStream) (w : W)
    (hack : ∀ s g id u, (c.conn.XAck s g id u).1 = none) :
    handlings (c.handleStreams consumerGroup fn streams w).steps =
      handledThenAcked consumerGroup (messagesOf streams) := by
  obtain ⟨_, k, _, hh, hn, _⟩ := handleStreams_handlings c consumerGroup fn streams w
  rw [hh, hn (handleStreams_ok c consumerGroup fn streams w hack), List.take_length]

/-- When no acknowledgement fails, the endless loop handles and acknowledges
every message its reads returned. -/
theorem listen_handlings_all {W : Type} (c : Client W)
    (streamKey consumerGroup consumerName : String) (fn : ConsumerFunc W) (rounds : Nat)
    (w : W) (hack : ∀ s g id u, (c.conn.XAck s g id u).1 = none) :
    handlings (c.listen streamKey consumerGroup consumerName fn rounds w).steps =
      handledThenAcked consumerGroup
        (delivered (c.listen streamKey consumerGroup consumerName fn rounds w).steps) := by
  induction rounds generalizing w with
  | zero => rfl
  | succ n ih =>
    cases hr : (c.conn.XReadGroup (newMessagesArgs streamKey consumerGroup consumerName) w).1 with
    | error t => simp [Client.listen, hr, handlings, delivered, messagesOf, handledThenAcked]
    | ok mainStream =>
      have hd := (handleStreams_handlings c consumerGroup fn mainStream
        (c.conn.XReadGroup (newMessagesArgs streamKey consumerGroup consumerName) w).2).1
      have hh := handleStreams_ok c consumerGroup fn mainStream
        (c.conn.XReadGroup (newMessagesArgs streamKey consumerGroup consumerName) w).2 hack
      simp only [Client.listen, hr, hh, delivered, delivered_append, hd, List.nil_append,
        handlings, handlings_append, handledThenAcked_append, ih,
        handleStreams_handlings_all c consumerGroup fn mainStream _ hack]

/-- When no acknowledgement fails, every message that the reads returned after
the set-up is handled and acknowledged. -/
theorem consume_handlings_all {W : Type} (c : Client W)
    (streamKey consumerGroup consumerName : String) (fn : ConsumerFunc W) (rounds : Nat)
    (w : W) (hack : ∀ s g id u, (c.conn.XAck s g id u).1 = none) :
    handlings (c.consume streamKey consumerGroup consumerName fn rounds w).steps =
      handledThenAcked consumerGroup
        (delivered (c.consume streamKey consumerGroup consumerName fn rounds w).steps) := by
  cases hr : (c.conn.XReadGroup (pendingArgs streamKey consumerGroup consumerName) w).1 with
  | error t => simp [Client.consume, hr, handlings, delivered, messagesOf, handledThenAcked]
  | ok pendingStream =>
    have hd := (handleStreams_handlings c consumerGroup fn pendingStream
      (c.conn.XReadGroup (pendingArgs streamKey consumerGroup consumerName) w).2).1
    have hh := handleStreams_ok c consumerGroup fn pendingStream
      (c.conn.XReadGroup (pendingArgs streamKey consumerGroup consumerName) w).2 hack
    simp only [Client.consume, hr, hh, delivered, delivered_append, hd, List.nil_append,
      handlings, handlings_append, handledThenAcked_append,
      listen_handlings_all c streamKey consumerGroup consumerName fn rounds _ hack,
      handleStreams_handlings_all c consumerGroup fn pendingStream _ hack]

/-- C17 fails as stated: on a server on whose stream two messages are pending
and on which acknowledgements fail, the pending read returns the messages
`1-0` and `2-0`; the handler function is called on `1-0` and one
acknowledgement is issued for it, which fails, and `ConsumeStream` returns:
for the message `2-0`, returned by the same read, there is no call of the
handler function and no acknowledgement. -/
theorem ConsumeStream_stops_at_failed_ack :
    delivered (Sample.noAckServer.ConsumeStream "test-stream" "test-consumer-group"
      "test-consumer-name" Sample.failingConsumerFunc 3 0).steps =
      [("test-stream", Sample.message "1-0"), ("test-stream", Sample.message "2-0")] ∧
    handlings (Sample.noAckServer.ConsumeStream "test-stream" "test-consumer-group"
      "test-consumer-name" Sample.failingConsumerFunc 3 0).steps =
      [Handling.handled (Sample.message "1-0").Values,
        Handling.acked "test-stream" "test-consumer-group" "1-0"] ∧
    ackedIDs (Sample.noAckServer.ConsumeStream "test-stream" "test-consumer-group"
      "test-consumer-name" Sample.failingConsumerFunc 3 0).steps = ["1-0"] ∧
    (Sample.noAckServer.ConsumeStream "test-stream" "test-consumer-group"
      "test-consumer-name" Sample.failingConsumerFunc 3 0).err =
      some "failed to ACK message (1-0): NOGROUP" :=
  ⟨rfl, rfl, rfl, rfl⟩

/-- C17 (amended): on every message it is given, the message handler of the
consume loop calls the handler function and then issues exactly one
acknowledgement, for the identifier of that message, whatever the handler
function returned.  Over a run of `ConsumeStream`, take the messages that its
reads returned, pending or new, in order: the calls of the handler function
and the acknowledgements of the run are exactly one call and then one
acknowledgement for each of the first `k` of these messages, in order, and
`k` falls short of all of them only when the run ended in an acknowledgement
that failed, whose error `ConsumeStream` returns; the messages read after that
one are neither handled nor acknowledged.  When no acknowledgement fails,
every message read is handled and then acknowledged, exactly once. -/
theorem ConsumeStream_acknowledges_delivered {W : Type} (c : Client W)
    (streamKey consumerGroup consumerName : String) (fn : ConsumerFunc W) (rounds : Nat)
    (w : W) :
    (∀ stream message u, (c.msgHandler consumerGroup fn stream message u).steps =
      [Step.fn message.Values (fn message.Values u).1,
        Step.xack stream consumerGroup message.ID
          (c.conn.XAck stream consumerGroup message.ID (fn message.Values u).2).1]) ∧
    (∃ k, k ≤ (delivered
        (c.ConsumeStream streamKey consumerGroup consumerName fn rounds w).steps).length ∧
      handlings (c.ConsumeStream streamKey consumerGroup consumerName fn rounds w).steps =
        handledThenAcked consumerGroup ((delivered
          (c.ConsumeStream streamKey consumerGroup consumerName fn rounds w).steps).take k) ∧
      (k < (delivered
          (c.ConsumeStream streamKey consumerGroup consumerName fn rounds w).steps).length →
        (c.ConsumeStream streamKey consumerGroup consumerName fn rounds w).endsInFailedAck)) ∧
    ((∀ s g id u, (c.conn.XAck s g id u).1 = none) →
      handlings (c.ConsumeStream streamKey consumerGroup consumerName fn rounds w).steps =
        handledThenAcked consumerGroup (delivered
          (c.ConsumeStream streamKey consumerGroup consumerName fn rounds w).steps)) := by
  have hq := setUp_quiet c streamKey consumerGroup w
  refine ⟨fun stream message u => msgHandler_steps c consumerGroup fn stream message u, ?_, ?_⟩
  · cases hs : (c.setUp streamKey consumerGroup w).err with
    | some e =>
      refine ⟨0, Nat.zero_le _, ?_, ?_⟩
      · simp [Client.ConsumeStream, hs, hq.2, handledThenAcked]
      · simp [Client.ConsumeStream, hs, hq.1]
    | none =>
      obtain ⟨k, hk, hh, hf⟩ := consume_handlings c streamKey consumerGroup consumerName fn
        rounds (c.setUp streamKey consumerGroup w).world
      refine ⟨k, ?_, ?_, ?_⟩
      · simpa [Client.ConsumeStream, hs, delivered_append, hq.1] using hk
      · simpa [Client.ConsumeStream, hs, delivered_append, handlings_append, hq.1, hq.2]
          using hh
      · intro hlt
        simp only [Client.ConsumeStream, hs, delivered_append, hq.1, List.nil_append] at hlt ⊢
        obtain ⟨pre, s, g, id, e, hsteps, herr⟩ := hf hlt
        exact ⟨(c.setUp streamKey consumerGroup w).steps ++ pre, s, g, id, e,
          by simp [hsteps], herr⟩
  · intro hack
    cases hs : (c.setUp streamKey consumerGroup w).err with
    | some e => simp [Client.ConsumeStream, hs, hq.1, hq.2, handledThenAcked]
    | none =>
      simp only [Client.ConsumeStream, hs, delivered_append, handlings_append, hq.1, hq.2,
        List.nil_append]
      exact consume_handlings_all c streamKey consumerGroup consumerName fn rounds _ hack

/-- On a server where every command succeeds, the two pending messages are
both handled and acknowledged. -/
theorem ConsumeStream_acknowledges_delivered_witness :
    handlings (Sample.server.ConsumeStream "test-stream" "test-consumer-group"
      "test-consumer-name" Sample.failingConsumerFunc 3 0).steps =
      handledThenAcked "test-consumer-group"
        (delivered (Sample.server.ConsumeStream "test-stream" "test-consumer-group"
          "test-consumer-name" Sample.failingConsumerFunc 3 0).steps) ∧
    delivered (Sample.server.ConsumeStream "test-stream" "test-consumer-group"
      "test-consumer-name" Sample.failingConsumerFunc 3 0).steps =
      [("test-stream", Sample.message "1-0"), ("test-stream", Sample.message "2-0")] :=
  ⟨(ConsumeStream_acknowledges_delivered Sample.server "test-stream" "test-consumer-group"
      "test-consumer-name" Sample.failingConsumerFunc 3 0).2.2 (fun _ _ _ _ => rfl),
   rfl⟩

/-- C18 fails as stated: on a server that refuses to create the consumer
group, `ConsumeStream` returns with that error after two commands, without a
read and without an acknowledgement. -/
theorem ConsumeStream_returns_from_setUp :
    (Sample.noAuthServer.ConsumeStream "test-stream" "test-consumer-group" "test-consumer-name"
      Sample.failingConsumerFunc 3 0).err =
      some "failed to create consumer group: failed to create consumer group: NOAUTH" ∧
    (Sample.noAuthServer.ConsumeStream "test-stream" "test-consumer-group" "test-consumer-name"
      Sample.failingConsumerFunc 3 0).steps =
      [Step.xinfoStreamFull "test-stream" none,
        Step.xgroupCreate "test-stream" "test-consumer-group" "$" (some "NOAUTH")] :=
  ⟨rfl, rfl⟩

/-- C18 (amended): a handler failure never terminates the consume loop: on
every message the message handler returns `nil` exactly when the
acknowledgement succeeds, whatever the handler function returned; and once
the stream and the consumer group are set up, `ConsumeStream` returns only on
a failed read or a failed acknowledgement, which is then its last step and
whose error it returns wrapped, so that it does not return as long as reads
and acknowledgements succeed. -/
theorem ConsumeStream_returns_on_transport_error {W : Type} (c : Client W)
    (streamKey consumerGroup consumerName : String) (fn : ConsumerFunc W) (rounds : Nat)
    (w : W) (hset : (c.setUp streamKey consumerGroup w).err = none) :
    (∀ stream message u,
      (c.msgHandler consumerGroup fn stream message u).err = none ↔
        (c.conn.XAck stream consumerGroup message.ID (fn message.Values u).2).1 = none) ∧
    (∀ e, (c.ConsumeStream streamKey consumerGroup consumerName fn rounds w).err = some e →
      ∃ pre last,
        (c.ConsumeStream streamKey consumerGroup consumerName fn rounds w).steps =
          pre ++ [last] ∧ last.failsWith e) ∧
    ((∀ args u, ∃ streams, (c.conn.XReadGroup args u).1 = Except.ok streams) →
      (∀ s g id u, (c.conn.XAck s g id u).1 = none) →
      (c.ConsumeStream streamKey consumerGroup consumerName fn rounds w).err = none) := by
  refine ⟨?_, ?_, ?_⟩
  · intro stream message u
    rw [msgHandler_err]
    cases (c.conn.XAck stream consumerGroup message.ID (fn message.Values u).2).1 <;> simp
  · intro e he
    simp only [Client.ConsumeStream, hset] at he ⊢
    obtain ⟨pre, last, hsteps, hlast⟩ :=
      consume_fails c streamKey consumerGroup consumerName fn rounds _ e he
    exact ⟨(c.setUp streamKey consumerGroup w).steps ++ pre, last,
      by rw [hsteps, List.append_assoc], hlast⟩
  · intro hread hack
    simp only [Client.ConsumeStream, hset]
    exact consume_ok c streamKey consumerGroup consumerName fn rounds _ hread hack

/-- With a handler function that always fails, the loop goes on; with
acknowledgements that fail, it returns at the first message. -/
theorem ConsumeStream_returns_on_transport_error_witness :
    (Sample.server.ConsumeStream "test-stream" "test-consumer-group" "test-consumer-name"
      Sample.failingConsumerFunc 3 0).err = none ∧
    (∃ pre last,
      (Sample.noAckServer.ConsumeStream "test-stream" "test-consumer-group"
        "test-consumer-name" Sample.failingConsumerFunc 3 0).steps = pre ++ [last] ∧
      last.failsWith "failed to ACK message (1-0): NOGROUP") :=
  ⟨(ConsumeStream_returns_on_transport_error Sample.server "test-stream" "test-consumer-group"
      "test-consumer-name" Sample.failingConsumerFunc 3 0 rfl).2.2
      (fun args u => by
        by_cases h : args.Streams = ["test-stream", "0"]
        · exact ⟨Sample.pending, by simp [Sample.server, h]⟩
        · exact ⟨[], by simp [Sample.server, h]⟩)
      (fun _ _ _ _ => rfl),
   (ConsumeStream_returns_on_transport_error Sample.noAckServer "test-stream"
      "test-consumer-group" "test-consumer-name" Sample.failingConsumerFunc 3 0 rfl).2.1
      "failed to ACK message (1-0): NOGROUP" rfl⟩

end

/-! ## Setting up and shutting down the SDK -/

/-- Joining `nil` with an error gives that error. -/
theorem errorsJoin_none (e : Option Error) : errorsJoin none e = e := by
  cases e <;> rfl

/-- With nothing registered, any number of calls of `shutdown` does nothing. -/
theorem shutdownTimes_nil {W : Type} (n : Nat) (w : W) :
    tracing.shutdownTimes n ([] : List (tracing.ShutdownFunc W)) w =
      (List.replicate n none, [], w, 0) := by
  induction n with
  | zero => rfl
  | succ n ih =>
    simp only [tracing.shutdownTimes, tracing.shutdown, tracing.runShutdownFuncs, ih]
    rfl

/-- C19: over any number of calls of the `shutdown` function that
`SetupOTelSDK` returns, the `Shutdown` of the provider is invoked exactly
once: the first call invokes it once and returns its error (`nil` when it
returns `nil`), and every later call invokes nothing and returns `nil`. -/
theorem shutdown_invokes_once {W : Type} (g : otel.Globals) (ctx : tracing.ValueContext)
    (config : tracing.TracingConfig W) (w : W) (n : Nat) :
    (tracing.shutdown (tracing.SetupOTelSDK g ctx config).shutdownFuncs w).invoked = 1 ∧
    (tracing.shutdown (tracing.SetupOTelSDK g ctx config).shutdownFuncs w).err =
      (config.Provider.Shutdown w).1 ∧
    (tracing.shutdown (tracing.SetupOTelSDK g ctx config).shutdownFuncs w).world =
      (config.Provider.Shutdown w).2 ∧
    (∀ u, (tracing.shutdown (tracing.shutdown (tracing.SetupOTelSDK g ctx
        config).shutdownFuncs w).shutdownFuncs u).invoked = 0 ∧
      (tracing.shutdown (tracing.shutdown (tracing.SetupOTelSDK g ctx
        config).shutdownFuncs w).shutdownFuncs u).err = none ∧
      (tracing.shutdown (tracing.shutdown (tracing.SetupOTelSDK g ctx
        config).shutdownFuncs w).shutdownFuncs u).world = u) ∧
    tracing.shutdownTimes (n + 1) (tracing.SetupOTelSDK g ctx config).shutdownFuncs w =
      ((config.Provider.Shutdown w).1 :: List.replicate n none, [],
        (config.Provider.Shutdown w).2, 1) := by
  have hf : (tracing.SetupOTelSDK g ctx config).shutdownFuncs = [config.Provider.Shutdown] :=
    rfl
  rw [hf]
  refine ⟨rfl, ?_, rfl, fun u => ⟨rfl, rfl, rfl⟩, ?_⟩
  · simp only [tracing.shutdown, tracing.runShutdownFuncs, errorsJoin_none]
  · simp only [tracing.shutdownTimes, tracing.shutdown, tracing.runShutdownFuncs,
      errorsJoin_none, shutdownTimes_nil]

/-- C20: `SetupOTelSDK` returns a `nil` error and a shutdown function that
holds the `Shutdown` of the provider; the context it returns carries the
tracer of the configured provider for the configured service name, and
`TracerFromContext` on that context returns that tracer, whatever the global
provider is by then. -/
theorem SetupOTelSDK_tracer {W : Type} (g g' : otel.Globals) (ctx : tracing.ValueContext)
    (config : tracing.TracingConfig W) :
    (tracing.SetupOTelSDK g ctx config).err = none ∧
    (tracing.SetupOTelSDK g ctx config).shutdownFuncs = [config.Provider.Shutdown] ∧
    (tracing.SetupOTelSDK g ctx config).ctx.tracer =
      some (config.Provider.TracerProvider.Tracer config.ServiceName) ∧
    tracing.TracerFromContext (tracing.SetupOTelSDK g ctx config).globals
      (tracing.SetupOTelSDK g ctx config).ctx =
      config.Provider.TracerProvider.Tracer config.ServiceName ∧
    tracing.TracerFromContext g' (tracing.SetupOTelSDK g ctx config).ctx =
      config.Provider.TracerProvider.Tracer config.ServiceName ∧
    tracing.GetServiceName (tracing.SetupOTelSDK g ctx config).ctx = config.ServiceName ∧
    otel.Tracer (tracing.SetupOTelSDK g ctx config).globals config.ServiceName =
      config.Provider.TracerProvider.Tracer config.ServiceName :=
  ⟨rfl, rfl, rfl, rfl, rfl, rfl, rfl⟩

/-! ## The Datadog logger -/

/-- The search of `strings.Index` finds an offset exactly when the text holds
the wanted bytes as a contiguous run. -/
theorem indexFrom_nonneg_iff (substr s : List Byte) (i : Nat) :
    0 ≤ strings.indexFrom substr s i ↔ substr <:+: s := by
  induction s generalizing i with
  | nil =>
    by_cases h : substr = []
    · simp [strings.indexFrom, h]
    · simp [strings.indexFrom, h]
  | cons c s ih =>
    by_cases hp : substr.isPrefixOf (c :: s) = true
    · have hpre : substr <+: c :: s := List.isPrefixOf_iff_prefix.mp hp
      simp only [strings.indexFrom, hp, if_true]
      exact ⟨fun _ => hpre.isInfix, fun _ => Int.ofNat_nonneg i⟩
    · have hnot : ¬ substr <+: c :: s := fun h => hp (List.isPrefixOf_iff_prefix.mpr h)
      simp only [strings.indexFrom, hp]
      rw [if_neg (by simp), ih (i + 1), List.infix_cons_iff]
      exact ⟨Or.inr, fun h => h.resolve_left hnot⟩

/-- The function `strings.Contains` decides whether the text holds the wanted
bytes as a contiguous run. -/
theorem Contains_iff (s substr : List Byte) :
    strings.Contains s substr = true ↔ substr <:+: s := by
  simp [strings.Contains, strings.Index, indexFrom_nonneg_iff]

/-- The text that `Log` searches is the first 100 bytes of the message; the
slice expression is never out of range. -/
theorem Log_searched (msg : List Byte) :
    (if msg.length > 100 then strings.sliceTo msg 100 else some msg) =
      some (msg.take 100) := by
  by_cases h : msg.length > 100
  · have hle : 100 ≤ msg.length := by omega
    simp [h, strings.sliceTo, hle]
  · have hle : msg.length ≤ 100 := by omega
    simp [h, List.take_of_length_le hle]

/-- The call that `Log` makes on the logger. -/
theorem Log_eq (p : datadog.DefaultLogger) (msg : List Byte) :
    p.Log msg = some { logger := p.logger ++
      [{ method := datadog.levelRule (msg.take 100), msg := msg }] } := by
  unfold datadog.DefaultLogger.Log
  simp only [Log_searched, Contains_iff]
  unfold datadog.levelRule
  split_ifs <;> rfl

/-- C21: for every message, of any length, `Log` returns (the slice expression
is in range) after exactly one call on the logger, which carries the whole
message and whose level is given by the first 100 bytes of the message alone:
`Error` if they contain `ERROR:`, else `Warn` if they contain `WARN:`, else
`Info` if they contain `INFO:`, else `Debug` if they contain `DEBUG:`, else
`Print`.  What follows byte 100 has no effect on the level: a marker that
occurs only there is not seen, as for 100 filler bytes followed by `ERROR:`,
which are logged with `Print`. -/
theorem Log_level_from_first_100_bytes (p : datadog.DefaultLogger) (msg : List Byte) :
    p.Log msg = some { logger := p.logger ++
      [{ method := datadog.levelRule (msg.take 100), msg := msg }] } ∧
    (∀ pre rest : List Byte, pre.length = 100 →
      p.Log (pre ++ rest) = some { logger := p.logger ++
        [{ method := datadog.levelRule pre, msg := pre ++ rest }] }) ∧
    (datadog.NewDefaultLogger []).Log Sample.lateMarker =
      some { logger := [{ method := zerolog.Method.print, msg := Sample.lateMarker }] } ∧
    (datadog.NewDefaultLogger []).Log Sample.warnMessage =
      some { logger := [{ method := zerolog.Method.warn, msg := Sample.warnMessage }] } := by
  refine ⟨Log_eq p msg, ?_, ?_, ?_⟩
  · intro pre rest hlen
    rw [Log_eq, List.take_left' hlen]
  · rw [Log_eq]
    have ht : Sample.lateMarker.take 100 = List.replicate 100 (byteOf 46) :=
      List.take_left' (List.length_replicate 100 (byteOf 46))
    have hno : ∀ b : Byte, b ≠ byteOf 46 → ∀ rest : List Byte,
        ¬ (b :: rest) <:+: List.replicate 100 (byteOf 46) := fun b hb rest hin =>
      hb (List.eq_of_mem_replicate (hin.subset (List.mem_cons_self b rest)))
    have h : datadog.levelRule (Sample.lateMarker.take 100) = zerolog.Method.print := by
      rw [ht]
      unfold datadog.levelRule
      have e1 : ¬ strings.ascii "ERROR:" <:+: List.replicate 100 (byteOf 46) :=
        hno (byteOf 69) (by decide) (strings.ascii "RROR:")
      have e2 : ¬ strings.ascii "WARN:" <:+: List.replicate 100 (byteOf 46) :=
        hno (byteOf 87) (by decide) (strings.ascii "ARN:")
      have e3 : ¬ strings.ascii "INFO:" <:+: List.replicate 100 (byteOf 46) :=
        hno (byteOf 73) (by decide) (strings.ascii "NFO:")
      have e4 : ¬ strings.ascii "DEBUG:" <:+: List.replicate 100 (byteOf 46) :=
        hno (byteOf 68) (by decide) (strings.ascii "EBUG:")
      rw [if_neg e1, if_neg e2, if_neg e3, if_neg e4]
    rw [h]; rfl
  · rw [Log_eq]
    have h : datadog.levelRule (Sample.warnMessage.take 100) = zerolog.Method.warn := by decide
    rw [h]; rfl

/-- A message of 100 filler bytes followed by `ERROR:`: the level is that of
the filler bytes. -/
theorem Log_level_from_first_100_bytes_witness :
    (List.replicate 100 (byteOf 46)).length = 100 ∧
    (datadog.NewDefaultLogger []).Log (List.replicate 100 (byteOf 46) ++ strings.ascii "ERROR:") =
      some { logger := (datadog.NewDefaultLogger []).logger ++
        [{ method := datadog.levelRule (List.replicate 100 (byteOf 46)),
           msg := List.replicate 100 (byteOf 46) ++ strings.ascii "ERROR:" }] } :=
  ⟨List.length_replicate 100 (byteOf 46),
   (Log_level_from_first_100_bytes (datadog.NewDefaultLogger []) []).2.1
      (List.replicate 100 (byteOf 46)) (strings.ascii "ERROR:")
      (List.length_replicate 100 (byteOf 46))⟩

/-! ## Headers of the envelope -/

/-- With no span and no baggage in the context, the installed propagator
writes nothing. -/
theorem newPropagator_Inject_background :
    tracing.newPropagator.Inject Sample.background = [] := by
  decide

/-- C22 at the failing input: the envelope carries
`traceparent = 00-0af7651916cd43dd8448eb211c80319c-b7ad6b7169203331-01` and
`tracestate = vendor=1`, the context has no active span, so that the
propagator writes nothing; after `WrapPublishMessage` both fields of the
envelope are empty. -/
theorem WrapPublishMessage_erases_existing_headers :
    tracing.newPropagator.Inject Sample.background = [] ∧
    Sample.tracedEnvelope.EventHeader.TraceParent =
      "00-0af7651916cd43dd8448eb211c80319c-b7ad6b7169203331-01" ∧
    Sample.tracedEnvelope.EventHeader.TraceState = "vendor=1" ∧
    (redis.WrapPublishMessage tracing.newPropagator Event.redisMessage Sample.background
      Sample.tracedEnvelope).EventHeader.TraceParent = "" ∧
    (redis.WrapPublishMessage tracing.newPropagator Event.redisMessage Sample.background
      Sample.tracedEnvelope).EventHeader.TraceState = "" := by
  refine ⟨newPropagator_Inject_background, rfl, rfl, ?_, ?_⟩
  · simp only [redis.WrapPublishMessage, newPropagator_Inject_background]
    rfl
  · simp only [redis.WrapPublishMessage, newPropagator_Inject_background]
    rfl

/-- C23 at the failing input: after `SetHeaders` with a map that holds both
`traceparent` and `tracestate = vendor=1`, the envelope stores both, the map
that `Headers()` returns has the `traceparent` and no `tracestate` key, so
that the carrier over it reads `tracestate` as the empty string; and an
envelope wrapped in a context whose span has the trace state `vendor=1` is
extracted with the trace identifier of that span and an empty trace state. -/
theorem Headers_drops_tracestate :
    redis.index Sample.bothHeaders "tracestate" = "vendor=1" ∧
    ((Sample.envelope 0).SetHeaders Sample.bothHeaders).EventHeader.TraceState = "vendor=1" ∧
    redis.index ((Sample.envelope 0).SetHeaders Sample.bothHeaders).Headers "traceparent" =
      redis.index Sample.bothHeaders "traceparent" ∧
    ((Sample.envelope 0).SetHeaders Sample.bothHeaders).Headers.lookup "tracestate" = none ∧
    redis.index ((Sample.envelope 0).SetHeaders Sample.bothHeaders).Headers "tracestate" = "" ∧
    (redis.EventCarrier.mk
      ((Sample.envelope 0).SetHeaders Sample.bothHeaders).Headers).Get "tracestate" = "" ∧
    (redis.WrapPublishMessage tracing.newPropagator Event.redisMessage Sample.stateCtx
      (Sample.envelope 0)).EventHeader.TraceState = "vendor=1" ∧
    (redis.ExtractTraceContext tracing.newPropagator Event.redisMessage Sample.background
      (redis.WrapPublishMessage tracing.newPropagator Event.redisMessage Sample.stateCtx
        (Sample.envelope 0))).spanContext.TraceID = 0x0af7651916cd43dd8448eb211c80319c ∧
    (redis.ExtractTraceContext tracing.newPropagator Event.redisMessage Sample.background
      (redis.WrapPublishMessage tracing.newPropagator Event.redisMessage Sample.stateCtx
        (Sample.envelope 0))).spanContext.TraceState = "" := by
  refine ⟨by decide, by decide, by decide, by decide, by decide, by decide, by decide,
    by decide, ?_⟩
  decide

section
open examples.redis

/-- C24 at the failing input: getting the stream information fails with
`NOAUTH Authentication required.`; `checkStreamExistence` returns `nil`, and
`PublishToStream` goes on to `XADD` and returns the identifier with a `nil`
error. -/
theorem checkStreamExistence_swallows_other_errors :
    (Sample.noInfoServer.conn.XInfoStreamFull "test-stream" 0 0).1 =
      some "NOAUTH Authentication required." ∧
    (Sample.noInfoServer.checkStreamExistence "test-stream" 0).err = none ∧
    (Sample.noInfoServer.PublishToStream "test-stream" (Sample.message "1-0").Values 0).err =
      none ∧
    (Sample.noInfoServer.PublishToStream "test-stream" (Sample.message "1-0").Values 0).id =
      "1-0" ∧
    (Sample.noInfoServer.PublishToStream "test-stream" (Sample.message "1-0").Values 0).steps =
      [Step.xinfoStreamFull "test-stream" (some "NOAUTH Authentication required."),
        Step.xadd "test-stream" none] :=
  ⟨rfl, rfl, rfl, rfl, rfl⟩

end

/-! ## Consumer name and consumer group -/

section
open examples.redis

/-- The call that `Consume` makes on the stream client: the consumer name of
the consumer is the second argument of `ConsumeStream` and its consumer group
the third. -/
theorem Consume_asRedisClient {T W : Type} (text : json.Text) (codec : json.Codec T)
    (client : Client W) (rounds : Nat) (streamKey consumerName consumerGroup : String)
    (fn : RedisConsumerFunc T W) (w : W) :
    RedisConsumer.Consume text codec
      (NewRedisConsumer streamKey consumerName consumerGroup (client.asRedisClient rounds))
      fn w =
    ((client.ConsumeStream streamKey consumerName consumerGroup
        (fun data u => ((RedisConsumer.callback text codec fn data u).result,
          (RedisConsumer.callback text codec fn data u).world)) rounds w).err,
      (client.ConsumeStream streamKey consumerName consumerGroup
        (fun data u => ((RedisConsumer.callback text codec fn data u).result,
          (RedisConsumer.callback text codec fn data u).world)) rounds w).world) :=
  rfl

/-- C25 at the failing input: a consumer made by
`NewRedisConsumer("test-stream", "worker-1", "orders", client)` has the
consumer name `worker-1` and the consumer group `orders`; its `Consume` makes
the client create the group `worker-1`, read with `GROUP worker-1 orders`
(group `worker-1`, consumer `orders`) and acknowledge against the group
`worker-1`. -/
theorem Consume_swaps_group_and_consumer :
    (NewRedisConsumer "test-stream" "worker-1" "orders"
      (Sample.recordingServer.asRedisClient 1)).consumerName = "worker-1" ∧
    (NewRedisConsumer "test-stream" "worker-1" "orders"
      (Sample.recordingServer.asRedisClient 1)).consumerGroup = "orders" ∧
    RedisConsumer.Consume Sample.compactText Sample.stringCodec
      (NewRedisConsumer "test-stream" "worker-1" "orders"
        (Sample.recordingServer.asRedisClient 1))
      (fun _ w => (none, w)) [] =
    (none,
      ["XINFO STREAM test-stream", "XGROUP CREATE test-stream worker-1 $",
        "XREADGROUP GROUP worker-1 orders", "XACK test-stream worker-1 1-0",
        "XACK test-stream worker-1 2-0", "XREADGROUP GROUP worker-1 orders"]) ∧
    (pendingArgs "test-stream" "worker-1" "orders").Group = "worker-1" ∧
    (pendingArgs "test-stream" "worker-1" "orders").Consumer = "orders" := by
  refine ⟨rfl, rfl, ?_, rfl, rfl⟩
  rw [Consume_asRedisClient]
  rfl

end

/-! ## The Gin middleware -/

/-- The status that the middleware records is the status of the writer before
the handlers after it have run. -/
theorem DatadogTracingMiddleware_statusCode (next : gin.Handlers) (c : gin.Context) :
    middlewares.statusCodeOf (middlewares.DatadogTracingMiddleware next c).spanAttributes =
      some (otel.AttributeValue.Int c.Status) := by
  simp [middlewares.DatadogTracingMiddleware, middlewares.statusCodeOf]

/-- C26 at the failing input: a `GET` request arrives with the status `200` of
a fresh writer and the handler after the middleware answers `404`; the writer
has the status `404` after `c.Next()`, and the span has
`http.status_code = 200`. -/
theorem DatadogTracingMiddleware_records_status_before_Next :
    Sample.request.Status = 200 ∧
    (Sample.notFound Sample.request).Status = 404 ∧
    (middlewares.DatadogTracingMiddleware Sample.notFound Sample.request).Status = 404 ∧
    (middlewares.DatadogTracingMiddleware Sample.notFound Sample.request).spanAttributes =
      [{ Key := "http.method", Value := otel.AttributeValue.String "GET" },
        { Key := "http.status_code", Value := otel.AttributeValue.Int 200 }] ∧
    middlewares.statusCodeOf
      (middlewares.DatadogTracingMiddleware Sample.notFound Sample.request).spanAttributes =
      some (otel.AttributeValue.Int 200) := by
  refine ⟨rfl, rfl, rfl, rfl, ?_⟩
  rw [DatadogTracingMiddleware_statusCode]
  rfl

/-! ## Headers of an AMQP delivery that are not strings -/

/-- The copy loop of the AMQP helpers: a key reads in the copy as in the
table it was copied from, or as in the map copied into when the table does
not have it. -/
theorem lookup_foldl_insert (l : List (Sigma fun _ : String => Any)) (hl : l.NodupKeys)
    (acc : rabbitmq.Headers) (k : String) :
    (l.foldl (fun h kv => h.insert kv.1 kv.2) acc).lookup k =
      (l.dlookup k <|> acc.lookup k) := by
  induction l generalizing acc with
  | nil => simp
  | cons x xs ih =>
    obtain ⟨a, b⟩ := x
    obtain ⟨hx, hxs⟩ := List.nodupKeys_cons.mp hl
    rw [List.foldl_cons, ih hxs]
    by_cases hk : k = a
    · subst hk
      have hnone : xs.dlookup k = none := List.dlookup_eq_none.mpr hx
      simp [hnone, AList.lookup_insert, List.dlookup_cons_eq]
    · simp [AList.lookup_insert_ne hk, List.dlookup_cons_ne xs ⟨a, b⟩ hk]

/-- The headers that `ExtractTraceContextFromDelivery` copies read as the
table of the delivery. -/
theorem copied_lookup (table : rabbitmq.Headers) (k : String) :
    (table.entries.foldl (fun h kv => h.insert kv.1 kv.2)
      (∅ : rabbitmq.Headers)).lookup k = table.lookup k := by
  rw [lookup_foldl_insert _ table.nodupKeys]
  simp [AList.lookup]

/-- The AMQP `Get` of a key whose value is not a string. -/
theorem rabbitmq_Get_of_non_string (headers : rabbitmq.Headers) (key : String) (v : Any)
    (hv : headers.lookup key = some v) (hns : ∀ s, v ≠ Any.str s) :
    (rabbitmq.EventCarrier.mk headers).Get key = "" := by
  cases v with
  | str s => exact absurd rfl (hns s)
  | int i => simp [rabbitmq.EventCarrier.Get, hv]
  | bool b => simp [rabbitmq.EventCarrier.Get, hv]
  | bytes bs => simp [rabbitmq.EventCarrier.Get, hv]
  | null => simp [rabbitmq.EventCarrier.Get, hv]

/-- C27: for the AMQP carrier, `Get` is a total function (it returns a string
on every carrier and key), and for a key whose stored value is not a string
it returns the empty string, as it does once the key is removed, while `Keys`
lists the key; and a delivery whose `traceparent` header is not a string is
extracted, by the propagator that `SetupOTelSDK` installs, to a context with
the span context of the context given: no trace parent is taken from it. -/
theorem rabbitmq_Get_non_string (c : rabbitmq.EventCarrier) (key : String) (v : Any)
    (hv : c.headers.lookup key = some v) (hns : ∀ s, v ≠ Any.str s) :
    c.Get key = "" ∧
    (rabbitmq.EventCarrier.mk (c.headers.erase key)).Get key = "" ∧
    key ∈ c.Keys ∧
    (key = "traceparent" → ∀ ctx : Context,
      (rabbitmq.ExtractTraceContextFromDelivery tracing.newPropagator ctx
        { Headers := some c.headers }).spanContext = ctx.spanContext ∧
      (rabbitmq.ExtractTraceContextFromDelivery tracing.newPropagator ctx
        { Headers := some c.headers }).spanContext =
        (rabbitmq.ExtractTraceContextFromDelivery tracing.newPropagator ctx
          { Headers := some (c.headers.erase key) }).spanContext) := by
  have habsent : ∀ headers : rabbitmq.Headers, headers.lookup "traceparent" = none →
      ∀ ctx : Context, (rabbitmq.ExtractTraceContextFromDelivery tracing.newPropagator ctx
        { Headers := some headers }).spanContext = ctx.spanContext := by
    intro headers hnone ctx
    have hget : (rabbitmq.EventCarrier.mk (headers.entries.foldl
        (fun h kv => h.insert kv.1 kv.2) (∅ : rabbitmq.Headers))).Get "traceparent" = "" := by
      simp [rabbitmq.EventCarrier.Get, copied_lookup, hnone]
    simp only [rabbitmq.ExtractTraceContextFromDelivery, tracing.newPropagator,
      propagation.NewCompositeTextMapPropagator, propagation.TraceContext,
      propagation.Baggage, List.foldl, propagation.TraceContext.extract, hget, if_true]
    split_ifs <;> first | rfl | simp_all [trace.SpanContext.IsValid, trace.SpanContext.zero]
  refine ⟨rabbitmq_Get_of_non_string c.headers key v hv hns, ?_, ?_, ?_⟩
  · simp [rabbitmq.EventCarrier.Get, AList.lookup_erase]
  · rw [rabbitmq_Keys_eq, ← AList.mem_keys, ← AList.lookup_isSome, hv]
    rfl
  · intro hkey ctx
    subst hkey
    have hget : (rabbitmq.EventCarrier.mk (c.headers.entries.foldl
        (fun h kv => h.insert kv.1 kv.2) (∅ : rabbitmq.Headers))).Get "traceparent" = "" :=
      rabbitmq_Get_of_non_string _ "traceparent" v (by rw [copied_lookup, hv]) hns
    have hthis : (rabbitmq.ExtractTraceContextFromDelivery tracing.newPropagator ctx
        { Headers := some c.headers }).spanContext = ctx.spanContext := by
      simp only [rabbitmq.ExtractTraceContextFromDelivery, tracing.newPropagator,
        propagation.NewCompositeTextMapPropagator, propagation.TraceContext,
        propagation.Baggage, List.foldl, propagation.TraceContext.extract, hget, if_true]
      split_ifs <;> first | rfl | simp_all [trace.SpanContext.IsValid, trace.SpanContext.zero]
    exact ⟨hthis, by rw [hthis, habsent _ (AList.lookup_erase _ _) ctx]⟩

/-- A delivery whose `traceparent` header is the integer 42, extracted into a
context that carries a span. -/
theorem rabbitmq_Get_non_string_witness :
    Sample.intCarrier.Get "traceparent" = "" ∧
    "traceparent" ∈ Sample.intCarrier.Keys ∧
    (rabbitmq.ExtractTraceContextFromDelivery tracing.newPropagator Sample.spanCtx
      Sample.intDelivery).spanContext = Sample.spanCtx.spanContext :=
  ⟨(rabbitmq_Get_non_string Sample.intCarrier "traceparent" (Any.int 42) (by decide)
      (fun _ => Any.noConfusion)).1,
   (rabbitmq_Get_non_string Sample.intCarrier "traceparent" (Any.int 42) (by decide)
      (fun _ => Any.noConfusion)).2.2.1,
   ((rabbitmq_Get_non_string Sample.intCarrier "traceparent" (Any.int 42) (by decide)
      (fun _ => Any.noConfusion)).2.2.2 rfl Sample.spanCtx).1⟩

end GoTracing
